import Mathlib

/-!
Default-gateway cache patching in `pkg/netutils/netutils.go`

A shallow embedding of the result-cache patcher of multus-cni
(`addDefaultGWCacheBytes`, `deleteDefaultGWCacheBytes` and the functions they
call) together with the small part of Go's `encoding/json` and `net` packages
that the patcher observes.

* `Json` is the syntax tree of a JSON text, `GoVal` the Go value that
  `json.Unmarshal` builds from it (or that the patcher builds in memory).
* A Go `map[string]interface{}` is an association list kept in key order;
  `mapGet`, `mapSet` and `mapDelete` are `m[k]`, `m[k] = v` and `delete(m, k)`.
* A Go `[]interface{}` variable is a `Slice`; `none` is the nil slice, which
  `json.Marshal` writes as `null`.
* Errors are the error sites of the source, without the formatted payload.
* `JsonText` is a JSON text with its number tokens; `lexNumbers` and
  `printNumbers` are the passage of the numbers through `float64` on the way
  in (`strconv.ParseFloat`) and on the way out (the shortest decimal that
  reads back), so that `addDefaultGWCacheText` and `deleteDefaultGWCacheText`
  are the patcher on the text.
-/

namespace Netutils

/-! ## JSON texts and Go values -/

/-- Syntax tree of a JSON text. A number leaf carries the `float64` that the
decoder produces for it (as an uninterpreted code); object members are kept in
textual order and may repeat a key. -/
inductive Json where
  | null
  | bool (b : Bool)
  | num (f : Nat)
  | str (s : String)
  | arr (elems : List Json)
  | obj (members : List (String × Json))

/-- Go values of dynamic type `interface{}` that occur in the patcher:
the six shapes `json.Unmarshal` produces, the nil `[]interface{}` and the
`map[string]string` literals that the add path appends. -/
inductive GoVal where
  | nil
  | bool (b : Bool)
  | float64 (f : Nat)
  | string (s : String)
  | sliceNil
  | slice (elems : List GoVal)
  | map (m : List (String × GoVal))
  | mapString (m : List (String × String))

/-- A Go `map[string]interface{}`. -/
abbrev GoMap := List (String × GoVal)

/-- A Go variable of type `[]interface{}`; `none` is the nil slice. -/
abbrev Slice := Option (List GoVal)

/-- Lexicographic order on code sequences. -/
def ltCodes : List Nat → List Nat → Bool
  | _, [] => false
  | [], _ :: _ => true
  | a :: as, b :: bs => if a < b then true else if a = b then ltCodes as bs else false

/-- The order in which `json.Marshal` writes map keys: Go compares strings
bytewise, which on UTF-8 is the order of the code points. -/
def keyLt (a b : String) : Bool :=
  ltCodes (a.data.map Char.toNat) (b.data.map Char.toNat)

/-- Puts a binding at its place in a key-ordered association list. -/
def insertKey {α : Type} (k : String) (v : α) : List (String × α) → List (String × α)
  | [] => [(k, v)]
  | (k', v') :: t =>
    if keyLt k k' then (k, v) :: (k', v') :: t else (k', v') :: insertKey k v t

/-- Orders an association list by key. -/
def sortKeys {α : Type} : List (String × α) → List (String × α)
  | [] => []
  | (k, v) :: t => insertKey k v (sortKeys t)

/-- The comma-ok lookup of Go, `v, ok := m[k]`. -/
def mapGet : GoMap → String → Option GoVal
  | [], _ => none
  | (k', v) :: t, k => if k' = k then some v else mapGet t k

/-- The builtin `delete(m, k)`. -/
def mapDelete : GoMap → String → GoMap
  | [], _ => []
  | (k', v) :: t, k => if k' = k then mapDelete t k else (k', v) :: mapDelete t k

/-- The assignment `m[k] = v`. -/
def mapSet (m : GoMap) (k : String) (v : GoVal) : GoMap :=
  insertKey k v (mapDelete m k)

/-- Type assertion `v.(map[string]interface{})`. -/
def GoVal.asMap : GoVal → Option GoMap
  | .map m => some m
  | _ => none

/-- Type assertion `v.(string)`. -/
def GoVal.asString : GoVal → Option String
  | .string s => some s
  | _ => none

/-- Type assertion `v.([]interface{})`. -/
def GoVal.asSlice : GoVal → Option Slice
  | .sliceNil => some none
  | .slice xs => some (some xs)
  | _ => none

/-- The elements a `range` loop visits. -/
def sliceElems : Slice → List GoVal
  | none => []
  | some xs => xs

/-- The builtin `append(s, v)`. -/
def sliceAppend (s : Slice) (v : GoVal) : Slice :=
  some (sliceElems s ++ [v])

/-- Storing a `[]interface{}` in an `interface{}`. -/
def sliceVal : Slice → GoVal
  | none => .sliceNil
  | some xs => .slice xs

mutual
/-- What `json.Unmarshal` stores in an `interface{}`. -/
def decode : Json → GoVal
  | .null => .nil
  | .bool b => .bool b
  | .num f => .float64 f
  | .str s => .string s
  | .arr xs => .slice (decodeList xs)
  | .obj kvs => .map (decodeMembers kvs [])
/-- Decoding of array elements. -/
def decodeList : List Json → List GoVal
  | [] => []
  | x :: xs => decode x :: decodeList xs
/-- Decoding of object members into a map: members are stored in textual
order, so a repeated key keeps its last value. -/
def decodeMembers : List (String × Json) → GoMap → GoMap
  | [], acc => acc
  | (k, v) :: kvs, acc => decodeMembers kvs (mapSet acc k (decode v))
end

/-- Members of a marshalled `map[string]string`. -/
def marshalStrings : List (String × String) → List (String × Json)
  | [] => []
  | (k, s) :: t => (k, .str s) :: marshalStrings t

mutual
/-- What `json.Marshal` writes for a value: a nil slice is `null`, map keys
are written in sorted order. -/
def marshal : GoVal → Json
  | .nil => .null
  | .bool b => .bool b
  | .float64 f => .num f
  | .string s => .str s
  | .sliceNil => .null
  | .slice xs => .arr (marshalList xs)
  | .map m => .obj (sortKeys (marshalMembers m))
  | .mapString m => .obj (sortKeys (marshalStrings m))
/-- Marshalling of slice elements. -/
def marshalList : List GoVal → List Json
  | [] => []
  | x :: xs => marshal x :: marshalList xs
/-- Marshalling of map bindings. -/
def marshalMembers : List (String × GoVal) → List (String × Json)
  | [] => []
  | (k, v) :: t => (k, marshal v) :: marshalMembers t
end

/-- Content of a cache file: bytes that are no JSON text, or the JSON text
they spell. -/
inductive Bytes where
  | malformed (raw : List Nat)
  | text (doc : Json)

/-- Error sites of the patcher. -/
inductive Err where
  | unmarshal
  | cannotGetResult
  | wrongResultType
  | wrongRouteFormat
  | wrongDstFormat
  | wrongCniVersionFormat
  | notSupportedVersion (cniVersion : String)
  | wrongRoutesFormat
  | wrongIp4Format
  | wrongIp4RoutesFormat
  | wrongIp6Format
  | wrongIp6RoutesFormat

/-- The call `json.Unmarshal(cacheFile, &cachedInfo)` with `cachedInfo` a nil
`map[string]interface{}`: the text `null` leaves the map nil (no binding), any
other text that is not an object is an error. -/
def jsonUnmarshal : Bytes → Except Err GoMap
  | .malformed _ => .error .unmarshal
  | .text .null => .ok []
  | .text (.obj kvs) => .ok (decodeMembers kvs [])
  | .text _ => .error .unmarshal

/-- The call `json.Marshal(cachedInfo)`; it cannot fail on these values. -/
def jsonMarshal (cachedInfo : GoMap) : Bytes :=
  .text (marshal (.map cachedInfo))

/-! ## `net.IP` -/

/-- A `net.IP`: its bytes. -/
abbrev IP := List Nat

/-- The method `IP.To4`: the 4-byte form, `none` for nil. -/
def To4 (ip : IP) : Option IP :=
  if ip.length = 4 then some ip
  else if ip.length = 16 ∧ ip.take 10 = List.replicate 10 0 ∧ ip.get? 10 = some 255
      ∧ ip.get? 11 = some 255 then some (ip.drop 12)
  else none

/-- Lower-case hexadecimal digits of a number, without leading zeros. -/
def hexString (n : Nat) : String := String.mk (Nat.toDigits 16 n)

/-- Two lower-case hexadecimal digits per byte. -/
def hexBytes : List Nat → String
  | [] => ""
  | b :: t => hexString (b / 16) ++ hexString (b % 16) ++ hexBytes t

/-- The eight 16-bit groups of a 16-byte address. -/
def groups16 : List Nat → List Nat
  | hi :: lo :: t => (hi * 256 + lo) :: groups16 t
  | _ => []

/-- Length of the run of zero groups that starts at group `i`. -/
def zeroRun (g : List Nat) (i : Nat) : Nat :=
  ((g.drop i).takeWhile (fun x => x == 0)).length

/-- The first longest run of at least two zero groups, as start and end;
`(255, 255)` when there is none. -/
def longestZeroRun (g : List Nat) : Nat × Nat :=
  (List.range 8).foldl
    (fun z i => if zeroRun g i ≥ 2 ∧ zeroRun g i > z.2 - z.1 then (i, i + zeroRun g i) else z)
    (255, 255)

/-- The printing loop of an IPv6 address, group `i` onwards. -/
def appendGroups (g : List Nat) (zeroStart zeroEnd : Nat) : Nat → Nat → String → String
  | 0, _, ret => ret
  | fuel + 1, i, ret =>
    if i ≥ 8 then ret
    else if i = zeroStart then
      if zeroEnd ≥ 8 then ret ++ "::"
      else appendGroups g zeroStart zeroEnd fuel (zeroEnd + 1)
        (ret ++ "::" ++ hexString (g.getD zeroEnd 0))
    else
      appendGroups g zeroStart zeroEnd fuel (i + 1)
        (ret ++ (if i > 0 then ":" else "") ++ hexString (g.getD i 0))

/-- The method `IP.String`. -/
def ipString (ip : IP) : String :=
  if ip.length = 0 then "<nil>"
  else if ip.length ≠ 4 ∧ ip.length ≠ 16 then "?" ++ hexBytes ip
  else match To4 ip with
    | some p4 => String.intercalate "." (p4.map toString)
    | none =>
      let g := groups16 ip
      appendGroups g (longestZeroRun g).1 (longestZeroRun g).2 9 0 ""

/-! ## The patcher -/

/-- The loop of `deleteDefaultGWResultRoutes`; `newRoutes` starts as the nil
slice. -/
def deleteRoutesLoop (dstGW : String) : List GoVal → Slice → Except Err Slice
  | [], newRoutes => .ok newRoutes
  | r :: rest, newRoutes =>
    match r.asMap with
    | none => .error .wrongRouteFormat
    | some route =>
      match mapGet route "dst" with
      | none => deleteRoutesLoop dstGW rest newRoutes
      | some d =>
        match d.asString with
        | none => .error .wrongDstFormat
        | some dst =>
          if dst ≠ dstGW then deleteRoutesLoop dstGW rest (sliceAppend newRoutes r)
          else deleteRoutesLoop dstGW rest newRoutes

/-- Source `deleteDefaultGWResultRoutes`. -/
def deleteDefaultGWResultRoutes (routes : Slice) (dstGW : String) : Except Err Slice :=
  deleteRoutesLoop dstGW (sliceElems routes) none

/-- One family block of `deleteDefaultGWResult020`: `key` is `ip4` or `ip6`. -/
def deleteFamily020 (result : GoMap) (key dstGW : String) (eObj eRoutes : Err) :
    Except Err GoMap :=
  match mapGet result key with
  | none => .ok result
  | some v =>
    match v.asMap with
    | none => .error eObj
    | some ipN =>
      match mapGet ipN "routes" with
      | none => .ok result
      | some rv =>
        match rv.asSlice with
        | none => .error eRoutes
        | some routes =>
          match deleteDefaultGWResultRoutes routes dstGW with
          | .error e => .error e
          | .ok routes => .ok (mapSet result key (.map (mapSet ipN "routes" (sliceVal routes))))

/-- Source `deleteDefaultGWResult020`. -/
def deleteDefaultGWResult020 (result : GoMap) (ipv4 ipv6 : Bool) : Except Err GoMap :=
  match (if ipv4 then
      deleteFamily020 result "ip4" "0.0.0.0/0" .wrongIp4Format .wrongIp4RoutesFormat
    else .ok result) with
  | .error e => .error e
  | .ok result =>
    if ipv6 then deleteFamily020 result "ip6" "::0/0" .wrongIp6Format .wrongIp6RoutesFormat
    else .ok result

/-- The part of `deleteDefaultGWResult` after the version check (source lines
190 to 222): the unified schema. -/
def deleteUnified (result : GoMap) (ipv4 ipv6 : Bool) : Except Err GoMap :=
  match mapGet result "routes" with
  | none => .ok result
  | some rv =>
    match rv.asSlice with
    | none => .error .wrongRoutesFormat
    | some routes =>
      match (if ipv4 then deleteDefaultGWResultRoutes routes "0.0.0.0/0"
        else .ok routes) with
      | .error e => .error e
      | .ok routes =>
        match (if ipv6 then deleteDefaultGWResultRoutes routes "::0/0"
          else .ok routes) with
        | .error e => .error e
        | .ok routes =>
          if (sliceElems routes).length = 0 then .ok (mapDelete result "routes")
          else .ok (mapSet result "routes" (sliceVal routes))

/-- Source `deleteDefaultGWResult`. -/
def deleteDefaultGWResult (result : GoMap) (ipv4 ipv6 : Bool) : Except Err GoMap :=
  match mapGet result "cniVersion" with
  | none => deleteDefaultGWResult020 result ipv4 ipv6
  | some v =>
    match v.asString with
    | none => .error .wrongCniVersionFormat
    | some cniVersion =>
      if cniVersion = "0.1.0" ∨ cniVersion = "0.2.0" then
        deleteDefaultGWResult020 result ipv4 ipv6
      else if cniVersion ≠ "0.3.0" ∧ cniVersion ≠ "0.3.1" ∧ cniVersion ≠ "0.4.0"
          ∧ cniVersion ≠ "1.0.0" then
        .error (.notSupportedVersion cniVersion)
      else deleteUnified result ipv4 ipv6

/-- Source `deleteDefaultGWCacheBytes`. -/
def deleteDefaultGWCacheBytes (cacheFile : Bytes) (ipv4 ipv6 : Bool) : Except Err Bytes :=
  match jsonUnmarshal cacheFile with
  | .error e => .error e
  | .ok cachedInfo =>
    match mapGet cachedInfo "result" with
    | none => .error .cannotGetResult
    | some res =>
      match res.asMap with
      | none => .error .wrongResultType
      | some resultJSON =>
        match deleteDefaultGWResult resultJSON ipv4 ipv6 with
        | .error e => .error e
        | .ok newResult => .ok (jsonMarshal (mapSet cachedInfo "result" (.map newResult)))

/-- The `map[string]string` literal that the add path appends. -/
def routeEntry (dst gw : String) : GoVal :=
  .mapString [("dst", dst), ("gw", gw)]

/-- One family block of the loop body of `addDefaultGWResult020`. -/
def addFamily020 (result : GoMap) (key dst : String) (g : IP) (eObj eRoutes : Err) :
    Except Err GoMap :=
  match mapGet result key with
  | none => .ok result
  | some v =>
    match v.asMap with
    | none => .error eObj
    | some ipN =>
      match (match mapGet ipN "routes" with
        | none => some (some [])
        | some rv => rv.asSlice) with
      | none => .error eRoutes
      | some routes =>
        .ok (mapSet result key
          (.map (mapSet ipN "routes" (sliceVal (sliceAppend routes (routeEntry dst (ipString g)))))))

/-- Source `addDefaultGWResult020`. -/
def addDefaultGWResult020 (result : GoMap) : List IP → Except Err GoMap
  | [] => .ok result
  | g :: gw =>
    match (if (To4 g).isSome then
        addFamily020 result "ip4" "0.0.0.0/0" g .wrongIp4Format .wrongIp4RoutesFormat
      else addFamily020 result "ip6" "::/0" g .wrongIp6Format .wrongIp6RoutesFormat) with
    | .error e => .error e
    | .ok result => addDefaultGWResult020 result gw

/-- The gateway loop of `addDefaultGWResult`. -/
def appendGateways (routes : Slice) : List IP → Slice
  | [] => routes
  | g :: gw =>
    appendGateways
      (sliceAppend routes (routeEntry (if (To4 g).isNone then "::0/0" else "0.0.0.0/0") (ipString g)))
      gw

/-- The part of `addDefaultGWResult` after the version check (source lines
347 to 368): the unified schema. -/
def addUnified (result : GoMap) (gw : List IP) : Except Err GoMap :=
  match (match mapGet result "routes" with
    | none => some (some [])
    | some rv => rv.asSlice) with
  | none => .error .wrongRoutesFormat
  | some routes => .ok (mapSet result "routes" (sliceVal (appendGateways routes gw)))

/-- Source `addDefaultGWResult`. -/
def addDefaultGWResult (result : GoMap) (gw : List IP) : Except Err GoMap :=
  match mapGet result "cniVersion" with
  | none => addDefaultGWResult020 result gw
  | some v =>
    match v.asString with
    | none => .error .wrongCniVersionFormat
    | some cniVersion =>
      if cniVersion = "0.1.0" ∨ cniVersion = "0.2.0" then
        addDefaultGWResult020 result gw
      else if cniVersion ≠ "0.3.0" ∧ cniVersion ≠ "0.3.1" ∧ cniVersion ≠ "0.4.0"
          ∧ cniVersion ≠ "1.0.0" then
        .error (.notSupportedVersion cniVersion)
      else addUnified result gw

/-- Source `addDefaultGWCacheBytes`. -/
def addDefaultGWCacheBytes (cacheFile : Bytes) (gw : List IP) : Except Err Bytes :=
  match jsonUnmarshal cacheFile with
  | .error e => .error e
  | .ok cachedInfo =>
    match mapGet cachedInfo "result" with
    | none => .error .cannotGetResult
    | some res =>
      match res.asMap with
      | none => .error .wrongResultType
      | some resultJSON =>
        match addDefaultGWResult resultJSON gw with
        | .error e => .error e
        | .ok newResult => .ok (jsonMarshal (mapSet cachedInfo "result" (.map newResult)))

/-! ## Vocabulary of the data model -/

/-- The `cniVersion` strings of the unified schema. -/
def unifiedVersions : List String := ["0.3.0", "0.3.1", "0.4.0", "1.0.0"]

/-- The `cniVersion` strings of the legacy schema. -/
def legacyVersions : List String := ["0.1.0", "0.2.0"]

/-- A result of the unified schema: `cniVersion` is one of the four strings. -/
def isUnified (result : GoMap) : Bool :=
  match mapGet result "cniVersion" with
  | some (.string s) => unifiedVersions.contains s
  | _ => false

/-- A result of the legacy schema: `cniVersion` is absent, "0.1.0" or "0.2.0". -/
def isLegacy (result : GoMap) : Bool :=
  match mapGet result "cniVersion" with
  | none => true
  | some (.string s) => legacyVersions.contains s
  | _ => false

/-- A route entry as the delete matcher needs it: an object with a string `dst`. -/
def isRouteEntry : GoVal → Bool
  | .map route =>
    match mapGet route "dst" with
    | some (.string _) => true
    | _ => false
  | _ => false

/-- An object whose `dst` is the string `dst`. -/
def hasDst (dst : String) : GoVal → Bool
  | .map route =>
    match mapGet route "dst" with
    | some (.string d) => d == dst
    | _ => false
  | _ => false

/-- The `routes` binding in normal form: absent when there is no entry, the
array of the entries otherwise. -/
def routesField : List GoVal → Option GoVal
  | [] => none
  | r :: rs => some (.slice (r :: rs))

/-- The entry that the unified add path records for a gateway. -/
def gatewayEntry (g : IP) : GoVal :=
  routeEntry (if (To4 g).isNone then "::0/0" else "0.0.0.0/0") (ipString g)

/-- The document of the concrete scenario, with the given route entries. -/
def scenarioDoc (routes : List Json) : Bytes :=
  .text (.obj [("result", .obj [("cniVersion", .str "0.3.1"), ("routes", .arr routes)])])

/-- The route entry that the scenario starts with. -/
def scenarioRoute : Json :=
  .obj [("dst", .str "10.0.0.0/24"), ("gw", .str "10.0.0.1")]

/-- A slice in the form the filter loop returns: nil when nothing was kept. -/
def keptSlice : List GoVal → Slice
  | [] => none
  | r :: rs => some (r :: rs)

/-- Keys strictly increase along an association list. -/
def KeysSorted {α : Type} (m : List (String × α)) : Prop :=
  m.Pairwise (fun a b => keyLt a.1 b.1 = true)

mutual
/-- Values that `json.Unmarshal` can produce, with every map in key order. -/
def Canon : GoVal → Prop
  | .nil => True
  | .bool _ => True
  | .float64 _ => True
  | .string _ => True
  | .sliceNil => False
  | .slice xs => CanonList xs
  | .map m => KeysSorted m ∧ CanonMembers m
  | .mapString _ => False
/-- Every element is canonical. -/
def CanonList : List GoVal → Prop
  | [] => True
  | x :: xs => Canon x ∧ CanonList xs
/-- Every bound value is canonical. -/
def CanonMembers : List (String × GoVal) → Prop
  | [] => True
  | (_, v) :: t => Canon v ∧ CanonMembers t
end

/-- Decoding the marshalled text of a value. -/
def reread (v : GoVal) : GoVal := decode (marshal v)

/-- The keys of the members of the top-level object of a document. -/
def topKeys : Bytes → List String
  | .text (.obj kvs) => kvs.map Prod.fst
  | _ => []

/-- The result object of a cache document. -/
def docResult (cacheFile : Bytes) : Option GoMap :=
  match jsonUnmarshal cacheFile with
  | .ok cachedInfo =>
    match mapGet cachedInfo "result" with
    | some (.map result) => some result
    | _ => none
  | .error _ => none

/-- The route entries of a unified-schema result, an absent key read as no
entry; `none` when the field is not an array. -/
def resultRoutes (result : GoMap) : Option (List GoVal) :=
  match mapGet result "routes" with
  | none => some []
  | some (.slice rs) => some rs
  | some _ => none

/-- The route entries of the result of a cache document. -/
def docRoutes (cacheFile : Bytes) : Option (List GoVal) :=
  (docResult cacheFile).bind resultRoutes

/-- Some gateway of the list is an IPv4 address. -/
def hasV4 (gw : List IP) : Bool := gw.any (fun g => (To4 g).isSome)

/-- Some gateway of the list is not an IPv4 address. -/
def hasV6 (gw : List IP) : Bool := gw.any (fun g => (To4 g).isNone)

/-! ## Concrete inputs -/

/-- The gateway 192.168.1.1. -/
def gw4 : IP := [192, 168, 1, 1]

/-- The gateway fe80::1. -/
def gw6 : IP := [0xfe, 0x80, 0, 0, 0, 0, 0, 0, 0, 0, 0, 0, 0, 0, 0, 1]

/-- A decoded route entry with the given strings. -/
def routeVal (dst gw : String) : GoVal :=
  .map [("dst", .string dst), ("gw", .string gw)]

/-- A route entry in a JSON text. -/
def routeJson (dst gw : String) : Json :=
  .obj [("dst", .str dst), ("gw", .str gw)]

/-- A decoded unified-schema result with the given routes. -/
def unifiedResult (routes : List GoVal) : GoMap :=
  [("cniVersion", .string "0.3.1"), ("routes", .slice routes)]

/-- A cache document of the legacy schema with the given `ip4` and `ip6`
routes values. -/
def legacyDoc (routes4 routes6 : Json) : Bytes :=
  .text (.obj [("result", .obj [("cniVersion", .str "0.2.0"),
    ("ip4", .obj [("routes", routes4)]), ("ip6", .obj [("routes", routes6)])])])

/-- A cache document with a sibling of the result that holds nested data in
textual order. -/
def siblingDoc (routes : List Json) : Bytes :=
  .text (.obj [("kind", .str "cniCacheV1"),
    ("result", .obj [("cniVersion", .str "0.4.0"), ("routes", .arr routes)]),
    ("config", .obj [("name", .str "net1"), ("mtu", .num 1500)])])

/-! ## The namespace route mutator -/

/-- An error of a netlink route call: `eexist` stands for every error that
`os.IsExist` accepts or that equals `unix.EEXIST`. -/
inductive NetlinkErr where
  | eexist
  | other (errno : Nat)

/-- A `*net.IPNet`. -/
structure IPNet where
  IP : IP
  Mask : List Nat

/-- The fields of a `netlink.Route` that the mutator reads or writes; a nil
`Dst` is `none`. -/
structure Route where
  LinkIndex : Nat
  Dst : Option IPNet
  Gw : IP

/-- What the namespace and netlink libraries answer during one call:
`getNS` tells whether `ns.GetNS` finds the namespace, `linkByName` gives the
index of the link (`none`: error), `routeList` the routes listed for the
link, `routeAdd n` and `routeDel n` the outcome of attempt number `n` of the
call (`none`: success). Entering the namespace with `netns.Do` is taken to
succeed. -/
structure Netlink where
  getNS : String → Bool
  linkByName : String → Option Nat
  routeList : Option Nat → List Route
  routeAdd : Nat → Route → Option NetlinkErr
  routeDel : Nat → Route → Option NetlinkErr

/-- Errors that the mutator returns. -/
inductive GWErr where
  | getNS
  | getLink
  | route (e : NetlinkErr)

/-- The result of a mutator call: the error returned (`none`: nil) and the
routes handed to the kernel, in the order of the attempts. -/
structure GWResult where
  err : Option GWErr
  attempts : List Route

/-- The loop of `DeleteDefaultGW` (source lines 44 to 48); `n` counts the
deletions attempted so far, `err` is the variable of the closure. -/
def deleteDefaultGWLoop (k : Netlink) :
    List Route → Nat → Option NetlinkErr → List Route → Option NetlinkErr × List Route
  | [], _, err, attempts => (err, attempts)
  | nlroute :: routes, n, err, attempts =>
    if nlroute.Dst.isNone then
      deleteDefaultGWLoop k routes (n + 1) (k.routeDel n nlroute) (attempts ++ [nlroute])
    else deleteDefaultGWLoop k routes n err attempts

/-- Source `DeleteDefaultGW`; the error of `LinkByName` and of `RouteList` is
dropped by the source. -/
def DeleteDefaultGW (k : Netlink) (netnsPath ifName : String) : GWResult :=
  if k.getNS netnsPath = false then GWResult.mk (some .getNS) []
  else
    match deleteDefaultGWLoop k (k.routeList (k.linkByName ifName)) 0 none [] with
    | (err, attempts) => GWResult.mk (err.map GWErr.route) attempts

/-- The loop of `SetDefaultGW` (source lines 74 to 93); `n` counts the
additions attempted so far, `err` is the variable of the closure, which every
pass assigns anew. -/
def setDefaultGWLoop (k : Netlink) (linkIndex : Nat) :
    List IP → Nat → Option NetlinkErr → List Route → Option NetlinkErr × List Route
  | [], _, err, attempts => (err, attempts)
  | gw :: gateways, n, _, attempts =>
    setDefaultGWLoop k linkIndex gateways (n + 1)
      (match k.routeAdd n (Route.mk linkIndex none gw) with
        | none => none
        | some .eexist => none
        | some (.other errno) => some (.other errno))
      (attempts ++ [Route.mk linkIndex none gw])

/-- Source `SetDefaultGW`. -/
def SetDefaultGW (k : Netlink) (netnsPath ifName : String) (gateways : List IP) : GWResult :=
  if k.getNS netnsPath = false then GWResult.mk (some .getNS) []
  else
    match k.linkByName ifName with
    | none => GWResult.mk (some .getLink) []
    | some linkIndex =>
      match setDefaultGWLoop k linkIndex gateways 0 none [] with
      | (err, attempts) => GWResult.mk (err.map GWErr.route) attempts

/-! ## The cache file -/

/-- The fields of `libcni.RuntimeConf` that name the cache file. -/
structure RuntimeConf where
  ContainerID : String
  IfName : String

/-- The elements of a path between its separators. -/
def splitSlash : List Char → List Char → List (List Char)
  | [], cur => [cur.reverse]
  | c :: cs, cur => if c = '/' then cur.reverse :: splitSlash cs [] else splitSlash cs (c :: cur)

/-- The element loop of `filepath.Clean`; `out` holds the elements kept so
far, the last one first. An empty element and `.` are dropped; `..` removes
the element before it, is dropped at the root, and is kept at the start of a
path that is not rooted. -/
def cleanElems (rooted : Bool) : List String → List String → List String
  | [], out => out.reverse
  | e :: es, out =>
    if e = "" ∨ e = "." then cleanElems rooted es out
    else if e = ".." then
      match out with
      | [] => if rooted then cleanElems rooted es [] else cleanElems rooted es [".."]
      | top :: rest =>
        if top = ".." then cleanElems rooted es (".." :: top :: rest)
        else cleanElems rooted es rest
    else cleanElems rooted es (e :: out)

/-- A path that starts with the separator. -/
def isRooted (path : String) : Bool :=
  match path.data with
  | c :: _ => c == '/'
  | [] => false

/-- The call `filepath.Clean` on a path with the separator `/`. -/
def filepathClean (path : String) : String :=
  if path = "" then "."
  else if isRooted path then
    "/" ++ String.intercalate "/"
      (cleanElems true ((splitSlash path.data []).map String.mk) [])
  else if cleanElems false ((splitSlash path.data []).map String.mk) [] = [] then "."
  else String.intercalate "/" (cleanElems false ((splitSlash path.data []).map String.mk) [])

/-- The call `filepath.Join`: the elements from the first non-empty one on,
separated by a slash, then cleaned; the empty string when every element is
empty. -/
def filepathJoin (elems : List String) : String :=
  match elems.dropWhile (fun e => e = "") with
  | [] => ""
  | e :: es => filepathClean (String.intercalate "/" (e :: es))

/-- The path of the cache file (source lines 102 and 280). -/
def cachePath (cacheDir : String) (rt : RuntimeConf) (netName : String) : String :=
  filepathJoin [cacheDir, "results", netName ++ "-" ++ rt.ContainerID ++ "-" ++ rt.IfName]

/-- The file system as the patcher sees it: `files p` is what `os.ReadFile`
returns for the path (`none`: error); `writeFault p` is `none` when
`os.WriteFile` on the path succeeds, and otherwise the content that the
failed write leaves behind. -/
structure Disk where
  files : String → Option Bytes
  writeFault : String → Option (Option Bytes)

/-- The disk with the content of one path replaced. -/
def Disk.put (d : Disk) (path : String) (content : Option Bytes) : Disk :=
  Disk.mk (fun p => if p = path then content else d.files p) d.writeFault

/-- Errors of the functions that patch the cache file. -/
inductive CacheErr where
  | readFile
  | patch (e : Err)
  | writeFile

/-- The call `os.WriteFile(cacheFile, newCache, 0600)`. -/
def writeFile (d : Disk) (path : String) (newCache : Bytes) : Option CacheErr × Disk :=
  match d.writeFault path with
  | none => (none, d.put path (some newCache))
  | some left => (some .writeFile, d.put path left)

/-- Source `DeleteDefaultGWCache`; the fourth argument is not used. -/
def DeleteDefaultGWCache (d : Disk) (cacheDir : String) (rt : RuntimeConf) (netName : String)
    (_ifName : String) (ipv4 ipv6 : Bool) : Option CacheErr × Disk :=
  match d.files (cachePath cacheDir rt netName) with
  | none => (some .readFile, d)
  | some cache =>
    match deleteDefaultGWCacheBytes cache ipv4 ipv6 with
    | .error e => (some (.patch e), d)
    | .ok newCache => writeFile d (cachePath cacheDir rt netName) newCache

/-- Source `AddDefaultGWCache`; the fourth argument is not used. -/
def AddDefaultGWCache (d : Disk) (cacheDir : String) (rt : RuntimeConf) (netName : String)
    (_ifName : String) (gw : List IP) : Option CacheErr × Disk :=
  match d.files (cachePath cacheDir rt netName) with
  | none => (some .readFile, d)
  | some cache =>
    match addDefaultGWCacheBytes cache gw with
    | .error e => (some (.patch e), d)
    | .ok newCache => writeFile d (cachePath cacheDir rt netName) newCache

/-! ## Vocabulary of the later claims -/

/-- An empty JSON array. -/
def isEmptyArray : GoVal → Bool
  | .slice [] => true
  | _ => false

/-- The `routes` of the sub-object `key` hold an empty array. -/
def subRoutesEmpty (result : GoMap) (key : String) : Bool :=
  match mapGet result key with
  | some (.map ipN) =>
    match mapGet ipN "routes" with
    | some v => isEmptyArray v
    | none => false
  | _ => false

/-- Some routes key of the result (top-level, `ip4.routes` or `ip6.routes`)
holds an empty array. -/
def hasEmptyRoutes (result : GoMap) : Bool :=
  (match mapGet result "routes" with
    | some v => isEmptyArray v
    | none => false) || subRoutesEmpty result "ip4" || subRoutesEmpty result "ip6"

/-- A route entry that the filter loop rejects: not an object, or an object
whose `dst` is present and not a string. -/
def badEntry : GoVal → Bool
  | .map route =>
    match mapGet route "dst" with
    | none => false
    | some (.string _) => false
    | some _ => true
  | _ => true

/-- The top-level `routes` is present and not an array. -/
def wrongRoutes (result : GoMap) : Bool :=
  match mapGet result "routes" with
  | some v => v.asSlice.isNone
  | none => false

/-- The top-level `routes` is an array with an entry that the filter loop
rejects. -/
def badRoutes (result : GoMap) : Bool :=
  match mapGet result "routes" with
  | some (.slice rs) => rs.any badEntry
  | _ => false

/-- The sub-object `key` is present and not an object, or its `routes` is
present and not an array. -/
def wrongSub (result : GoMap) (key : String) : Bool :=
  match mapGet result key with
  | none => false
  | some (.map ipN) =>
    match mapGet ipN "routes" with
    | some v => v.asSlice.isNone
    | none => false
  | some _ => true

/-- The `routes` of the sub-object `key` is an array with an entry that the
filter loop rejects. -/
def badSub (result : GoMap) (key : String) : Bool :=
  match mapGet result key with
  | some (.map ipN) =>
    match mapGet ipN "routes" with
    | some (.slice rs) => rs.any badEntry
    | _ => false
  | _ => false

/-- Two values of a legacy sub-object key that differ at most in the `routes`
of the sub-object. -/
def SameButRoutes (a b : Option GoVal) : Prop :=
  a = b ∨ ∃ m m', a = some (.map m) ∧ b = some (.map m') ∧
    ∀ f, f ≠ "routes" → mapGet m' f = mapGet m f

/-- The kernel that answers attempt `n` of a route call with `outcomes[n]`
(success past the end), with every namespace and the link `eth0` of index 2
present, and the given routes listed. -/
def scriptedKernel (routes : List Route) (outcomes : List (Option NetlinkErr)) : Netlink :=
  Netlink.mk (fun _ => true) (fun name => if name = "eth0" then some 2 else none)
    (fun _ => routes) (fun n _ => (outcomes.get? n).join) (fun n _ => (outcomes.get? n).join)

/-- A disk with one cache file, on which writes succeed. -/
def oneFileDisk (path : String) (content : Bytes) : Disk :=
  Disk.mk (fun p => if p = path then some content else none) (fun _ => none)

/-- The runtime configuration of the examples. -/
def sampleRt : RuntimeConf := RuntimeConf.mk "c1" "net1"

/-! ## Number tokens of a JSON text -/

/-- A JSON number token by its exact value: `digits / 10 ^ scale`, negated
when `neg`. A token written with an exponent is taken by its value. -/
structure NumLit where
  neg : Bool
  digits : Nat
  scale : Nat

/-- A finite `float64` by its exact value: `mant * 2 ^ exp / 2 ^ 1074`,
negated when `neg`, with `mant < 2 ^ 53`, `exp ≤ 2045`, and `exp = 0` when
`mant < 2 ^ 52`. -/
structure Float64 where
  neg : Bool
  mant : Nat
  exp : Nat

/-- Two tokens of the same value. -/
def NumLit.sameValue (a b : NumLit) : Bool :=
  (a.digits * 10 ^ b.scale == b.digits * 10 ^ a.scale) && (a.neg == b.neg || a.digits == 0)

/-- The nearest integer to `n / d`, a tie going to the even one. -/
def roundHalfEven (n d : Nat) : Nat :=
  if 2 * (n % d) < d then n / d
  else if 2 * (n % d) = d ∧ (n / d) % 2 = 0 then n / d
  else n / d + 1

/-- The floor of the binary logarithm, counted with `fuel` steps. -/
def log2From : Nat → Nat → Nat
  | 0, _ => 0
  | fuel + 1, n => if n < 2 then 0 else log2From fuel (n / 2) + 1

/-- The floor of the binary logarithm of a number, 0 at 0. -/
def binLog (n : Nat) : Nat := log2From n n

/-- The binary exponent, over `2 ^ 1074`, of the `float64` nearest to the
value of a token: 0 in the subnormal range. -/
def binExp (t : NumLit) : Nat := binLog (t.digits * 2 ^ 1074 / 10 ^ t.scale) - 52

/-- The value of a token in units of `2 ^ binExp t / 2 ^ 1074`, rounded to
the nearest integer, a tie going to the even one. -/
def mantissa (t : NumLit) : Nat :=
  roundHalfEven (t.digits * 2 ^ 1074) (10 ^ t.scale * 2 ^ binExp t)

/-- The call `strconv.ParseFloat(token, 64)` of the decoder: the `float64`
nearest to the value of the token, a tie going to the even mantissa; `none`
when the value is out of range. -/
def parseFloat (t : NumLit) : Option Float64 :=
  if mantissa t = 2 ^ 53 then
    if binExp t + 1 > 2045 then none else some (Float64.mk t.neg (2 ^ 52) (binExp t + 1))
  else if binExp t > 2045 then none
  else some (Float64.mk t.neg (mantissa t) (binExp t))

/-- The number of decimal digits of a number, counted with `fuel` steps. -/
def decimalLengthFrom : Nat → Nat → Nat
  | 0, _ => 0
  | fuel + 1, n => if n < 10 then 1 else decimalLengthFrom fuel (n / 10) + 1

/-- The number of decimal digits of a number. -/
def decimalLength (n : Nat) : Nat := decimalLengthFrom (n + 1) n

/-- The token of value `c * 10 ^ k / 10 ^ 400`. -/
def tokenAt (neg : Bool) (c k : Nat) : NumLit :=
  if k ≥ 400 then NumLit.mk neg (c * 10 ^ (k - 400)) 0 else NumLit.mk neg c (400 - k)

/-- The value of `f` as a numerator over `2 ^ 1074`, scaled by `10 ^ 400`. -/
def scaledValue (f : Float64) : Nat := f.mant * 2 ^ f.exp * 10 ^ 400

/-- The unit, over `2 ^ 1074`, of the last of `n` significant digits of the
scaled value of `f`. -/
def digitUnit (f : Float64) (n : Nat) : Nat :=
  2 ^ 1074 * 10 ^ (decimalLength (scaledValue f / 2 ^ 1074) - n)

/-- The two tokens with `n` significant digits around the value of `f`: the
value cut after `n` digits and the next one up, the nearer one first, and
the one with the even last digit first when they are equally near. -/
def tokensNear (f : Float64) (n : Nat) : List NumLit :=
  if scaledValue f - scaledValue f / digitUnit f n * digitUnit f n
        < (scaledValue f / digitUnit f n + 1) * digitUnit f n - scaledValue f
      ∨ (scaledValue f - scaledValue f / digitUnit f n * digitUnit f n
          = (scaledValue f / digitUnit f n + 1) * digitUnit f n - scaledValue f
        ∧ scaledValue f / digitUnit f n % 2 = 0) then
    [tokenAt f.neg (scaledValue f / digitUnit f n)
        (decimalLength (scaledValue f / 2 ^ 1074) - n),
      tokenAt f.neg (scaledValue f / digitUnit f n + 1)
        (decimalLength (scaledValue f / 2 ^ 1074) - n)]
  else
    [tokenAt f.neg (scaledValue f / digitUnit f n + 1)
        (decimalLength (scaledValue f / 2 ^ 1074) - n),
      tokenAt f.neg (scaledValue f / digitUnit f n)
        (decimalLength (scaledValue f / 2 ^ 1074) - n)]

/-- A token reads back as `f`. -/
def readsBack (f : Float64) (t : NumLit) : Bool :=
  match parseFloat t with
  | some g => g.neg == f.neg && g.mant == f.mant && g.exp == f.exp
  | none => false

/-- The search of `shortestToken`: the first token that reads back as `f`,
trying `n`, `n + 1`, ... significant digits, `fuel` lengths in all. -/
def shortestFrom (f : Float64) : Nat → Nat → Option NumLit
  | 0, _ => none
  | fuel + 1, n =>
    ((tokensNear f n).find? (readsBack f)).orElse (fun _ => shortestFrom f fuel (n + 1))

/-- The digits that `json.Marshal` writes for a `float64`
(`strconv.AppendFloat` with precision -1): the token with the fewest
significant digits that reads back as the same `float64`, the nearest one
among those. Up to 17 digits are tried; the exact value of `f` closes the
definition. -/
def shortestToken (f : Float64) : NumLit :=
  if f.mant = 0 then NumLit.mk f.neg 0 0
  else
    match shortestFrom f 17 1 with
    | some t => t
    | none => NumLit.mk f.neg (f.mant * 2 ^ f.exp * 5 ^ 1074) 1074

/-- The triples that stand for a `float64`: a mantissa of at most 53 bits,
an exponent in range, and the top bit of the mantissa set unless the
exponent is the lowest one. -/
def Float64.Valid (f : Float64) : Prop :=
  f.mant < 2 ^ 53 ∧ f.exp ≤ 2045 ∧ (2 ^ 52 ≤ f.mant ∨ f.exp = 0)

/-- The IEEE 754 bit pattern of a `float64`. -/
def floatBits (f : Float64) : Nat :=
  (if f.neg then 2 ^ 63 else 0)
    + (if f.mant < 2 ^ 52 then f.mant else (f.exp + 1) * 2 ^ 52 + (f.mant - 2 ^ 52))

/-- The code that a `Json.num` leaf and a `GoVal.float64` carry for a
`float64`: the value itself when it is a natural number below `2 ^ 53`, and
`2 ^ 53` plus the bit pattern otherwise. -/
def floatCode (f : Float64) : Nat :=
  if f.neg = false ∧ f.mant * 2 ^ f.exp % 2 ^ 1074 = 0 ∧ f.mant * 2 ^ f.exp / 2 ^ 1074 < 2 ^ 53 then
    f.mant * 2 ^ f.exp / 2 ^ 1074
  else 2 ^ 53 + floatBits f

/-- The `float64` of a code; `none` for a code of no finite `float64`, which
`json.Marshal` rejects as an unsupported value. -/
def floatOfCode (c : Nat) : Option Float64 :=
  if c < 2 ^ 53 then parseFloat (NumLit.mk false c 0)
  else if c - 2 ^ 53 ≥ 2 ^ 64 then none
  else if (c - 2 ^ 53) / 2 ^ 52 % 2048 = 2047 then none
  else if (c - 2 ^ 53) / 2 ^ 52 % 2048 = 0 then
    some (Float64.mk (decide ((c - 2 ^ 53) / 2 ^ 63 = 1)) ((c - 2 ^ 53) % 2 ^ 52) 0)
  else
    some (Float64.mk (decide ((c - 2 ^ 53) / 2 ^ 63 = 1)) (2 ^ 52 + (c - 2 ^ 53) % 2 ^ 52)
      ((c - 2 ^ 53) / 2 ^ 52 % 2048 - 1))

/-- Syntax tree of a JSON text with its number tokens. -/
inductive JsonText where
  | null
  | bool (b : Bool)
  | num (token : NumLit)
  | str (s : String)
  | arr (elems : List JsonText)
  | obj (members : List (String × JsonText))

mutual
/-- The text as `json.Unmarshal` reads its numbers: every token replaced by
the code of its `float64`; `none` when a token is out of range, which makes
`json.Unmarshal` return an error. -/
def lexNumbers : JsonText → Option Json
  | .null => some .null
  | .bool b => some (.bool b)
  | .num token => (parseFloat token).map (fun f => Json.num (floatCode f))
  | .str s => some (.str s)
  | .arr elems => (lexList elems).map Json.arr
  | .obj members => (lexMembers members).map Json.obj
/-- Reading of array elements. -/
def lexList : List JsonText → Option (List Json)
  | [] => some []
  | t :: ts =>
    match lexNumbers t, lexList ts with
    | some j, some js => some (j :: js)
    | _, _ => none
/-- Reading of object members. -/
def lexMembers : List (String × JsonText) → Option (List (String × Json))
  | [] => some []
  | (k, t) :: ms =>
    match lexNumbers t, lexMembers ms with
    | some j, some js => some ((k, j) :: js)
    | _, _ => none
end

mutual
/-- The text that `json.Marshal` writes: every number written with the
shortest token of its `float64`; `none` when a code is of no finite
`float64`. -/
def printNumbers : Json → Option JsonText
  | .null => some .null
  | .bool b => some (.bool b)
  | .num c => (floatOfCode c).map (fun f => JsonText.num (shortestToken f))
  | .str s => some (.str s)
  | .arr elems => (printList elems).map JsonText.arr
  | .obj members => (printMembers members).map JsonText.obj
/-- Writing of array elements. -/
def printList : List Json → Option (List JsonText)
  | [] => some []
  | j :: js =>
    match printNumbers j, printList js with
    | some t, some ts => some (t :: ts)
    | _, _ => none
/-- Writing of object members. -/
def printMembers : List (String × Json) → Option (List (String × JsonText))
  | [] => some []
  | (k, j) :: ms =>
    match printNumbers j, printMembers ms with
    | some t, some ts => some ((k, t) :: ts)
    | _, _ => none
end

/-- The content of a cache file whose text is `t`, as the patcher reads it: a
text with a number out of the range of `float64` is content that
`json.Unmarshal` rejects. -/
def textBytes (t : JsonText) : Bytes :=
  match lexNumbers t with
  | some j => .text j
  | none => .malformed []

/-- Errors of a patch on a text: an error of the patch of the content, or the
error that wraps a failure of `json.Marshal` (source lines 142 and 320). -/
inductive TextErr where
  | patch (e : Err)
  | encode

/-- The text of the content that a patch returns. -/
def bytesText : Except Err Bytes → Except TextErr JsonText
  | .error e => .error (.patch e)
  | .ok (.malformed _) => .error .encode
  | .ok (.text j) =>
    match printNumbers j with
    | some t => .ok t
    | none => .error .encode

/-- Source `addDefaultGWCacheBytes` on a text with its number tokens. -/
def addDefaultGWCacheText (t : JsonText) (gw : List IP) : Except TextErr JsonText :=
  bytesText (addDefaultGWCacheBytes (textBytes t) gw)

/-- Source `deleteDefaultGWCacheBytes` on a text with its number tokens. -/
def deleteDefaultGWCacheText (t : JsonText) (ipv4 ipv6 : Bool) : Except TextErr JsonText :=
  bytesText (deleteDefaultGWCacheBytes (textBytes t) ipv4 ipv6)

/-- The members of the top-level object of a text. -/
def textMembers : JsonText → List (String × JsonText)
  | .obj members => members
  | _ => []

/-- The keys of the members of the top-level object of a text. -/
def textTopKeys (t : JsonText) : List String := (textMembers t).map Prod.fst

/-- The codes of the `float64` values. -/
def GoodCode (c : Nat) : Prop := ∃ f : Float64, f.Valid ∧ c = floatCode f

mutual
/-- Trees whose every number is the code of a `float64`. -/
def NumsValid : Json → Prop
  | .null => True
  | .bool _ => True
  | .num c => GoodCode c
  | .str _ => True
  | .arr xs => NumsValidList xs
  | .obj kvs => NumsValidMembers kvs
/-- Every element has valid numbers. -/
def NumsValidList : List Json → Prop
  | [] => True
  | x :: xs => NumsValid x ∧ NumsValidList xs
/-- Every member has valid numbers. -/
def NumsValidMembers : List (String × Json) → Prop
  | [] => True
  | (_, j) :: t => NumsValid j ∧ NumsValidMembers t
end

/-- A cache document with a sibling `serial` of the given number token. -/
def serialDoc (token : NumLit) (routes : List JsonText) : JsonText :=
  .obj [("result", .obj [("cniVersion", .str "0.3.1"), ("routes", .arr routes)]),
    ("serial", .num token)]

/-! ## Laws of the map operations -/

theorem mapGet_insertKey_ne {k k' : String} (v : GoVal) (m : GoMap) (h : k ≠ k') :
    mapGet (insertKey k v m) k' = mapGet m k' := by
  induction m with
  | nil => simp [insertKey, mapGet, h]
  | cons kv t ih =>
    obtain ⟨k₀, v₀⟩ := kv
    unfold insertKey
    split
    · simp [mapGet, h]
    · simp [mapGet, ih]

theorem mapGet_insertKey_self {k : String} (v : GoVal) (m : GoMap) (h : mapGet m k = none) :
    mapGet (insertKey k v m) k = some v := by
  induction m with
  | nil => simp [insertKey, mapGet]
  | cons kv t ih =>
    obtain ⟨k₀, v₀⟩ := kv
    have hk : k₀ ≠ k := by
      intro e
      simp [mapGet, e] at h
    have ht : mapGet t k = none := by
      simpa [mapGet, hk] using h
    unfold insertKey
    split
    · simp [mapGet]
    · simp [mapGet, hk, ih ht]

theorem mapGet_mapDelete_self (m : GoMap) (k : String) : mapGet (mapDelete m k) k = none := by
  induction m with
  | nil => simp [mapDelete, mapGet]
  | cons kv t ih =>
    obtain ⟨k₀, v₀⟩ := kv
    unfold mapDelete
    split
    · exact ih
    · rename_i hk
      simp [mapGet, hk, ih]

theorem mapGet_mapDelete_ne {k k' : String} (m : GoMap) (h : k ≠ k') :
    mapGet (mapDelete m k) k' = mapGet m k' := by
  induction m with
  | nil => simp [mapDelete, mapGet]
  | cons kv t ih =>
    obtain ⟨k₀, v₀⟩ := kv
    unfold mapDelete
    split
    · rename_i hk
      have : k₀ ≠ k' := by rw [hk]; exact h
      simp [mapGet, this, ih]
    · simp [mapGet, ih]

theorem mapGet_mapSet_self (m : GoMap) (k : String) (v : GoVal) :
    mapGet (mapSet m k v) k = some v :=
  mapGet_insertKey_self v _ (mapGet_mapDelete_self m k)

theorem mapGet_mapSet_ne {k k' : String} (m : GoMap) (v : GoVal) (h : k ≠ k') :
    mapGet (mapSet m k v) k' = mapGet m k' := by
  unfold mapSet
  rw [mapGet_insertKey_ne v _ h, mapGet_mapDelete_ne m h]

/-! ## Bindings of a map and members of its text -/

theorem mem_insertKey {α : Type} (k : String) (v : α) (m : List (String × α)) (x : String × α) :
    x ∈ insertKey k v m ↔ x = (k, v) ∨ x ∈ m := by
  induction m with
  | nil => simp [insertKey]
  | cons kv t ih =>
    obtain ⟨k₀, v₀⟩ := kv
    unfold insertKey
    split
    · simp
    · simp only [List.mem_cons, ih]
      tauto

theorem mem_sortKeys {α : Type} (m : List (String × α)) (x : String × α) :
    x ∈ sortKeys m ↔ x ∈ m := by
  induction m with
  | nil => simp [sortKeys]
  | cons kv t ih =>
    obtain ⟨k₀, v₀⟩ := kv
    simp [sortKeys, mem_insertKey, ih]

theorem mem_marshalMembers (m : GoMap) (k : String) (j : Json) :
    (k, j) ∈ marshalMembers m ↔ ∃ v, (k, v) ∈ m ∧ j = marshal v := by
  induction m with
  | nil => simp [marshalMembers]
  | cons kv t ih =>
    obtain ⟨k₀, v₀⟩ := kv
    simp only [marshalMembers, List.mem_cons, Prod.mk.injEq, ih]
    constructor
    · rintro (⟨rfl, rfl⟩ | ⟨v, hv, rfl⟩)
      · exact ⟨v₀, Or.inl ⟨rfl, rfl⟩, rfl⟩
      · exact ⟨v, Or.inr hv, rfl⟩
    · rintro ⟨v, (⟨rfl, rfl⟩ | hv), rfl⟩
      · exact Or.inl ⟨rfl, rfl⟩
      · exact Or.inr ⟨v, hv, rfl⟩

theorem mapGet_none_not_mem {m : GoMap} {k : String} (h : mapGet m k = none) (v : GoVal) :
    (k, v) ∉ m := by
  induction m with
  | nil => simp
  | cons kv t ih =>
    obtain ⟨k₀, v₀⟩ := kv
    have hk : k₀ ≠ k := by
      intro e
      simp [mapGet, e] at h
    have ht : mapGet t k = none := by simpa [mapGet, hk] using h
    simp only [List.mem_cons, Prod.mk.injEq, not_or]
    exact ⟨fun e => hk e.1.symm, ih ht⟩

theorem mem_mapSet_self {m : GoMap} {k : String} {v v' : GoVal} (h : (k, v') ∈ mapSet m k v) :
    v' = v := by
  unfold mapSet at h
  rcases (mem_insertKey k v _ _).1 h with e | e
  · exact (Prod.mk.inj e).2
  · exact absurd e (mapGet_none_not_mem (mapGet_mapDelete_self m k) v')

/-! ## The key order -/

theorem ltCodes_irrefl (a : List Nat) : ltCodes a a = false := by
  induction a with
  | nil => rfl
  | cons x xs ih => simp [ltCodes, ih]

theorem ltCodes_asymm : ∀ (a b : List Nat), ltCodes a b = true → ltCodes b a = false
  | _, [], h => by simp [ltCodes] at h
  | [], _ :: _, _ => by simp [ltCodes]
  | x :: xs, y :: ys, h => by
    simp only [ltCodes] at h ⊢
    split at h
    · rename_i hxy
      have h1 : ¬ y < x := by omega
      have h2 : ¬ y = x := by omega
      simp [h1, h2]
    · split at h
      · rename_i hxy heq
        subst heq
        simp [ltCodes_asymm xs ys h]
      · exact absurd h (by simp)

theorem ltCodes_trans : ∀ (a b c : List Nat), ltCodes a b = true → ltCodes b c = true →
    ltCodes a c = true
  | _, [], _, h, _ => by simp [ltCodes] at h
  | _, _ :: _, [], _, h => by simp [ltCodes] at h
  | [], _ :: _, _ :: _, _, _ => by simp [ltCodes]
  | x :: xs, y :: ys, z :: zs, h1, h2 => by
    simp only [ltCodes] at h1 h2 ⊢
    split at h1
    · rename_i hxy
      split at h2
      · rename_i hyz
        have : x < z := by omega
        simp [this]
      · split at h2
        · rename_i _ heq
          subst heq
          simp [hxy]
        · exact absurd h2 (by simp)
    · split at h1
      · rename_i _ heq
        subst heq
        split at h2
        · rename_i hyz
          simp [hyz]
        · split at h2
          · rename_i _ heq2
            subst heq2
            simp [ltCodes_trans xs ys zs h1 h2]
          · exact absurd h2 (by simp)
      · exact absurd h1 (by simp)

theorem ltCodes_total : ∀ (a b : List Nat), ltCodes a b = false → ltCodes b a = false → a = b
  | [], [], _, _ => rfl
  | [], _ :: _, h, _ => by simp [ltCodes] at h
  | _ :: _, [], _, h => by simp [ltCodes] at h
  | x :: xs, y :: ys, h1, h2 => by
    simp only [ltCodes] at h1 h2
    split at h1
    · exact absurd h1 (by simp)
    · split at h1
      · rename_i _ heq
        subst heq
        simp only [lt_self_iff_false, if_false, if_true] at h2
        rw [ltCodes_total xs ys h1 h2]
      · rename_i hn1 hn2
        split at h2
        · exact absurd h2 (by simp)
        · rename_i hn3
          omega

theorem codes_injective {a b : String}
    (h : a.data.map Char.toNat = b.data.map Char.toNat) : a = b := by
  apply String.ext
  have hinj : Function.Injective Char.toNat := by
    intro c d hcd
    apply Char.ext
    exact UInt32.toNat.inj hcd
  exact List.map_injective_iff.2 hinj h

theorem keyLt_irrefl (a : String) : keyLt a a = false := ltCodes_irrefl _

theorem keyLt_asymm {a b : String} (h : keyLt a b = true) : keyLt b a = false :=
  ltCodes_asymm _ _ h

theorem keyLt_trans {a b c : String} (h1 : keyLt a b = true) (h2 : keyLt b c = true) :
    keyLt a c = true :=
  ltCodes_trans _ _ _ h1 h2

theorem keyLt_total {a b : String} (h1 : keyLt a b = false) (h2 : a ≠ b) : keyLt b a = true := by
  by_contra h
  exact h2 (codes_injective (ltCodes_total _ _ h1 (by simpa using h)))

theorem keyLt_ne {a b : String} (h : keyLt a b = true) : a ≠ b := by
  intro e
  rw [e, keyLt_irrefl] at h
  exact absurd h (by simp)

/-! ## Maps in key order -/

theorem mapDelete_eq_filter (m : GoMap) (k : String) :
    mapDelete m k = m.filter (fun x => decide (x.1 ≠ k)) := by
  induction m with
  | nil => rfl
  | cons kv t ih =>
    obtain ⟨k₀, v₀⟩ := kv
    by_cases h : k₀ = k <;> simp [mapDelete, h, ih]

theorem keysSorted_mapDelete {m : GoMap} (h : KeysSorted m) (k : String) :
    KeysSorted (mapDelete m k) := by
  rw [mapDelete_eq_filter]
  exact List.Pairwise.filter _ h

theorem keysSorted_insertKey {α : Type} {m : List (String × α)} (h : KeysSorted m) (k : String)
    (v : α) (hk : ∀ x ∈ m, x.1 ≠ k) : KeysSorted (insertKey k v m) := by
  induction m with
  | nil => simp [insertKey, KeysSorted]
  | cons kv t ih =>
    obtain ⟨k₀, v₀⟩ := kv
    unfold KeysSorted at h
    rw [List.pairwise_cons] at h
    unfold insertKey
    split
    · rename_i hlt
      unfold KeysSorted
      rw [List.pairwise_cons]
      refine ⟨?_, List.pairwise_cons.2 h⟩
      intro x hx
      rcases List.mem_cons.1 hx with rfl | hx
      · exact hlt
      · exact keyLt_trans hlt (h.1 x hx)
    · rename_i hnlt
      have hk₀ : k₀ ≠ k := hk (k₀, v₀) (List.mem_cons_self _ _)
      have hlt : keyLt k₀ k = true := keyLt_total (by simpa using hnlt) (Ne.symm hk₀)
      unfold KeysSorted
      rw [List.pairwise_cons]
      refine ⟨?_, ih h.2 (fun x hx => hk x (List.mem_cons_of_mem _ hx))⟩
      intro x hx
      rcases (mem_insertKey k v t x).1 hx with rfl | hx
      · exact hlt
      · exact h.1 x hx

theorem keysSorted_mapSet {m : GoMap} (h : KeysSorted m) (k : String) (v : GoVal) :
    KeysSorted (mapSet m k v) := by
  unfold mapSet
  apply keysSorted_insertKey (keysSorted_mapDelete h k)
  intro x hx
  rw [mapDelete_eq_filter] at hx
  simpa using (List.mem_filter.1 hx).2

theorem sortKeys_of_sorted {α : Type} {m : List (String × α)} (h : KeysSorted m) :
    sortKeys m = m := by
  induction m with
  | nil => rfl
  | cons kv t ih =>
    obtain ⟨k₀, v₀⟩ := kv
    unfold KeysSorted at h
    rw [List.pairwise_cons] at h
    rw [sortKeys, ih h.2]
    cases t with
    | nil => rfl
    | cons kv' t' =>
      obtain ⟨k₁, v₁⟩ := kv'
      simp [insertKey, h.1 (k₁, v₁) (List.mem_cons_self _ _)]

theorem insertKey_last {α : Type} (m : List (String × α)) (k : String) (v : α)
    (h : ∀ x ∈ m, keyLt x.1 k = true) : insertKey k v m = m ++ [(k, v)] := by
  induction m with
  | nil => rfl
  | cons kv t ih =>
    obtain ⟨k₀, v₀⟩ := kv
    have h₀ : keyLt k k₀ = false := keyLt_asymm (h (k₀, v₀) (List.mem_cons_self _ _))
    simp [insertKey, h₀, ih (fun x hx => h x (List.mem_cons_of_mem _ hx))]

theorem mapSet_last (m : GoMap) (k : String) (v : GoVal)
    (h : ∀ x ∈ m, keyLt x.1 k = true) : mapSet m k v = m ++ [(k, v)] := by
  unfold mapSet
  have hd : mapDelete m k = m := by
    rw [mapDelete_eq_filter]
    apply List.filter_eq_self.2
    intro x hx
    simpa using keyLt_ne (h x hx)
  rw [hd, insertKey_last m k v h]

theorem marshalMembers_eq_map (m : GoMap) :
    marshalMembers m = m.map (fun kv => (kv.1, marshal kv.2)) := by
  induction m with
  | nil => rfl
  | cons kv t ih =>
    obtain ⟨k₀, v₀⟩ := kv
    simp [marshalMembers, ih]

theorem marshalList_eq_map (xs : List GoVal) : marshalList xs = xs.map marshal := by
  induction xs with
  | nil => rfl
  | cons x xs ih => simp [marshalList, ih]

theorem decodeList_eq_map (xs : List Json) : decodeList xs = xs.map decode := by
  induction xs with
  | nil => rfl
  | cons x xs ih => simp [decodeList, ih]

/-- Decoding members that are in key order and above the bindings read so
far stores them in that order. -/
theorem decodeMembers_sorted (kvs : List (String × Json)) (acc : GoMap)
    (hs : KeysSorted kvs) (ha : ∀ x ∈ acc, ∀ y ∈ kvs, keyLt x.1 y.1 = true) :
    decodeMembers kvs acc = acc ++ kvs.map (fun kv => (kv.1, decode kv.2)) := by
  induction kvs generalizing acc with
  | nil => simp [decodeMembers]
  | cons kv t ih =>
    obtain ⟨k₀, j₀⟩ := kv
    unfold KeysSorted at hs
    rw [List.pairwise_cons] at hs
    rw [decodeMembers, mapSet_last acc k₀ (decode j₀)
      (fun x hx => ha x hx (k₀, j₀) (List.mem_cons_self _ _))]
    rw [ih _ hs.2]
    · simp
    · intro x hx y hy
      rcases List.mem_append.1 hx with hx | hx
      · exact ha x hx y (List.mem_cons_of_mem _ hy)
      · rw [List.mem_singleton.1 hx]
        exact hs.1 y hy

theorem keysSorted_map {α β : Type} {m : List (String × α)} (f : α → β) (h : KeysSorted m) :
    KeysSorted (m.map (fun kv => (kv.1, f kv.2))) := by
  unfold KeysSorted at h ⊢
  rw [List.pairwise_map]
  exact h

/-- Marshalling a map in key order and decoding the text rereads each value
in place. -/
theorem reread_map {m : GoMap} (h : KeysSorted m) :
    decodeMembers (sortKeys (marshalMembers m)) [] = m.map (fun kv => (kv.1, reread kv.2)) := by
  rw [marshalMembers_eq_map, sortKeys_of_sorted (keysSorted_map marshal h),
    decodeMembers_sorted _ [] (keysSorted_map marshal h) (by simp)]
  simp [reread]

theorem mapGet_map (f : GoVal → GoVal) (m : GoMap) (k : String) :
    mapGet (m.map (fun kv => (kv.1, f kv.2))) k = (mapGet m k).map f := by
  induction m with
  | nil => rfl
  | cons kv t ih =>
    obtain ⟨k₀, v₀⟩ := kv
    by_cases h : k₀ = k <;> simp [mapGet, h, ih]

/-! ## Canonical values -/

theorem canonMembers_iff (m : GoMap) : CanonMembers m ↔ ∀ kv ∈ m, Canon kv.2 := by
  induction m with
  | nil => simp [CanonMembers]
  | cons kv t ih =>
    obtain ⟨k₀, v₀⟩ := kv
    simp [CanonMembers, ih]

theorem canonList_iff (xs : List GoVal) : CanonList xs ↔ ∀ x ∈ xs, Canon x := by
  induction xs with
  | nil => simp [CanonList]
  | cons x xs ih => simp [CanonList, ih]

theorem keysSorted_decodeMembers (kvs : List (String × Json)) (acc : GoMap)
    (h : KeysSorted acc) : KeysSorted (decodeMembers kvs acc) := by
  induction kvs generalizing acc with
  | nil => exact h
  | cons kv t ih =>
    obtain ⟨k₀, j₀⟩ := kv
    exact ih _ (keysSorted_mapSet h _ _)

theorem mem_mapSet {m : GoMap} {k : String} {v : GoVal} {x : String × GoVal}
    (h : x ∈ mapSet m k v) : x = (k, v) ∨ x ∈ m := by
  unfold mapSet at h
  rcases (mem_insertKey k v _ x).1 h with e | e
  · exact Or.inl e
  · rw [mapDelete_eq_filter] at e
    exact Or.inr (List.mem_of_mem_filter e)

theorem canonMembers_mapSet {m : GoMap} (h : CanonMembers m) (k : String) {v : GoVal}
    (hv : Canon v) : CanonMembers (mapSet m k v) := by
  rw [canonMembers_iff] at h ⊢
  intro x hx
  rcases mem_mapSet hx with rfl | hx
  · exact hv
  · exact h x hx

theorem canonMembers_decodeMembers (kvs : List (String × Json)) (acc : GoMap)
    (h : CanonMembers acc) (hk : ∀ kv ∈ kvs, Canon (decode kv.2)) :
    CanonMembers (decodeMembers kvs acc) := by
  induction kvs generalizing acc with
  | nil => exact h
  | cons kv t ih =>
    obtain ⟨k₀, j₀⟩ := kv
    exact ih _ (canonMembers_mapSet h k₀ (hk (k₀, j₀) (List.mem_cons_self _ _)))
      (fun x hx => hk x (List.mem_cons_of_mem _ hx))

mutual
/-- Decoded values are canonical. -/
theorem canon_decode : ∀ (j : Json), Canon (decode j)
  | .null => trivial
  | .bool _ => trivial
  | .num _ => trivial
  | .str _ => trivial
  | .arr xs => by
    simp only [decode, Canon]
    exact canon_decodeList xs
  | .obj kvs => by
    simp only [decode, Canon]
    exact ⟨keysSorted_decodeMembers kvs [] List.Pairwise.nil,
      canonMembers_decodeMembers kvs [] trivial (canon_decodeValues kvs)⟩
theorem canon_decodeList : ∀ (xs : List Json), CanonList (decodeList xs)
  | [] => trivial
  | x :: xs => ⟨canon_decode x, canon_decodeList xs⟩
theorem canon_decodeValues : ∀ (kvs : List (String × Json)), ∀ kv ∈ kvs, Canon (decode kv.2)
  | [], _, h => absurd h (List.not_mem_nil _)
  | (_, j) :: t, kv, h => by
    rcases List.mem_cons.1 h with rfl | h
    · exact canon_decode j
    · exact canon_decodeValues t kv h
end

mutual
/-- Rereading a canonical value gives the value back. -/
theorem reread_canon : ∀ (v : GoVal), Canon v → reread v = v
  | .nil, _ => rfl
  | .bool _, _ => rfl
  | .float64 _, _ => rfl
  | .string _, _ => rfl
  | .sliceNil, h => absurd h (by simp [Canon])
  | .mapString _, h => absurd h (by simp [Canon])
  | .slice xs, h => by
    simp only [Canon] at h
    simp only [reread, marshal, decode, GoVal.slice.injEq]
    rw [marshalList_eq_map, decodeList_eq_map, List.map_map]
    exact reread_canonList xs h
  | .map m, h => by
    simp only [Canon] at h
    simp only [reread, marshal, decode, GoVal.map.injEq]
    rw [reread_map h.1]
    exact reread_canonMembers m h.2
theorem reread_canonList : ∀ (xs : List GoVal), CanonList xs → xs.map (decode ∘ marshal) = xs
  | [], _ => rfl
  | x :: xs, h => by
    simp only [List.map_cons, Function.comp]
    rw [reread_canonList xs h.2]
    have := reread_canon x h.1
    simp only [reread] at this
    rw [this]
theorem reread_canonMembers : ∀ (m : List (String × GoVal)), CanonMembers m →
    m.map (fun kv => (kv.1, reread kv.2)) = m
  | [], _ => rfl
  | (k, v) :: t, h => by
    simp only [List.map_cons]
    rw [reread_canonMembers t h.2, reread_canon v h.1]
end

/-! ## Version dispatch -/

theorem mem_unifiedVersions {s : String} (h : unifiedVersions.contains s = true) :
    s = "0.3.0" ∨ s = "0.3.1" ∨ s = "0.4.0" ∨ s = "1.0.0" := by
  simpa [unifiedVersions] using h

theorem mem_legacyVersions {s : String} (h : legacyVersions.contains s = true) :
    s = "0.1.0" ∨ s = "0.2.0" := by
  simpa [legacyVersions] using h

theorem isUnified_cases {result : GoMap} (h : isUnified result = true) :
    ∃ s, mapGet result "cniVersion" = some (.string s) ∧
      (s = "0.3.0" ∨ s = "0.3.1" ∨ s = "0.4.0" ∨ s = "1.0.0") := by
  unfold isUnified at h
  split at h
  · rename_i s hs
    exact ⟨s, hs, mem_unifiedVersions h⟩
  · exact absurd h (by simp)

theorem isLegacy_cases {result : GoMap} (h : isLegacy result = true) :
    mapGet result "cniVersion" = none ∨
      ∃ s, mapGet result "cniVersion" = some (.string s) ∧ (s = "0.1.0" ∨ s = "0.2.0") := by
  unfold isLegacy at h
  split at h
  · rename_i hs
    exact Or.inl hs
  · rename_i s hs
    exact Or.inr ⟨s, hs, mem_legacyVersions h⟩
  · exact absurd h (by simp)

theorem deleteDefaultGWResult_unified {result : GoMap} (h : isUnified result = true)
    (ipv4 ipv6 : Bool) : deleteDefaultGWResult result ipv4 ipv6 = deleteUnified result ipv4 ipv6 := by
  obtain ⟨s, hs, hc⟩ := isUnified_cases h
  unfold deleteDefaultGWResult
  rw [hs]
  rcases hc with rfl | rfl | rfl | rfl <;> simp [GoVal.asString]

theorem addDefaultGWResult_unified {result : GoMap} (h : isUnified result = true)
    (gw : List IP) : addDefaultGWResult result gw = addUnified result gw := by
  obtain ⟨s, hs, hc⟩ := isUnified_cases h
  unfold addDefaultGWResult
  rw [hs]
  rcases hc with rfl | rfl | rfl | rfl <;> simp [GoVal.asString]

theorem deleteDefaultGWResult_legacy {result : GoMap} (h : isLegacy result = true)
    (ipv4 ipv6 : Bool) :
    deleteDefaultGWResult result ipv4 ipv6 = deleteDefaultGWResult020 result ipv4 ipv6 := by
  unfold deleteDefaultGWResult
  rcases isLegacy_cases h with hs | ⟨s, hs, hc⟩
  · rw [hs]
  · rw [hs]
    rcases hc with rfl | rfl <;> simp [GoVal.asString]

theorem addDefaultGWResult_legacy {result : GoMap} (h : isLegacy result = true)
    (gw : List IP) : addDefaultGWResult result gw = addDefaultGWResult020 result gw := by
  unfold addDefaultGWResult
  rcases isLegacy_cases h with hs | ⟨s, hs, hc⟩
  · rw [hs]
  · rw [hs]
    rcases hc with rfl | rfl <;> simp [GoVal.asString]

/-! ## The filter loop -/

theorem sliceVal_keptSlice (l : List GoVal) :
    (sliceElems (keptSlice l) = l) ∧
      (l ≠ [] → some (sliceVal (keptSlice l)) = routesField l) := by
  cases l <;> simp [keptSlice, sliceElems, sliceVal, routesField]

theorem deleteRoutesLoop_entries (dstGW : String) (l : List GoVal)
    (hl : ∀ r ∈ l, isRouteEntry r = true) (acc : List GoVal) :
    deleteRoutesLoop dstGW l (keptSlice acc)
      = .ok (keptSlice (acc ++ l.filter (fun r => !hasDst dstGW r))) := by
  induction l generalizing acc with
  | nil => simp [deleteRoutesLoop]
  | cons r rest ih =>
    have hr := hl r (List.mem_cons_self _ _)
    have hrest : ∀ x ∈ rest, isRouteEntry x = true :=
      fun x hx => hl x (List.mem_cons_of_mem _ hx)
    cases r with
    | map route =>
      simp only [isRouteEntry] at hr
      split at hr
      · rename_i d hd
        simp only [deleteRoutesLoop, GoVal.asMap, hd, GoVal.asString]
        by_cases hdd : d = dstGW
        · have hf : hasDst dstGW (.map route) = true := by simp [hasDst, hd, hdd]
          simp [hdd, hf, ih hrest acc]
        · have hf : hasDst dstGW (.map route) = false := by simp [hasDst, hd, hdd]
          have hs : sliceAppend (keptSlice acc) (.map route) = keptSlice (acc ++ [.map route]) := by
            cases acc <;> simp [sliceAppend, keptSlice, sliceElems]
          simp [hdd, hf, hs, ih hrest (acc ++ [.map route])]
      · exact absurd hr (by simp)
    | _ => simp [isRouteEntry] at hr

theorem deleteDefaultGWResultRoutes_entries (dstGW : String) (l : List GoVal)
    (hl : ∀ r ∈ l, isRouteEntry r = true) :
    deleteDefaultGWResultRoutes (some l) dstGW
      = .ok (keptSlice (l.filter (fun r => !hasDst dstGW r))) := by
  have := deleteRoutesLoop_entries dstGW l hl []
  simpa [deleteDefaultGWResultRoutes, sliceElems, keptSlice] using this

/-- The loop returns the nil slice or a slice with an entry. -/
theorem deleteRoutesLoop_kept (dstGW : String) (l : List GoVal) (acc : List GoVal)
    (s : Slice) (h : deleteRoutesLoop dstGW l (keptSlice acc) = .ok s) :
    ∃ kept, s = keptSlice kept := by
  induction l generalizing acc with
  | nil =>
    simp only [deleteRoutesLoop, Except.ok.injEq] at h
    exact ⟨acc, h.symm⟩
  | cons r rest ih =>
    unfold deleteRoutesLoop at h
    split at h
    · exact absurd h (by simp)
    · split at h
      · exact ih acc h
      · split at h
        · exact absurd h (by simp)
        · split at h
          · have hs : sliceAppend (keptSlice acc) r = keptSlice (acc ++ [r]) := by
              cases acc <;> simp [sliceAppend, keptSlice, sliceElems]
            rw [hs] at h
            exact ih _ h
          · exact ih acc h

theorem deleteDefaultGWResultRoutes_kept (routes : Slice) (dstGW : String) (s : Slice)
    (h : deleteDefaultGWResultRoutes routes dstGW = .ok s) : ∃ kept, s = keptSlice kept :=
  deleteRoutesLoop_kept dstGW (sliceElems routes) [] s (by simpa [keptSlice] using h)

theorem appendGateways_some (xs : List GoVal) (gw : List IP) :
    appendGateways (some xs) gw = some (xs ++ gw.map gatewayEntry) := by
  induction gw generalizing xs with
  | nil => simp [appendGateways]
  | cons g gw ih =>
    simp [appendGateways, sliceAppend, sliceElems, ih, gatewayEntry]

/-! ## Frame lemmas of the legacy handlers -/

theorem addFamily020_frame {result r' : GoMap} {key dst : String} {g : IP} {eObj eRoutes : Err}
    (h : addFamily020 result key dst g eObj eRoutes = .ok r') (k : String) (hk : key ≠ k) :
    mapGet r' k = mapGet result k := by
  unfold addFamily020 at h
  split at h
  · cases h; rfl
  · split at h
    · exact absurd h (by simp)
    · split at h
      · exact absurd h (by simp)
      · cases h
        exact mapGet_mapSet_ne _ _ hk

theorem addDefaultGWResult020_frame (gw : List IP) {result r' : GoMap}
    (h : addDefaultGWResult020 result gw = .ok r') (k : String) (h4 : "ip4" ≠ k)
    (h6 : "ip6" ≠ k) : mapGet r' k = mapGet result k := by
  induction gw generalizing result with
  | nil =>
    simp only [addDefaultGWResult020, Except.ok.injEq] at h
    rw [h]
  | cons g gw ih =>
    unfold addDefaultGWResult020 at h
    split at h
    · exact absurd h (by simp)
    · rename_i r₁ hr₁
      rw [ih h]
      split at hr₁
      · exact addFamily020_frame hr₁ k h4
      · exact addFamily020_frame hr₁ k h6

theorem deleteFamily020_frame {result r' : GoMap} {key dst : String} {eObj eRoutes : Err}
    (h : deleteFamily020 result key dst eObj eRoutes = .ok r') (k : String) (hk : key ≠ k) :
    mapGet r' k = mapGet result k := by
  unfold deleteFamily020 at h
  split at h
  · cases h; rfl
  · split at h
    · exact absurd h (by simp)
    · split at h
      · cases h; rfl
      · split at h
        · exact absurd h (by simp)
        · split at h
          · exact absurd h (by simp)
          · cases h
            exact mapGet_mapSet_ne _ _ hk

theorem deleteDefaultGWResult020_frame {result r' : GoMap} {ipv4 ipv6 : Bool}
    (h : deleteDefaultGWResult020 result ipv4 ipv6 = .ok r') (k : String) (h4 : "ip4" ≠ k)
    (h6 : "ip6" ≠ k) : mapGet r' k = mapGet result k := by
  unfold deleteDefaultGWResult020 at h
  split at h
  · exact absurd h (by simp)
  · rename_i r₁ hr₁
    have h₁ : mapGet r₁ k = mapGet result k := by
      split at hr₁
      · exact deleteFamily020_frame hr₁ k h4
      · cases hr₁; rfl
    split at h
    · rw [deleteFamily020_frame h k h6, h₁]
    · cases h; exact h₁

theorem addUnified_frame {result r' : GoMap} {gw : List IP}
    (h : addUnified result gw = .ok r') (k : String) (hk : "routes" ≠ k) :
    mapGet r' k = mapGet result k := by
  unfold addUnified at h
  split at h
  · exact absurd h (by simp)
  · cases h
    exact mapGet_mapSet_ne _ _ hk

theorem deleteUnified_frame {result r' : GoMap} {ipv4 ipv6 : Bool}
    (h : deleteUnified result ipv4 ipv6 = .ok r') (k : String) (hk : "routes" ≠ k) :
    mapGet r' k = mapGet result k := by
  unfold deleteUnified at h
  split at h
  · cases h; rfl
  · split at h
    · exact absurd h (by simp)
    · split at h
      · exact absurd h (by simp)
      · split at h
        · exact absurd h (by simp)
        · split at h
          · cases h
            exact mapGet_mapDelete_ne _ hk
          · cases h
            exact mapGet_mapSet_ne _ _ hk

theorem deleteDefaultGWResultRoutes_keptSlice (l : List GoVal) (dstGW : String) :
    deleteDefaultGWResultRoutes (keptSlice l) dstGW = deleteDefaultGWResultRoutes (some l) dstGW := by
  cases l <;> rfl

/-- The last step of the unified delete: an empty slice removes the key. -/
theorem unified_store (result : GoMap) (s : Slice) (l : List GoVal)
    (hs : s = some l ∨ s = keptSlice l) :
    ∃ r', (if (sliceElems s).length = 0 then Except.ok (mapDelete result "routes")
        else (Except.ok (mapSet result "routes" (sliceVal s)) : Except Err GoMap)) = .ok r' ∧
      mapGet r' "routes" = routesField l := by
  have he : sliceElems s = l := by
    rcases hs with rfl | rfl
    · rfl
    · exact (sliceVal_keptSlice l).1
  rw [he]
  cases l with
  | nil =>
    exact ⟨mapDelete result "routes", by simp, by simp [mapGet_mapDelete_self, routesField]⟩
  | cons x xs =>
    refine ⟨mapSet result "routes" (sliceVal s), by simp, ?_⟩
    rw [mapGet_mapSet_self]
    rcases hs with rfl | rfl <;> simp [sliceVal, keptSlice, routesField]

/-- The unified delete as a filter; the entries have to be well typed only
when a filter runs. -/
theorem deleteUnified_entries {result : GoMap} {rs : List GoVal}
    (hr : mapGet result "routes" = some (.slice rs)) (ipv4 ipv6 : Bool)
    (ht : (ipv4 = true ∨ ipv6 = true) → ∀ r ∈ rs, isRouteEntry r = true) :
    ∃ r', deleteUnified result ipv4 ipv6 = .ok r' ∧
      mapGet r' "routes" = routesField (rs.filter
        (fun r => !(ipv4 && hasDst "0.0.0.0/0" r) && !(ipv6 && hasDst "::0/0" r))) := by
  have ht' : (ipv4 = true ∨ ipv6 = true) → ∀ (p : GoVal → Bool), ∀ r ∈ rs.filter p,
      isRouteEntry r = true :=
    fun hf p r hr => ht hf r (List.mem_of_mem_filter hr)
  unfold deleteUnified
  rw [hr]
  cases ipv4 <;> cases ipv6
  · simpa [GoVal.asSlice] using unified_store result (some rs) rs (Or.inl rfl)
  · simpa [GoVal.asSlice, deleteDefaultGWResultRoutes_entries _ rs (ht (Or.inr rfl))] using
      unified_store result _ _ (Or.inr rfl)
  · simpa [GoVal.asSlice, deleteDefaultGWResultRoutes_entries _ rs (ht (Or.inl rfl))] using
      unified_store result _ _ (Or.inr rfl)
  · simpa [GoVal.asSlice, deleteDefaultGWResultRoutes_entries _ rs (ht (Or.inl rfl)),
      deleteDefaultGWResultRoutes_keptSlice,
      deleteDefaultGWResultRoutes_entries _ _ (ht' (Or.inl rfl) _),
      List.filter_filter, Bool.and_comm] using
      unified_store result _ _ (Or.inr rfl)

theorem deleteUnified_sorted {result r' : GoMap} {ipv4 ipv6 : Bool}
    (hs : KeysSorted result) (h : deleteUnified result ipv4 ipv6 = .ok r') : KeysSorted r' := by
  unfold deleteUnified at h
  split at h
  · cases h; exact hs
  · split at h
    · exact absurd h (by simp)
    · split at h
      · exact absurd h (by simp)
      · split at h
        · exact absurd h (by simp)
        · split at h
          · cases h
            exact keysSorted_mapDelete hs _
          · cases h
            exact keysSorted_mapSet hs _ _

/-- After a successful unified delete every binding of the routes key is the
normal form of some list of entries. -/
theorem deleteUnified_shape {result r' : GoMap} {ipv4 ipv6 : Bool}
    (h : deleteUnified result ipv4 ipv6 = .ok r') :
    ∃ l, mapGet r' "routes" = routesField l ∧
      ∀ v, ("routes", v) ∈ r' → some v = routesField l := by
  unfold deleteUnified at h
  split at h
  · rename_i hnone
    cases h
    exact ⟨[], hnone, fun v hv => absurd hv (mapGet_none_not_mem hnone v)⟩
  · split at h
    · exact absurd h (by simp)
    · split at h
      · exact absurd h (by simp)
      · split at h
        · exact absurd h (by simp)
        · rename_i s _
          split at h
          · cases h
            exact ⟨[], mapGet_mapDelete_self _ _,
              fun v hv => absurd hv (mapGet_none_not_mem (mapGet_mapDelete_self _ _) v)⟩
          · rename_i hlen
            cases h
            cases s with
            | none => simp [sliceElems] at hlen
            | some xs =>
              cases xs with
              | nil => simp [sliceElems] at hlen
              | cons x xs =>
                refine ⟨x :: xs, by rw [mapGet_mapSet_self]; rfl, fun v hv => ?_⟩
                rw [mem_mapSet_self hv]
                rfl

/-! ## The patched document -/

theorem keys_insertKey {α : Type} (k : String) (v : α) (m : List (String × α)) (k' : String) :
    k' ∈ (insertKey k v m).map Prod.fst ↔ k' = k ∨ k' ∈ m.map Prod.fst := by
  simp only [List.mem_map, mem_insertKey]
  constructor
  · rintro ⟨x, (rfl | hx), rfl⟩
    · exact Or.inl rfl
    · exact Or.inr ⟨x, hx, rfl⟩
  · rintro (rfl | ⟨x, hx, rfl⟩)
    · exact ⟨(k', v), Or.inl rfl, rfl⟩
    · exact ⟨x, Or.inr hx, rfl⟩

theorem keys_sortKeys {α : Type} (m : List (String × α)) (k : String) :
    k ∈ (sortKeys m).map Prod.fst ↔ k ∈ m.map Prod.fst := by
  simp only [List.mem_map, mem_sortKeys]

theorem keys_mapSet (m : GoMap) (k : String) (v : GoVal) (k' : String) :
    k' ∈ (mapSet m k v).map Prod.fst ↔ k' = k ∨ k' ∈ m.map Prod.fst := by
  unfold mapSet
  rw [keys_insertKey, mapDelete_eq_filter]
  simp only [List.mem_map, List.mem_filter]
  constructor
  · rintro (rfl | ⟨x, ⟨hx, -⟩, rfl⟩)
    · exact Or.inl rfl
    · exact Or.inr ⟨x, hx, rfl⟩
  · rintro (rfl | ⟨x, hx, rfl⟩)
    · exact Or.inl rfl
    · by_cases e : x.1 = k
      · exact Or.inl e
      · exact Or.inr ⟨x, ⟨hx, by simpa using e⟩, rfl⟩

theorem keys_decodeMembers (kvs : List (String × Json)) (acc : GoMap) (k : String) :
    k ∈ (decodeMembers kvs acc).map Prod.fst ↔ k ∈ kvs.map Prod.fst ∨ k ∈ acc.map Prod.fst := by
  induction kvs generalizing acc with
  | nil => simp [decodeMembers]
  | cons kv t ih =>
    obtain ⟨k₀, j₀⟩ := kv
    rw [decodeMembers, ih, keys_mapSet]
    simp only [List.map_cons, List.mem_cons]
    tauto

theorem mem_keys_of_mapGet {m : GoMap} {k : String} {v : GoVal} (h : mapGet m k = some v) :
    k ∈ m.map Prod.fst := by
  induction m with
  | nil => simp [mapGet] at h
  | cons kv t ih =>
    obtain ⟨k₀, v₀⟩ := kv
    by_cases e : k₀ = k
    · simp [e]
    · simp only [mapGet, e, if_false] at h
      simp [ih h]

theorem canon_of_mapGet {m : GoMap} (hm : CanonMembers m) {k : String} {v : GoVal}
    (h : mapGet m k = some v) : Canon v := by
  induction m with
  | nil => simp [mapGet] at h
  | cons kv t ih =>
    obtain ⟨k₀, v₀⟩ := kv
    by_cases e : k₀ = k
    · simp only [mapGet, e, if_true, Option.some.injEq] at h
      rw [← h]
      exact hm.1
    · simp only [mapGet, e, if_false] at h
      exact ih hm.2 h

theorem keysSorted_decoded (kvs : List (String × Json)) : KeysSorted (decodeMembers kvs []) :=
  keysSorted_decodeMembers kvs [] List.Pairwise.nil

theorem canonMembers_decoded (kvs : List (String × Json)) :
    CanonMembers (decodeMembers kvs []) :=
  canonMembers_decodeMembers kvs [] trivial (canon_decodeValues kvs)

/-- Reading back the document written for a map in key order. -/
theorem jsonUnmarshal_jsonMarshal {m : GoMap} (h : KeysSorted m) :
    jsonUnmarshal (jsonMarshal m) = .ok (m.map (fun kv => (kv.1, reread kv.2))) := by
  simp only [jsonMarshal, marshal, jsonUnmarshal]
  rw [reread_map h]

theorem unmarshal_result {cacheFile : Bytes} {cachedInfo : GoMap} {res : GoVal}
    {resultJSON : GoMap} (hun : jsonUnmarshal cacheFile = .ok cachedInfo)
    (hres : mapGet cachedInfo "result" = some res) (hmap : res.asMap = some resultJSON) :
    ∃ kvs, cacheFile = .text (.obj kvs) ∧ cachedInfo = decodeMembers kvs [] ∧
      res = .map resultJSON := by
  have hres' : res = .map resultJSON := by
    cases res <;> simp [GoVal.asMap] at hmap
    rw [hmap]
  cases cacheFile with
  | malformed raw => simp [jsonUnmarshal] at hun
  | text doc =>
    cases doc with
    | obj kvs =>
      simp only [jsonUnmarshal, Except.ok.injEq] at hun
      exact ⟨kvs, rfl, hun.symm, hres'⟩
    | null =>
      simp only [jsonUnmarshal, Except.ok.injEq] at hun
      subst hun
      simp [mapGet] at hres
    | _ => simp [jsonUnmarshal] at hun

/-- How a successful add relates the two documents. -/
theorem add_shape {cacheFile out : Bytes} {gw : List IP}
    (h : addDefaultGWCacheBytes cacheFile gw = .ok out) :
    ∃ kvs r r', cacheFile = .text (.obj kvs) ∧
      mapGet (decodeMembers kvs []) "result" = some (.map r) ∧
      addDefaultGWResult r gw = .ok r' ∧
      out = jsonMarshal (mapSet (decodeMembers kvs []) "result" (.map r')) := by
  unfold addDefaultGWCacheBytes at h
  split at h
  · exact absurd h (by simp)
  · rename_i cachedInfo hun
    split at h
    · exact absurd h (by simp)
    · rename_i res hres
      split at h
      · exact absurd h (by simp)
      · rename_i resultJSON hmap
        split at h
        · exact absurd h (by simp)
        · rename_i newResult hnew
          simp only [Except.ok.injEq] at h
          obtain ⟨kvs, rfl, rfl, rfl⟩ := unmarshal_result hun hres hmap
          exact ⟨kvs, resultJSON, newResult, rfl, hres, hnew, h.symm⟩

/-- How a successful delete relates the two documents. -/
theorem delete_shape {cacheFile out : Bytes} {ipv4 ipv6 : Bool}
    (h : deleteDefaultGWCacheBytes cacheFile ipv4 ipv6 = .ok out) :
    ∃ kvs r r', cacheFile = .text (.obj kvs) ∧
      mapGet (decodeMembers kvs []) "result" = some (.map r) ∧
      deleteDefaultGWResult r ipv4 ipv6 = .ok r' ∧
      out = jsonMarshal (mapSet (decodeMembers kvs []) "result" (.map r')) := by
  unfold deleteDefaultGWCacheBytes at h
  split at h
  · exact absurd h (by simp)
  · rename_i cachedInfo hun
    split at h
    · exact absurd h (by simp)
    · rename_i res hres
      split at h
      · exact absurd h (by simp)
      · rename_i resultJSON hmap
        split at h
        · exact absurd h (by simp)
        · rename_i newResult hnew
          simp only [Except.ok.injEq] at h
          obtain ⟨kvs, rfl, rfl, rfl⟩ := unmarshal_result hun hres hmap
          exact ⟨kvs, resultJSON, newResult, rfl, hres, hnew, h.symm⟩

/-- How a successful patch relates the two documents. -/
theorem patched_shape {cacheFile out : Bytes} {gw : List IP} {ipv4 ipv6 : Bool}
    (h : addDefaultGWCacheBytes cacheFile gw = .ok out ∨
      deleteDefaultGWCacheBytes cacheFile ipv4 ipv6 = .ok out) :
    ∃ kvs r r', cacheFile = .text (.obj kvs) ∧
      mapGet (decodeMembers kvs []) "result" = some (.map r) ∧
      (addDefaultGWResult r gw = .ok r' ∨ deleteDefaultGWResult r ipv4 ipv6 = .ok r') ∧
      out = jsonMarshal (mapSet (decodeMembers kvs []) "result" (.map r')) := by
  rcases h with h | h
  · obtain ⟨kvs, r, r', h1, h2, h3, h4⟩ := add_shape h
    exact ⟨kvs, r, r', h1, h2, Or.inl h3, h4⟩
  · obtain ⟨kvs, r, r', h1, h2, h3, h4⟩ := delete_shape h
    exact ⟨kvs, r, r', h1, h2, Or.inr h3, h4⟩

/-! ## Round trip -/

theorem reread_gatewayEntry (g : IP) :
    reread (gatewayEntry g) = .map [("dst", .string (if (To4 g).isNone then "::0/0" else "0.0.0.0/0")),
      ("gw", .string (ipString g))] := by
  have h : keyLt "dst" "gw" = true := by decide
  have h' : keyLt "gw" "dst" = false := by decide
  simp [gatewayEntry, routeEntry, reread, marshal, marshalStrings, sortKeys, insertKey, decode,
    decodeMembers, mapSet, mapDelete, h, h']

theorem reread_map_val {m : GoMap} (h : KeysSorted m) :
    reread (.map m) = .map (m.map (fun kv => (kv.1, reread kv.2))) := by
  simp only [reread, marshal, decode, GoVal.map.injEq]
  exact reread_map h

theorem reread_slice (xs : List GoVal) : reread (.slice xs) = .slice (xs.map reread) := by
  simp only [reread, marshal, decode, GoVal.slice.injEq]
  rw [marshalList_eq_map, decodeList_eq_map, List.map_map]
  rfl

theorem docResult_text {cacheFile : Bytes} {result : GoMap}
    (h : docResult cacheFile = some result) :
    ∃ kvs, cacheFile = .text (.obj kvs) ∧
      mapGet (decodeMembers kvs []) "result" = some (.map result) := by
  unfold docResult at h
  split at h
  · rename_i cachedInfo hun
    split at h
    · rename_i r hres
      simp only [Option.some.injEq] at h
      subst h
      obtain ⟨kvs, h1, h2, -⟩ := unmarshal_result hun hres rfl
      subst h2
      exact ⟨kvs, h1, hres⟩
    · exact absurd h (by simp)
  · exact absurd h (by simp)

theorem addDefaultGWCacheBytes_ok {cacheFile : Bytes} {m r r' : GoMap} {gw : List IP}
    (hun : jsonUnmarshal cacheFile = .ok m) (hres : mapGet m "result" = some (.map r))
    (h : addDefaultGWResult r gw = .ok r') :
    addDefaultGWCacheBytes cacheFile gw = .ok (jsonMarshal (mapSet m "result" (.map r'))) := by
  simp [addDefaultGWCacheBytes, hun, hres, GoVal.asMap, h]

theorem deleteDefaultGWCacheBytes_ok {cacheFile : Bytes} {m r r' : GoMap} {ipv4 ipv6 : Bool}
    (hun : jsonUnmarshal cacheFile = .ok m) (hres : mapGet m "result" = some (.map r))
    (h : deleteDefaultGWResult r ipv4 ipv6 = .ok r') :
    deleteDefaultGWCacheBytes cacheFile ipv4 ipv6
      = .ok (jsonMarshal (mapSet m "result" (.map r'))) := by
  simp [deleteDefaultGWCacheBytes, hun, hres, GoVal.asMap, h]

theorem docResult_jsonMarshal {m r : GoMap} (hm : KeysSorted m) (hr : KeysSorted r)
    (hres : mapGet m "result" = some (.map r)) :
    docResult (jsonMarshal m) = some (r.map (fun kv => (kv.1, reread kv.2))) := by
  unfold docResult
  rw [jsonUnmarshal_jsonMarshal hm]
  simp only [mapGet_map, hres, Option.map_some', reread_map_val hr]

theorem addUnified_routes {result : GoMap} {rs : List GoVal}
    (hrs : resultRoutes result = some rs) (gw : List IP) :
    addUnified result gw
      = .ok (mapSet result "routes" (.slice (rs ++ gw.map gatewayEntry))) := by
  unfold resultRoutes at hrs
  unfold addUnified
  split at hrs
  · rename_i hnone
    simp only [Option.some.injEq] at hrs
    subst hrs
    rw [hnone]
    simp only [appendGateways_some, sliceVal]
  · rename_i xs hsome
    simp only [Option.some.injEq] at hrs
    subst hrs
    rw [hsome]
    simp only [GoVal.asSlice, appendGateways_some, sliceVal]
  · exact absurd hrs (by simp)

theorem canonList_resultRoutes {result : GoMap} {rs : List GoVal} (hc : CanonMembers result)
    (hrs : resultRoutes result = some rs) : CanonList rs := by
  unfold resultRoutes at hrs
  split at hrs
  · simp only [Option.some.injEq] at hrs
    subst hrs
    trivial
  · rename_i xs hsome
    simp only [Option.some.injEq] at hrs
    subst hrs
    have := canon_of_mapGet hc hsome
    simpa [Canon] using this
  · exact absurd hrs (by simp)

theorem map_reread_canonList {xs : List GoVal} (h : CanonList xs) : xs.map reread = xs :=
  reread_canonList xs h

theorem isUnified_congr {a b : GoMap} (h : mapGet a "cniVersion" = mapGet b "cniVersion") :
    isUnified a = isUnified b := by
  unfold isUnified
  rw [h]

theorem hasDst_reread_gatewayEntry (g : IP) :
    isRouteEntry (reread (gatewayEntry g)) = true ∧
    hasDst "0.0.0.0/0" (reread (gatewayEntry g)) = (To4 g).isSome ∧
    hasDst "::0/0" (reread (gatewayEntry g)) = (To4 g).isNone := by
  rw [reread_gatewayEntry]
  cases h : To4 g <;> simp [isRouteEntry, hasDst, mapGet]

/-! ## The route loops -/

theorem setDefaultGWLoop_attempts (k : Netlink) (linkIndex : Nat) (gateways : List IP) (n : Nat)
    (err : Option NetlinkErr) (attempts : List Route) :
    (setDefaultGWLoop k linkIndex gateways n err attempts).2
      = attempts ++ gateways.map (fun gw => Route.mk linkIndex none gw) := by
  induction gateways generalizing n err attempts with
  | nil => simp [setDefaultGWLoop]
  | cons g rest ih => simp [setDefaultGWLoop, ih]

theorem setDefaultGWLoop_benign (k : Netlink) (linkIndex : Nat) (gateways : List IP) (n : Nat)
    (err : Option NetlinkErr) (attempts : List Route) (herr : err = none)
    (h : ∀ i, i < gateways.length → ∀ r,
      k.routeAdd (n + i) r = none ∨ k.routeAdd (n + i) r = some .eexist) :
    (setDefaultGWLoop k linkIndex gateways n err attempts).1 = none := by
  induction gateways generalizing n err attempts with
  | nil => simpa [setDefaultGWLoop] using herr
  | cons g rest ih =>
    unfold setDefaultGWLoop
    apply ih
    · rcases h 0 (by simp) (Route.mk linkIndex none g) with h0 | h0 <;>
        simp only [Nat.add_zero] at h0 <;> rw [h0]
    · intro i hi r
      have := h (i + 1) (by simpa using hi) r
      rwa [show n + (i + 1) = n + 1 + i by omega] at this

theorem deleteDefaultGWLoop_attempts (k : Netlink) (routes : List Route) (n : Nat)
    (err : Option NetlinkErr) (attempts : List Route) :
    (deleteDefaultGWLoop k routes n err attempts).2
      = attempts ++ routes.filter (fun r => r.Dst.isNone) := by
  induction routes generalizing n err attempts with
  | nil => simp [deleteDefaultGWLoop]
  | cons r rest ih =>
    unfold deleteDefaultGWLoop
    by_cases h : r.Dst.isNone = true
    · simp [h, ih]
    · simp [h, ih]

/-! ## Failing patches -/

theorem mapGet_none_of_not_mem_keys {m : GoMap} {k : String} (h : k ∉ m.map Prod.fst) :
    mapGet m k = none := by
  cases hget : mapGet m k with
  | none => rfl
  | some v => exact absurd (mem_keys_of_mapGet hget) h

theorem mapGet_decoded_none {kvs : List (String × Json)} {k : String}
    (h : k ∉ kvs.map Prod.fst) : mapGet (decodeMembers kvs []) k = none := by
  apply mapGet_none_of_not_mem_keys
  intro hk
  rcases (keys_decodeMembers kvs [] k).1 hk with hk | hk
  · exact h hk
  · simp at hk

theorem addFamily020_absent {result : GoMap} {key : String} (h : mapGet result key = none)
    (dst : String) (g : IP) (eObj eRoutes : Err) :
    addFamily020 result key dst g eObj eRoutes = .ok result := by
  unfold addFamily020
  rw [h]

theorem addDefaultGWResult020_no_ip6 (result : GoMap) (gw : List IP)
    (h : mapGet result "ip6" = none) (hg : ∀ g ∈ gw, To4 g = none) :
    addDefaultGWResult020 result gw = .ok result := by
  induction gw with
  | nil => rfl
  | cons g rest ih =>
    unfold addDefaultGWResult020
    rw [hg g (List.mem_cons_self _ _)]
    simp only [Option.isSome_none, Bool.false_eq_true, if_false, addFamily020_absent h]
    exact ih (fun x hx => hg x (List.mem_cons_of_mem _ hx))

theorem addDefaultGWResult020_no_ip4 (result : GoMap) (gw : List IP)
    (h : mapGet result "ip4" = none) (hg : ∀ g ∈ gw, (To4 g).isSome = true) :
    addDefaultGWResult020 result gw = .ok result := by
  induction gw with
  | nil => rfl
  | cons g rest ih =>
    unfold addDefaultGWResult020
    simp only [hg g (List.mem_cons_self _ _), if_true, addFamily020_absent h]
    exact ih (fun x hx => hg x (List.mem_cons_of_mem _ hx))

/-! ## Frames of the sub-objects -/

theorem sameButRoutes_refl (a : Option GoVal) : SameButRoutes a a := Or.inl rfl

theorem sameButRoutes_trans {a b c : Option GoVal} (h1 : SameButRoutes a b)
    (h2 : SameButRoutes b c) : SameButRoutes a c := by
  rcases h1 with rfl | ⟨m, m', rfl, rfl, hm⟩
  · exact h2
  · rcases h2 with rfl | ⟨n, n', hn, rfl, hn'⟩
    · exact Or.inr ⟨m, m', rfl, rfl, hm⟩
    · simp only [Option.some.injEq, GoVal.map.injEq] at hn
      subst hn
      exact Or.inr ⟨m, n', rfl, rfl, fun f hf => by rw [hn' f hf, hm f hf]⟩

theorem sameButRoutes_mapSet (result ipN : GoMap) (key : String) (v : GoVal)
    (h : mapGet result key = some (.map ipN)) :
    SameButRoutes (mapGet result key)
      (mapGet (mapSet result key (.map (mapSet ipN "routes" v))) key) := by
  rw [h, mapGet_mapSet_self]
  exact Or.inr ⟨ipN, _, rfl, rfl, fun f hf => mapGet_mapSet_ne _ _ (Ne.symm hf)⟩

theorem addFamily020_sub {result r' : GoMap} {key dst : String} {g : IP} {eObj eRoutes : Err}
    (h : addFamily020 result key dst g eObj eRoutes = .ok r') :
    SameButRoutes (mapGet result key) (mapGet r' key) := by
  unfold addFamily020 at h
  split at h
  · cases h
    exact sameButRoutes_refl _
  · rename_i v hv
    split at h
    · exact absurd h (by simp)
    · rename_i ipN hmap
      split at h
      · exact absurd h (by simp)
      · cases h
        have hv' : v = .map ipN := by
          cases v <;> simp [GoVal.asMap] at hmap
          rw [hmap]
        subst hv'
        exact sameButRoutes_mapSet result ipN key _ hv

theorem deleteFamily020_sub {result r' : GoMap} {key dst : String} {eObj eRoutes : Err}
    (h : deleteFamily020 result key dst eObj eRoutes = .ok r') :
    SameButRoutes (mapGet result key) (mapGet r' key) := by
  unfold deleteFamily020 at h
  split at h
  · cases h
    exact sameButRoutes_refl _
  · rename_i v hv
    split at h
    · exact absurd h (by simp)
    · rename_i ipN hmap
      have hv' : v = .map ipN := by
        cases v <;> simp [GoVal.asMap] at hmap
        rw [hmap]
      subst hv'
      split at h
      · cases h
        exact sameButRoutes_refl _
      · split at h
        · exact absurd h (by simp)
        · split at h
          · exact absurd h (by simp)
          · cases h
            exact sameButRoutes_mapSet result ipN key _ hv

/-- What a legacy handler may change: nothing outside `ip4` and `ip6`, and
inside them nothing but `routes`. -/
theorem addDefaultGWResult020_subs (gw : List IP) {result r' : GoMap}
    (h : addDefaultGWResult020 result gw = .ok r') :
    SameButRoutes (mapGet result "ip4") (mapGet r' "ip4") ∧
      SameButRoutes (mapGet result "ip6") (mapGet r' "ip6") := by
  induction gw generalizing result with
  | nil =>
    simp only [addDefaultGWResult020, Except.ok.injEq] at h
    subst h
    exact ⟨sameButRoutes_refl _, sameButRoutes_refl _⟩
  | cons g gw ih =>
    unfold addDefaultGWResult020 at h
    split at h
    · exact absurd h (by simp)
    · rename_i r₁ hr₁
      obtain ⟨i4, i6⟩ := ih h
      split at hr₁
      · refine ⟨sameButRoutes_trans (addFamily020_sub hr₁) i4, ?_⟩
        rw [← addFamily020_frame hr₁ "ip6" (by decide)]
        exact i6
      · refine ⟨?_, sameButRoutes_trans (addFamily020_sub hr₁) i6⟩
        rw [← addFamily020_frame hr₁ "ip4" (by decide)]
        exact i4

theorem deleteDefaultGWResult020_subs {result r' : GoMap} {ipv4 ipv6 : Bool}
    (h : deleteDefaultGWResult020 result ipv4 ipv6 = .ok r') :
    SameButRoutes (mapGet result "ip4") (mapGet r' "ip4") ∧
      SameButRoutes (mapGet result "ip6") (mapGet r' "ip6") := by
  unfold deleteDefaultGWResult020 at h
  split at h
  · exact absurd h (by simp)
  · rename_i r₁ hr₁
    have h₁ : SameButRoutes (mapGet result "ip4") (mapGet r₁ "ip4") ∧
        mapGet r₁ "ip6" = mapGet result "ip6" := by
      split at hr₁
      · exact ⟨deleteFamily020_sub hr₁, deleteFamily020_frame hr₁ "ip6" (by decide)⟩
      · cases hr₁
        exact ⟨sameButRoutes_refl _, rfl⟩
    split at h
    · refine ⟨?_, ?_⟩
      · rw [deleteFamily020_frame h "ip4" (by decide)]
        exact h₁.1
      · rw [← h₁.2]
        exact deleteFamily020_sub h
    · cases h
      exact ⟨h₁.1, by rw [h₁.2]; exact sameButRoutes_refl _⟩

/-- A result is of the legacy schema, of the unified schema, or rejected by
both dispatchers. -/
theorem dispatch_cases (result : GoMap) :
    isLegacy result = true ∨ isUnified result = true ∨
      ((∀ gw, ∃ e, addDefaultGWResult result gw = .error e) ∧
        (∀ ipv4 ipv6, ∃ e, deleteDefaultGWResult result ipv4 ipv6 = .error e)) := by
  cases hv : mapGet result "cniVersion" with
  | none => exact Or.inl (by simp [isLegacy, hv])
  | some v =>
    cases v with
    | string s =>
      by_cases hl : s = "0.1.0" ∨ s = "0.2.0"
      · exact Or.inl (by rcases hl with rfl | rfl <;> simp [isLegacy, hv, legacyVersions])
      · by_cases hu : s = "0.3.0" ∨ s = "0.3.1" ∨ s = "0.4.0" ∨ s = "1.0.0"
        · exact Or.inr (Or.inl (by
            rcases hu with rfl | rfl | rfl | rfl <;> simp [isUnified, hv, unifiedVersions]))
        · have hu' : s ≠ "0.3.0" ∧ s ≠ "0.3.1" ∧ s ≠ "0.4.0" ∧ s ≠ "1.0.0" := by
            simp only [not_or] at hu
            exact hu
          exact Or.inr (Or.inr
            ⟨fun gw => ⟨.notSupportedVersion s,
                by simp [addDefaultGWResult, hv, GoVal.asString, hl, hu']⟩,
              fun a b => ⟨.notSupportedVersion s,
                by simp [deleteDefaultGWResult, hv, GoVal.asString, hl, hu']⟩⟩)
    | _ =>
      exact Or.inr (Or.inr
        ⟨fun gw => ⟨.wrongCniVersionFormat, by simp [addDefaultGWResult, hv, GoVal.asString]⟩,
          fun a b => ⟨.wrongCniVersionFormat,
            by simp [deleteDefaultGWResult, hv, GoVal.asString]⟩⟩)

theorem isLegacy_not_isUnified {result : GoMap} (h : isLegacy result = true) :
    isUnified result = false := by
  rcases isLegacy_cases h with hs | ⟨s, hs, hc⟩
  · simp [isUnified, hs]
  · rcases hc with rfl | rfl <;> simp [isUnified, hs, unifiedVersions]

/-! ## Empty arrays on the add path -/

theorem subRoutesEmpty_congr {a b : GoMap} {key : String} (h : mapGet a key = mapGet b key) :
    subRoutesEmpty a key = subRoutesEmpty b key := by
  unfold subRoutesEmpty
  rw [h]

theorem hasEmptyRoutes_false_iff (result : GoMap) :
    hasEmptyRoutes result = false ↔
      (∀ v, mapGet result "routes" = some v → isEmptyArray v = false) ∧
      subRoutesEmpty result "ip4" = false ∧ subRoutesEmpty result "ip6" = false := by
  unfold hasEmptyRoutes
  cases h : mapGet result "routes" with
  | none => simp
  | some v => simp [and_assoc]

theorem sliceVal_of_asSlice {v : GoVal} {s : Slice} (h : v.asSlice = some s) : sliceVal s = v := by
  cases v <;> simp [GoVal.asSlice] at h <;> subst h <;> rfl

theorem isEmptyArray_sliceAppend (s : Slice) (v : GoVal) :
    isEmptyArray (sliceVal (sliceAppend s v)) = false := by
  cases hs : sliceElems s <;> simp [sliceAppend, sliceVal, hs, isEmptyArray]

theorem appendGateways_cons (s : Slice) (g : IP) (gw : List IP) :
    appendGateways s (g :: gw) = some (sliceElems s ++ (g :: gw).map gatewayEntry) := by
  simp only [appendGateways, sliceAppend, appendGateways_some, List.map_cons, gatewayEntry,
    List.append_assoc, List.singleton_append]

theorem isEmptyArray_appendGateways (s : Slice) (gw : List IP) (h : gw ≠ []) :
    isEmptyArray (sliceVal (appendGateways s gw)) = false := by
  cases gw with
  | nil => exact absurd rfl h
  | cons g rest =>
    rw [appendGateways_cons]
    cases hs : sliceElems s <;> simp [sliceVal, isEmptyArray]

theorem addUnified_nonempty {result r' : GoMap} {gw : List IP}
    (hin : hasEmptyRoutes result = false) (hgw : mapGet result "routes" = none → gw ≠ [])
    (h : addUnified result gw = .ok r') : hasEmptyRoutes r' = false := by
  obtain ⟨htop, h4, h6⟩ := (hasEmptyRoutes_false_iff result).1 hin
  rw [hasEmptyRoutes_false_iff]
  have hframe := fun k hk => addUnified_frame h k hk
  refine ⟨?_, ?_, ?_⟩
  · intro v hv
    unfold addUnified at h
    split at h
    · exact absurd h (by simp)
    · rename_i routes hroutes
      cases h
      rw [mapGet_mapSet_self] at hv
      simp only [Option.some.injEq] at hv
      subst hv
      by_cases hg : gw = []
      · subst hg
        simp only [appendGateways]
        cases hr : mapGet result "routes" with
        | none => exact absurd rfl (hgw hr)
        | some rv =>
          rw [hr] at hroutes
          simp only at hroutes
          rw [sliceVal_of_asSlice hroutes]
          exact htop rv hr
      · exact isEmptyArray_appendGateways routes gw hg
  · rw [subRoutesEmpty_congr (hframe "ip4" (by decide)), h4]
  · rw [subRoutesEmpty_congr (hframe "ip6" (by decide)), h6]

theorem addFamily020_sub_nonempty {result r' : GoMap} {key dst : String} {g : IP}
    {eObj eRoutes : Err} (hin : subRoutesEmpty result key = false)
    (h : addFamily020 result key dst g eObj eRoutes = .ok r') :
    subRoutesEmpty r' key = false := by
  unfold addFamily020 at h
  split at h
  · cases h
    exact hin
  · split at h
    · exact absurd h (by simp)
    · split at h
      · exact absurd h (by simp)
      · cases h
        simp only [subRoutesEmpty, mapGet_mapSet_self, isEmptyArray_sliceAppend]

theorem addDefaultGWResult020_nonempty (gw : List IP) {result r' : GoMap}
    (hin : hasEmptyRoutes result = false) (h : addDefaultGWResult020 result gw = .ok r') :
    hasEmptyRoutes r' = false := by
  induction gw generalizing result with
  | nil =>
    simp only [addDefaultGWResult020, Except.ok.injEq] at h
    subst h
    exact hin
  | cons g gw ih =>
    unfold addDefaultGWResult020 at h
    split at h
    · exact absurd h (by simp)
    · rename_i r₁ hr₁
      apply ih _ h
      obtain ⟨htop, h4, h6⟩ := (hasEmptyRoutes_false_iff result).1 hin
      rw [hasEmptyRoutes_false_iff]
      split at hr₁
      · refine ⟨?_, addFamily020_sub_nonempty h4 hr₁, ?_⟩
        · rw [addFamily020_frame hr₁ "routes" (by decide)]
          exact htop
        · rw [subRoutesEmpty_congr (addFamily020_frame hr₁ "ip6" (by decide)), h6]
      · refine ⟨?_, ?_, addFamily020_sub_nonempty h6 hr₁⟩
        · rw [addFamily020_frame hr₁ "routes" (by decide)]
          exact htop
        · rw [subRoutesEmpty_congr (addFamily020_frame hr₁ "ip4" (by decide)), h4]

/-! ## Wrong types on the paths that read them -/

theorem deleteRoutesLoop_bad (dstGW : String) (l : List GoVal) (acc : Slice)
    (h : ∃ x ∈ l, badEntry x = true) : ∃ e, deleteRoutesLoop dstGW l acc = .error e := by
  induction l generalizing acc with
  | nil =>
    obtain ⟨x, hx, -⟩ := h
    exact absurd hx (List.not_mem_nil _)
  | cons r rest ih =>
    have hrest : badEntry r = false → ∃ x ∈ rest, badEntry x = true := by
      intro hr
      obtain ⟨x, hx, hbad⟩ := h
      rcases List.mem_cons.1 hx with rfl | hx
      · rw [hr] at hbad
        exact absurd hbad (by simp)
      · exact ⟨x, hx, hbad⟩
    unfold deleteRoutesLoop
    cases r with
    | map route =>
      simp only [GoVal.asMap]
      cases hd : mapGet route "dst" with
      | none => exact ih acc (hrest (by simp [badEntry, hd]))
      | some d =>
        cases d with
        | string s =>
          simp only [GoVal.asString]
          split
          · exact ih _ (hrest (by simp [badEntry, hd]))
          · exact ih _ (hrest (by simp [badEntry, hd]))
        | _ => exact ⟨.wrongDstFormat, rfl⟩
    | _ => exact ⟨.wrongRouteFormat, rfl⟩

theorem deleteDefaultGWResultRoutes_bad (dstGW : String) (rs : List GoVal)
    (h : rs.any badEntry = true) : ∃ e, deleteDefaultGWResultRoutes (some rs) dstGW = .error e := by
  obtain ⟨x, hx, hbad⟩ := List.any_eq_true.1 h
  exact deleteRoutesLoop_bad dstGW rs none ⟨x, hx, hbad⟩

theorem wrongRoutes_cases {result : GoMap} (h : wrongRoutes result = true) :
    ∃ v, mapGet result "routes" = some v ∧ v.asSlice = none := by
  unfold wrongRoutes at h
  split at h
  · rename_i v hv
    exact ⟨v, hv, by simpa using h⟩
  · exact absurd h (by simp)

theorem badRoutes_cases {result : GoMap} (h : badRoutes result = true) :
    ∃ rs, mapGet result "routes" = some (.slice rs) ∧ rs.any badEntry = true := by
  unfold badRoutes at h
  split at h
  · rename_i rs hrs
    exact ⟨rs, hrs, h⟩
  · exact absurd h (by simp)

theorem addUnified_wrongRoutes {result : GoMap} (h : wrongRoutes result = true) (gw : List IP) :
    addUnified result gw = .error .wrongRoutesFormat := by
  obtain ⟨v, hv, hs⟩ := wrongRoutes_cases h
  simp [addUnified, hv, hs]

theorem deleteUnified_wrongRoutes {result : GoMap} (h : wrongRoutes result = true)
    (ipv4 ipv6 : Bool) : deleteUnified result ipv4 ipv6 = .error .wrongRoutesFormat := by
  obtain ⟨v, hv, hs⟩ := wrongRoutes_cases h
  simp [deleteUnified, hv, hs]

theorem deleteUnified_badRoutes {result : GoMap} (h : badRoutes result = true)
    {ipv4 ipv6 : Bool} (hf : ipv4 = true ∨ ipv6 = true) :
    ∃ e, deleteUnified result ipv4 ipv6 = .error e := by
  obtain ⟨rs, hrs, hbad⟩ := badRoutes_cases h
  unfold deleteUnified
  rw [hrs]
  simp only [GoVal.asSlice]
  cases ipv4 with
  | true =>
    obtain ⟨e, he⟩ := deleteDefaultGWResultRoutes_bad "0.0.0.0/0" rs hbad
    exact ⟨e, by simp [he]⟩
  | false =>
    have hb : ipv6 = true := by simpa using hf
    subst hb
    obtain ⟨e, he⟩ := deleteDefaultGWResultRoutes_bad "::0/0" rs hbad
    exact ⟨e, by simp [he]⟩

theorem wrongSub_congr {a b : GoMap} {key : String} (h : mapGet a key = mapGet b key) :
    wrongSub a key = wrongSub b key := by
  unfold wrongSub
  rw [h]

theorem badSub_congr {a b : GoMap} {key : String} (h : mapGet a key = mapGet b key) :
    badSub a key = badSub b key := by
  unfold badSub
  rw [h]

theorem wrongSub_cases {result : GoMap} {key : String} (h : wrongSub result key = true) :
    (∃ v, mapGet result key = some v ∧ v.asMap = none) ∨
      ∃ ipN v, mapGet result key = some (.map ipN) ∧ mapGet ipN "routes" = some v ∧
        v.asSlice = none := by
  unfold wrongSub at h
  split at h
  · exact absurd h (by simp)
  · rename_i ipN hk
    split at h
    · rename_i v hv
      exact Or.inr ⟨ipN, v, hk, hv, by simpa using h⟩
    · exact absurd h (by simp)
  · rename_i v hnm hk
    refine Or.inl ⟨v, hk, ?_⟩
    cases v with
    | map m => exact absurd rfl (hnm m)
    | _ => rfl

theorem badSub_cases {result : GoMap} {key : String} (h : badSub result key = true) :
    ∃ ipN rs, mapGet result key = some (.map ipN) ∧ mapGet ipN "routes" = some (.slice rs) ∧
      rs.any badEntry = true := by
  unfold badSub at h
  split at h
  · rename_i ipN hk
    split at h
    · rename_i rs hrs
      exact ⟨ipN, rs, hk, hrs, h⟩
    · exact absurd h (by simp)
  · exact absurd h (by simp)

theorem deleteFamily020_wrong {result : GoMap} {key : String}
    (h : wrongSub result key = true ∨ badSub result key = true) (dstGW : String)
    (eObj eRoutes : Err) : ∃ e, deleteFamily020 result key dstGW eObj eRoutes = .error e := by
  unfold deleteFamily020
  rcases h with h | h
  · rcases wrongSub_cases h with ⟨v, hv, hm⟩ | ⟨ipN, v, hk, hv, hs⟩
    · exact ⟨eObj, by simp [hv, hm]⟩
    · exact ⟨eRoutes, by simp [hk, GoVal.asMap, hv, hs]⟩
  · obtain ⟨ipN, rs, hk, hrs, hbad⟩ := badSub_cases h
    obtain ⟨e, he⟩ := deleteDefaultGWResultRoutes_bad dstGW rs hbad
    exact ⟨e, by simp [hk, GoVal.asMap, hrs, GoVal.asSlice, he]⟩

theorem deleteDefaultGWResult020_wrong4 {result : GoMap}
    (h : wrongSub result "ip4" = true ∨ badSub result "ip4" = true) (ipv6 : Bool) :
    ∃ e, deleteDefaultGWResult020 result true ipv6 = .error e := by
  obtain ⟨e, he⟩ := deleteFamily020_wrong h "0.0.0.0/0" .wrongIp4Format .wrongIp4RoutesFormat
  exact ⟨e, by simp [deleteDefaultGWResult020, he]⟩

theorem deleteDefaultGWResult020_wrong6 {result : GoMap}
    (h : wrongSub result "ip6" = true ∨ badSub result "ip6" = true) (ipv4 : Bool) :
    ∃ e, deleteDefaultGWResult020 result ipv4 true = .error e := by
  unfold deleteDefaultGWResult020
  split
  · rename_i e _
    exact ⟨e, rfl⟩
  · rename_i r₁ hr₁
    have hget : mapGet r₁ "ip6" = mapGet result "ip6" := by
      split at hr₁
      · exact deleteFamily020_frame hr₁ "ip6" (by decide)
      · cases hr₁
        rfl
    have h' : wrongSub r₁ "ip6" = true ∨ badSub r₁ "ip6" = true := by
      rw [wrongSub_congr hget, badSub_congr hget]
      exact h
    simpa using deleteFamily020_wrong h' "::0/0" .wrongIp6Format .wrongIp6RoutesFormat

theorem addFamily020_wrong {result : GoMap} {key : String} (h : wrongSub result key = true)
    (dst : String) (g : IP) (eObj eRoutes : Err) :
    ∃ e, addFamily020 result key dst g eObj eRoutes = .error e := by
  unfold addFamily020
  rcases wrongSub_cases h with ⟨v, hv, hm⟩ | ⟨ipN, v, hk, hv, hs⟩
  · exact ⟨eObj, by simp [hv, hm]⟩
  · exact ⟨eRoutes, by simp [hk, GoVal.asMap, hv, hs]⟩

theorem addDefaultGWResult020_wrong4 (gw : List IP) {result : GoMap}
    (h : wrongSub result "ip4" = true) (hg : hasV4 gw = true) :
    ∃ e, addDefaultGWResult020 result gw = .error e := by
  induction gw generalizing result with
  | nil => simp [hasV4] at hg
  | cons g rest ih =>
    unfold addDefaultGWResult020
    by_cases h4 : (To4 g).isSome = true
    · obtain ⟨e, he⟩ := addFamily020_wrong h "0.0.0.0/0" g .wrongIp4Format .wrongIp4RoutesFormat
      exact ⟨e, by simp [h4, he]⟩
    · have hrest : hasV4 rest = true := by
        simp only [hasV4, List.any_cons, Bool.or_eq_true] at hg
        rcases hg with hg | hg
        · exact absurd hg h4
        · exact hg
      simp only [h4, Bool.false_eq_true, if_false]
      split
      · rename_i e _
        exact ⟨e, rfl⟩
      · rename_i r₁ hr₁
        apply ih _ hrest
        rw [wrongSub_congr (addFamily020_frame hr₁ "ip4" (by decide))]
        exact h

theorem addDefaultGWResult020_wrong6 (gw : List IP) {result : GoMap}
    (h : wrongSub result "ip6" = true) (hg : hasV6 gw = true) :
    ∃ e, addDefaultGWResult020 result gw = .error e := by
  induction gw generalizing result with
  | nil => simp [hasV6] at hg
  | cons g rest ih =>
    unfold addDefaultGWResult020
    by_cases h4 : (To4 g).isSome = true
    · have hrest : hasV6 rest = true := by
        simp only [hasV6, List.any_cons, Bool.or_eq_true] at hg
        rcases hg with hg | hg
        · rw [Option.isNone_iff_eq_none] at hg
          rw [hg] at h4
          exact absurd h4 (by simp)
        · exact hg
      simp only [h4, if_true]
      split
      · rename_i e _
        exact ⟨e, rfl⟩
      · rename_i r₁ hr₁
        apply ih _ hrest
        rw [wrongSub_congr (addFamily020_frame hr₁ "ip6" (by decide))]
        exact h
    · obtain ⟨e, he⟩ := addFamily020_wrong h "::/0" g .wrongIp6Format .wrongIp6RoutesFormat
      exact ⟨e, by simp [h4, he]⟩

theorem addDefaultGWCacheBytes_error {cacheFile : Bytes} {result : GoMap} {gw : List IP}
    (hres : docResult cacheFile = some result)
    (h : ∃ e, addDefaultGWResult result gw = .error e) :
    ∃ e, addDefaultGWCacheBytes cacheFile gw = .error e := by
  obtain ⟨kvs, rfl, hget⟩ := docResult_text hres
  obtain ⟨e, he⟩ := h
  exact ⟨e, by simp [addDefaultGWCacheBytes, jsonUnmarshal, hget, GoVal.asMap, he]⟩

theorem deleteDefaultGWCacheBytes_error {cacheFile : Bytes} {result : GoMap} {ipv4 ipv6 : Bool}
    (hres : docResult cacheFile = some result)
    (h : ∃ e, deleteDefaultGWResult result ipv4 ipv6 = .error e) :
    ∃ e, deleteDefaultGWCacheBytes cacheFile ipv4 ipv6 = .error e := by
  obtain ⟨kvs, rfl, hget⟩ := docResult_text hres
  obtain ⟨e, he⟩ := h
  exact ⟨e, by simp [deleteDefaultGWCacheBytes, jsonUnmarshal, hget, GoVal.asMap, he]⟩

/-! ## Numbers through the decoder and the encoder -/

theorem log2From_eq_log : ∀ (fuel n : Nat), n ≤ fuel → log2From fuel n = Nat.log 2 n
  | 0, n, h => by
    have : n = 0 := by omega
    subst this
    simp [log2From]
  | fuel + 1, n, h => by
    unfold log2From
    split
    · rename_i hlt
      exact (Nat.log_of_lt hlt).symm
    · rename_i hge
      have h2 : 2 ≤ n := by omega
      rw [Nat.log_of_one_lt_of_le (by decide) h2, log2From_eq_log fuel (n / 2) (by omega)]

theorem binLog_eq_log (n : Nat) : binLog n = Nat.log 2 n :=
  log2From_eq_log n n (Nat.le_refl n)

theorem log_mul_pow_two (m k : Nat) (hm : m ≠ 0) : Nat.log 2 (m * 2 ^ k) = Nat.log 2 m + k := by
  induction k with
  | zero => simp
  | succ k ih =>
    have hne : m * 2 ^ k ≠ 0 := Nat.mul_ne_zero hm (by positivity)
    rw [pow_succ, ← Nat.mul_assoc, Nat.log_mul_base (by decide) hne, ih]
    omega

theorem roundHalfEven_exact (m d : Nat) (hd : 0 < d) : roundHalfEven (m * d) d = m := by
  unfold roundHalfEven
  rw [Nat.mul_mod_left, Nat.mul_div_cancel _ hd]
  simp [hd]

theorem roundHalfEven_bounds (n d : Nat) :
    n / d ≤ roundHalfEven n d ∧ roundHalfEven n d ≤ n / d + 1 := by
  unfold roundHalfEven
  split
  · omega
  · split <;> omega

theorem floor_lt_two_pow_53 (q : Nat) : q / 2 ^ (Nat.log 2 q - 52) < 2 ^ 53 := by
  rw [Nat.div_lt_iff_lt_mul (by positivity), ← pow_add]
  exact lt_of_lt_of_le (Nat.lt_pow_succ_log_self (by decide) q)
    (Nat.pow_le_pow_right (by decide) (by omega))

theorem two_pow_52_le_floor (q : Nat) (h : Nat.log 2 q - 52 ≠ 0) :
    2 ^ 52 ≤ q / 2 ^ (Nat.log 2 q - 52) := by
  have hq : q ≠ 0 := by
    rintro rfl
    simp at h
  rw [Nat.le_div_iff_mul_le (by positivity), ← pow_add]
  have : 52 + (Nat.log 2 q - 52) = Nat.log 2 q := by omega
  rw [this]
  exact Nat.pow_log_le_self 2 hq

theorem mantissa_bounds (t : NumLit) :
    mantissa t ≤ 2 ^ 53 ∧ (binExp t ≠ 0 → 2 ^ 52 ≤ mantissa t) := by
  have hb := roundHalfEven_bounds (t.digits * 2 ^ 1074) (10 ^ t.scale * 2 ^ binExp t)
  rw [← Nat.div_div_eq_div_mul] at hb
  unfold mantissa
  unfold binExp at hb ⊢
  rw [binLog_eq_log] at hb ⊢
  constructor
  · have := floor_lt_two_pow_53 (t.digits * 2 ^ 1074 / 10 ^ t.scale)
    omega
  · intro he
    have := two_pow_52_le_floor (t.digits * 2 ^ 1074 / 10 ^ t.scale) he
    omega

theorem parseFloat_valid {t : NumLit} {f : Float64} (h : parseFloat t = some f) : f.Valid := by
  have hb := mantissa_bounds t
  unfold parseFloat at h
  split at h
  · split at h
    · exact absurd h (by simp)
    · simp only [Option.some.injEq] at h
      subst h
      refine ⟨?_, ?_, Or.inl (Nat.le_refl _)⟩
      · exact Nat.pow_lt_pow_right (by decide) (by decide)
      · show binExp t + 1 ≤ 2045
        omega
  · split at h
    · exact absurd h (by simp)
    · simp only [Option.some.injEq] at h
      subst h
      refine ⟨?_, ?_, ?_⟩
      · show mantissa t < 2 ^ 53
        omega
      · show binExp t ≤ 2045
        omega
      · show 2 ^ 52 ≤ mantissa t ∨ binExp t = 0
        by_cases he : binExp t = 0
        · exact Or.inr he
        · exact Or.inl (hb.2 he)

theorem parseFloat_exact_token {t : NumLit} {f : Float64} (hv : f.Valid)
    (hval : t.digits * 2 ^ 1074 = f.mant * 2 ^ f.exp * 10 ^ t.scale) (hneg : t.neg = f.neg) :
    parseFloat t = some f := by
  obtain ⟨neg, mant, exp⟩ := f
  obtain ⟨h53, hexp, htop⟩ := hv
  simp only at h53 hexp htop hval hneg
  have hq : t.digits * 2 ^ 1074 / 10 ^ t.scale = mant * 2 ^ exp := by
    rw [hval, Nat.mul_div_cancel _ (by positivity)]
  have he : binExp t = exp := by
    unfold binExp
    rw [binLog_eq_log, hq]
    rcases htop with htop | htop
    · have hm : mant ≠ 0 := by
        have : 0 < 2 ^ 52 := by positivity
        omega
      rw [log_mul_pow_two mant exp hm]
      have : Nat.log 2 mant = 52 := by
        rw [Nat.log_eq_iff (Or.inl (by decide))]
        exact ⟨htop, h53⟩
      omega
    · subst htop
      rw [pow_zero, Nat.mul_one]
      have : Nat.log 2 mant < 53 := by
        by_cases hm : mant = 0
        · subst hm
          simp
        · exact Nat.log_lt_of_lt_pow hm h53
      omega
  have hm : mantissa t = mant := by
    unfold mantissa
    rw [he, hval, Nat.mul_assoc, Nat.mul_comm (2 ^ exp) (10 ^ t.scale)]
    exact roundHalfEven_exact mant _ (by positivity)
  unfold parseFloat
  rw [hm, he, hneg]
  have h1 : ¬ mant = 2 ^ 53 := by omega
  have h2 : ¬ exp > 2045 := by omega
  simp only [h1, h2, if_false]

theorem parseFloat_exact (neg : Bool) (digits scale : Nat) {f : Float64} (hv : f.Valid)
    (hval : digits * 2 ^ 1074 = f.mant * 2 ^ f.exp * 10 ^ scale) (hneg : neg = f.neg) :
    parseFloat (NumLit.mk neg digits scale) = some f :=
  @parseFloat_exact_token (NumLit.mk neg digits scale) f hv hval hneg

theorem floatOfCode_bits (neg : Bool) (frac e : Nat) (hfrac : frac < 2 ^ 52) (he : e < 2047) :
    floatOfCode (2 ^ 53 + ((if neg then 2 ^ 63 else 0) + (e * 2 ^ 52 + frac)))
      = some (if e = 0 then Float64.mk neg frac 0 else Float64.mk neg (2 ^ 52 + frac) (e - 1)) := by
  have e52 : (2 : Nat) ^ 52 = 4503599627370496 := by norm_num
  have e53 : (2 : Nat) ^ 53 = 9007199254740992 := by norm_num
  have e63 : (2 : Nat) ^ 63 = 9223372036854775808 := by norm_num
  have e64 : (2 : Nat) ^ 64 = 18446744073709551616 := by norm_num
  unfold floatOfCode
  simp only [e52, e53, e63, e64] at hfrac ⊢
  cases neg
  · simp only [Bool.false_eq_true, if_false]
    have a1 : ¬ (9007199254740992 + (0 + (e * 4503599627370496 + frac)) < 9007199254740992) := by
      omega
    have a2 : ¬ (9007199254740992 + (0 + (e * 4503599627370496 + frac)) - 9007199254740992
        ≥ 18446744073709551616) := by omega
    have a3 : (9007199254740992 + (0 + (e * 4503599627370496 + frac)) - 9007199254740992)
        / 4503599627370496 % 2048 = e := by omega
    have a5 : ¬ ((9007199254740992 + (0 + (e * 4503599627370496 + frac)) - 9007199254740992)
        / 9223372036854775808 = 1) := by omega
    have a6 : (9007199254740992 + (0 + (e * 4503599627370496 + frac)) - 9007199254740992)
        % 4503599627370496 = frac := by omega
    have a7 : ¬ e = 2047 := by omega
    rw [if_neg a1, if_neg a2, a3, if_neg a7, a6, decide_eq_false a5]
    split <;> rfl
  · simp only [if_true]
    have a1 : ¬ (9007199254740992 + (9223372036854775808 + (e * 4503599627370496 + frac))
        < 9007199254740992) := by omega
    have a2 : ¬ (9007199254740992 + (9223372036854775808 + (e * 4503599627370496 + frac))
        - 9007199254740992 ≥ 18446744073709551616) := by omega
    have a3 : (9007199254740992 + (9223372036854775808 + (e * 4503599627370496 + frac))
        - 9007199254740992) / 4503599627370496 % 2048 = e := by omega
    have a5 : (9007199254740992 + (9223372036854775808 + (e * 4503599627370496 + frac))
        - 9007199254740992) / 9223372036854775808 = 1 := by omega
    have a6 : (9007199254740992 + (9223372036854775808 + (e * 4503599627370496 + frac))
        - 9007199254740992) % 4503599627370496 = frac := by omega
    have a7 : ¬ e = 2047 := by omega
    rw [if_neg a1, if_neg a2, a3, if_neg a7, a6, decide_eq_true a5]
    split <;> rfl

theorem floatOfCode_floatCode {f : Float64} (hv : f.Valid) : floatOfCode (floatCode f) = some f := by
  unfold floatCode
  split
  · rename_i h
    obtain ⟨hneg, hmod, hlt⟩ := h
    unfold floatOfCode
    rw [if_pos hlt]
    apply parseFloat_exact _ _ _ hv
    · rw [pow_zero, Nat.mul_one, Nat.div_mul_cancel (Nat.dvd_of_mod_eq_zero hmod)]
    · exact hneg.symm
  · obtain ⟨neg, mant, exp⟩ := f
    obtain ⟨h53, hexp, htop⟩ := hv
    simp only at h53 hexp htop
    have e52 : (2 : Nat) ^ 52 = 4503599627370496 := by norm_num
    have e53 : (2 : Nat) ^ 53 = 9007199254740992 := by norm_num
    unfold floatBits
    show floatOfCode (2 ^ 53 + ((if neg = true then 2 ^ 63 else 0)
      + (if mant < 2 ^ 52 then mant else (exp + 1) * 2 ^ 52 + (mant - 2 ^ 52)))) = _
    by_cases hsub : mant < 2 ^ 52
    · have hexp0 : exp = 0 := by omega
      subst hexp0
      have := floatOfCode_bits neg mant 0 hsub (by decide)
      rw [Nat.zero_mul, Nat.zero_add] at this
      rw [if_pos hsub, this]
      rfl
    · have := floatOfCode_bits neg (mant - 2 ^ 52) (exp + 1) (by omega) (by omega)
      rw [if_neg hsub, this, if_neg (by omega)]
      have : 2 ^ 52 + (mant - 2 ^ 52) = mant := by omega
      rw [this]
      rfl

theorem shortestFrom_readsBack (f : Float64) (fuel : Nat) : ∀ (n : Nat) (t : NumLit),
    shortestFrom f fuel n = some t → readsBack f t = true := by
  induction fuel with
  | zero =>
    intro n t h
    exact absurd h (fun e => Option.noConfusion e)
  | succ fuel ih =>
    intro n t h
    change ((tokensNear f n).find? (readsBack f)).orElse
      (fun _ => shortestFrom f fuel (n + 1)) = some t at h
    cases hfind : (tokensNear f n).find? (readsBack f) with
    | some t' =>
      rw [hfind] at h
      have ht : t' = t := Option.some.inj h
      subst ht
      exact List.find?_some hfind
    | none =>
      rw [hfind] at h
      exact ih (n + 1) t h

theorem parseFloat_of_readsBack {f : Float64} {t : NumLit} (h : readsBack f t = true) :
    parseFloat t = some f := by
  unfold readsBack at h
  cases hp : parseFloat t with
  | none => simp [hp] at h
  | some g =>
    obtain ⟨gn, gm, ge⟩ := g
    obtain ⟨fn, fm, fe⟩ := f
    simp only [hp, Bool.and_eq_true, beq_iff_eq] at h
    obtain ⟨⟨h1, h2⟩, h3⟩ := h
    subst h1 h2 h3
    rfl

theorem parseFloat_shortestToken {f : Float64} (hv : f.Valid) :
    parseFloat (shortestToken f) = some f := by
  unfold shortestToken
  split
  · rename_i hm
    apply parseFloat_exact _ _ _ hv
    · rw [hm, Nat.zero_mul, Nat.zero_mul, Nat.zero_mul]
    · rfl
  · cases hs : shortestFrom f 17 1 with
    | some t => exact parseFloat_of_readsBack (shortestFrom_readsBack f 17 1 t hs)
    | none =>
      apply parseFloat_exact _ _ _ hv
      · have key : ∀ k : Nat, 5 ^ k * 2 ^ k = 10 ^ k := fun k => by rw [← Nat.mul_pow]
        rw [Nat.mul_assoc, key]
      · rfl

theorem numsValidMembers_iff (kvs : List (String × Json)) :
    NumsValidMembers kvs ↔ ∀ kv ∈ kvs, NumsValid kv.2 := by
  induction kvs with
  | nil => simp [NumsValidMembers]
  | cons kv t ih =>
    obtain ⟨k₀, j₀⟩ := kv
    simp [NumsValidMembers, ih]

mutual
/-- What the decoder reads has valid numbers. -/
theorem lexNumbers_valid : ∀ (t : JsonText) (j : Json), lexNumbers t = some j → NumsValid j
  | .null, j, h => by
    simp only [lexNumbers, Option.some.injEq] at h
    subst h
    trivial
  | .bool _, j, h => by
    simp only [lexNumbers, Option.some.injEq] at h
    subst h
    trivial
  | .str _, j, h => by
    simp only [lexNumbers, Option.some.injEq] at h
    subst h
    trivial
  | .num token, j, h => by
    simp only [lexNumbers, Option.map_eq_some'] at h
    obtain ⟨f, hf, rfl⟩ := h
    exact ⟨f, parseFloat_valid hf, rfl⟩
  | .arr elems, j, h => by
    simp only [lexNumbers, Option.map_eq_some'] at h
    obtain ⟨js, hjs, rfl⟩ := h
    exact lexList_valid elems js hjs
  | .obj members, j, h => by
    simp only [lexNumbers, Option.map_eq_some'] at h
    obtain ⟨js, hjs, rfl⟩ := h
    exact lexMembers_valid members js hjs
theorem lexList_valid : ∀ (ts : List JsonText) (js : List Json),
    lexList ts = some js → NumsValidList js
  | [], js, h => by
    simp only [lexList, Option.some.injEq] at h
    subst h
    trivial
  | t :: ts, js, h => by
    simp only [lexList] at h
    cases ht : lexNumbers t with
    | none => simp [ht] at h
    | some j =>
      cases hts : lexList ts with
      | none => simp [ht, hts] at h
      | some js' =>
        simp only [ht, hts, Option.some.injEq] at h
        subst h
        exact ⟨lexNumbers_valid t j ht, lexList_valid ts js' hts⟩
theorem lexMembers_valid : ∀ (ms : List (String × JsonText)) (js : List (String × Json)),
    lexMembers ms = some js → NumsValidMembers js
  | [], js, h => by
    simp only [lexMembers, Option.some.injEq] at h
    subst h
    trivial
  | (k, t) :: ms, js, h => by
    simp only [lexMembers] at h
    cases ht : lexNumbers t with
    | none => simp [ht] at h
    | some j =>
      cases hms : lexMembers ms with
      | none => simp [ht, hms] at h
      | some js' =>
        simp only [ht, hms, Option.some.injEq] at h
        subst h
        exact ⟨lexNumbers_valid t j ht, lexMembers_valid ms js' hms⟩
end

mutual
/-- A tree with valid numbers is written, and the text reads as the tree. -/
theorem lex_print : ∀ (j : Json), NumsValid j →
    ∃ t, printNumbers j = some t ∧ lexNumbers t = some j
  | .null, _ => ⟨.null, rfl, rfl⟩
  | .bool b, _ => ⟨.bool b, rfl, rfl⟩
  | .str s, _ => ⟨.str s, rfl, rfl⟩
  | .num c, h => by
    obtain ⟨f, hv, rfl⟩ := h
    refine ⟨.num (shortestToken f), ?_, ?_⟩
    · simp only [printNumbers, floatOfCode_floatCode hv, Option.map_some']
    · simp only [lexNumbers, parseFloat_shortestToken hv, Option.map_some']
  | .arr xs, h => by
    obtain ⟨ts, h1, h2⟩ := lex_printList xs h
    exact ⟨.arr ts, by simp only [printNumbers, h1, Option.map_some'],
      by simp only [lexNumbers, h2, Option.map_some']⟩
  | .obj kvs, h => by
    obtain ⟨ts, h1, h2⟩ := lex_printMembers kvs h
    exact ⟨.obj ts, by simp only [printNumbers, h1, Option.map_some'],
      by simp only [lexNumbers, h2, Option.map_some']⟩
theorem lex_printList : ∀ (xs : List Json), NumsValidList xs →
    ∃ ts, printList xs = some ts ∧ lexList ts = some xs
  | [], _ => ⟨[], rfl, rfl⟩
  | x :: xs, h => by
    obtain ⟨t, h1, h2⟩ := lex_print x h.1
    obtain ⟨ts, h3, h4⟩ := lex_printList xs h.2
    exact ⟨t :: ts, by simp only [printList, h1, h3], by simp only [lexList, h2, h4]⟩
theorem lex_printMembers : ∀ (kvs : List (String × Json)), NumsValidMembers kvs →
    ∃ ts, printMembers kvs = some ts ∧ lexMembers ts = some kvs
  | [], _ => ⟨[], rfl, rfl⟩
  | (k, x) :: kvs, h => by
    obtain ⟨t, h1, h2⟩ := lex_print x h.1
    obtain ⟨ts, h3, h4⟩ := lex_printMembers kvs h.2
    exact ⟨(k, t) :: ts, by simp only [printMembers, h1, h3], by simp only [lexMembers, h2, h4]⟩
end

theorem mem_decodeMembers (kvs : List (String × Json)) (acc : GoMap) (x : String × GoVal)
    (h : x ∈ decodeMembers kvs acc) : x ∈ acc ∨ ∃ kv ∈ kvs, x = (kv.1, decode kv.2) := by
  induction kvs generalizing acc with
  | nil => exact Or.inl h
  | cons kv t ih =>
    obtain ⟨k₀, j₀⟩ := kv
    rcases ih _ h with h1 | ⟨kv, hkv, rfl⟩
    · rcases mem_mapSet h1 with rfl | h2
      · exact Or.inr ⟨(k₀, j₀), List.mem_cons_self _ _, rfl⟩
      · exact Or.inl h2
    · exact Or.inr ⟨kv, List.mem_cons_of_mem _ hkv, rfl⟩

mutual
/-- Decoding and marshalling keeps the numbers valid. -/
theorem valid_marshal_decode : ∀ (j : Json), NumsValid j → NumsValid (marshal (decode j))
  | .null, _ => trivial
  | .bool _, _ => trivial
  | .str _, _ => trivial
  | .num _, h => h
  | .arr xs, h => by
    simp only [decode, marshal, NumsValid]
    exact valid_marshal_decodeList xs h
  | .obj kvs, h => by
    simp only [decode, marshal, NumsValid]
    rw [numsValidMembers_iff]
    intro x hx
    obtain ⟨k, j'⟩ := x
    rw [mem_sortKeys, mem_marshalMembers] at hx
    obtain ⟨v, hv, rfl⟩ := hx
    rcases mem_decodeMembers kvs [] _ hv with h0 | ⟨kv, hkv, he⟩
    · exact absurd h0 (List.not_mem_nil _)
    · have := valid_marshal_decodeValues kvs h kv hkv
      rw [(Prod.mk.inj he).2]
      exact this
theorem valid_marshal_decodeList : ∀ (xs : List Json), NumsValidList xs →
    NumsValidList (marshalList (decodeList xs))
  | [], _ => trivial
  | x :: xs, h => ⟨valid_marshal_decode x h.1, valid_marshal_decodeList xs h.2⟩
theorem valid_marshal_decodeValues : ∀ (kvs : List (String × Json)), NumsValidMembers kvs →
    ∀ kv ∈ kvs, NumsValid (marshal (decode kv.2))
  | [], _, _, h => absurd h (List.not_mem_nil _)
  | (_, j) :: t, hv, kv, h => by
    rcases List.mem_cons.1 h with rfl | h
    · exact valid_marshal_decode j hv.1
    · exact valid_marshal_decodeValues t hv.2 kv h
end

theorem mem_of_mapGet {m : GoMap} {k : String} {v : GoVal} (h : mapGet m k = some v) :
    (k, v) ∈ m := by
  induction m with
  | nil => exact absurd h (by simp [mapGet])
  | cons kv t ih =>
    obtain ⟨k₀, v₀⟩ := kv
    unfold mapGet at h
    split at h
    · rename_i hk
      simp only [Option.some.injEq] at h
      subst hk h
      exact List.mem_cons_self _ _
    · exact List.mem_cons_of_mem _ (ih h)

theorem mapGet_of_mem_sorted {m : GoMap} (hs : KeysSorted m) {k : String} {v : GoVal}
    (h : (k, v) ∈ m) : mapGet m k = some v := by
  induction m with
  | nil => exact absurd h (List.not_mem_nil _)
  | cons kv t ih =>
    obtain ⟨k₀, v₀⟩ := kv
    have hs' := List.pairwise_cons.1 hs
    unfold mapGet
    rcases List.mem_cons.1 h with e | e
    · obtain ⟨rfl, rfl⟩ := Prod.mk.inj e
      simp
    · have hlt := hs'.1 _ e
      have hne : k₀ ≠ k := keyLt_ne hlt
      rw [if_neg hne]
      exact ih hs'.2 e

theorem mem_printMembers : ∀ (ms : List (String × Json)) (ts : List (String × JsonText)),
    printMembers ms = some ts → ∀ k tk, (k, tk) ∈ ts ↔ ∃ j, (k, j) ∈ ms ∧ printNumbers j = some tk
  | [], ts, h, k, tk => by
    simp only [printMembers, Option.some.injEq] at h
    subst h
    simp
  | (k₀, j₀) :: ms, ts, h, k, tk => by
    simp only [printMembers] at h
    cases hj : printNumbers j₀ with
    | none => simp [hj] at h
    | some t =>
      cases hms : printMembers ms with
      | none => simp [hj, hms] at h
      | some ts' =>
        simp only [hj, hms, Option.some.injEq] at h
        subst h
        have ih := mem_printMembers ms ts' hms k tk
        simp only [List.mem_cons, Prod.mk.injEq, ih]
        constructor
        · rintro (⟨rfl, rfl⟩ | ⟨j, hjm, hjp⟩)
          · exact ⟨j₀, Or.inl ⟨rfl, rfl⟩, hj⟩
          · exact ⟨j, Or.inr hjm, hjp⟩
        · rintro ⟨j, (⟨rfl, rfl⟩ | hjm), hjp⟩
          · rw [hj] at hjp
            exact Or.inl ⟨rfl, (Option.some.inj hjp).symm⟩
          · exact Or.inr ⟨j, hjm, hjp⟩

/-! ## The patched text -/

theorem siblings_decode_alike {cacheFile out : Bytes} {gw : List IP} {ipv4 ipv6 : Bool}
    (h : addDefaultGWCacheBytes cacheFile gw = .ok out ∨
      deleteDefaultGWCacheBytes cacheFile ipv4 ipv6 = .ok out) :
    (∀ k, k ∈ topKeys out ↔ k ∈ topKeys cacheFile) ∧
    ∃ mIn mOut, jsonUnmarshal cacheFile = .ok mIn ∧ out = jsonMarshal mOut ∧
      (∀ k, k ≠ "result" → mapGet mOut k = mapGet mIn k) ∧
      ∃ mBack, jsonUnmarshal out = .ok mBack ∧
        ∀ k, k ≠ "result" → mapGet mBack k = mapGet mIn k := by
  obtain ⟨kvs, r, r', rfl, hres, -, rfl⟩ := patched_shape h
  have hs := keysSorted_decoded kvs
  constructor
  · intro k
    simp only [jsonMarshal, marshal, topKeys]
    rw [keys_sortKeys, marshalMembers_eq_map, List.map_map]
    have : (Prod.fst ∘ fun (kv : String × GoVal) => (kv.1, marshal kv.2)) = Prod.fst := rfl
    rw [this, keys_mapSet]
    have := keys_decodeMembers kvs [] k
    simp only [List.map_nil, List.not_mem_nil, or_false] at this
    rw [this]
    constructor
    · rintro (rfl | hk)
      · exact this.1 (mem_keys_of_mapGet hres)
      · exact hk
    · exact Or.inr
  · refine ⟨_, _, rfl, rfl, fun k hk => mapGet_mapSet_ne _ _ (Ne.symm hk), _,
      jsonUnmarshal_jsonMarshal (keysSorted_mapSet hs _ _), ?_⟩
    intro k hk
    rw [mapGet_map, mapGet_mapSet_ne _ _ (Ne.symm hk)]
    cases hget : mapGet (decodeMembers kvs []) k with
    | none => rfl
    | some v =>
      simp only [Option.map_some', Option.some.injEq]
      exact reread_canon v (canon_of_mapGet (canonMembers_decoded kvs) hget)

theorem lexMembers_keys : ∀ (ms : List (String × JsonText)) (js : List (String × Json)),
    lexMembers ms = some js → js.map Prod.fst = ms.map Prod.fst
  | [], js, h => by
    simp only [lexMembers, Option.some.injEq] at h
    subst h
    rfl
  | (k, t) :: ms, js, h => by
    simp only [lexMembers] at h
    cases ht : lexNumbers t with
    | none => simp [ht] at h
    | some j =>
      cases hms : lexMembers ms with
      | none => simp [ht, hms] at h
      | some js' =>
        simp only [ht, hms, Option.some.injEq] at h
        subst h
        simp only [List.map_cons, lexMembers_keys ms js' hms]

theorem printMembers_keys : ∀ (ms : List (String × Json)) (ts : List (String × JsonText)),
    printMembers ms = some ts → ts.map Prod.fst = ms.map Prod.fst
  | [], ts, h => by
    simp only [printMembers, Option.some.injEq] at h
    subst h
    rfl
  | (k, j) :: ms, ts, h => by
    simp only [printMembers] at h
    cases hj : printNumbers j with
    | none => simp [hj] at h
    | some t =>
      cases hms : printMembers ms with
      | none => simp [hj, hms] at h
      | some ts' =>
        simp only [hj, hms, Option.some.injEq] at h
        subst h
        simp only [List.map_cons, printMembers_keys ms ts' hms]

theorem topKeys_textBytes (t : JsonText) (kvs : List (String × Json))
    (h : textBytes t = .text (.obj kvs)) : topKeys (textBytes t) = textTopKeys t := by
  rw [h]
  unfold textBytes at h
  cases hl : lexNumbers t with
  | none => simp [hl] at h
  | some j =>
    simp only [hl, Bytes.text.injEq] at h
    subst h
    cases t with
    | obj ms =>
      simp only [lexNumbers, Option.map_eq_some'] at hl
      obtain ⟨js, hjs, hj⟩ := hl
      simp only [Json.obj.injEq] at hj
      subst hj
      exact lexMembers_keys ms js hjs
    | null => simp [lexNumbers] at hl
    | bool b => simp [lexNumbers] at hl
    | num token => simp [lexNumbers] at hl
    | str s => simp [lexNumbers] at hl
    | arr elems => simp [lexNumbers] at hl

theorem textBytes_obj {t : JsonText} {kvs : List (String × Json)}
    (h : textBytes t = .text (.obj kvs)) : NumsValidMembers kvs := by
  unfold textBytes at h
  cases hl : lexNumbers t with
  | none => simp [hl] at h
  | some j =>
    simp only [hl, Bytes.text.injEq] at h
    subst h
    exact lexNumbers_valid t _ hl

theorem printed_members {m : GoMap} {t : JsonText}
    (h : bytesText (.ok (jsonMarshal m)) = .ok t) :
    printMembers (sortKeys (marshalMembers m)) = some (textMembers t) := by
  simp only [bytesText, jsonMarshal, marshal, printNumbers] at h
  cases hp : printMembers (sortKeys (marshalMembers m)) with
  | none => simp [hp] at h
  | some ts =>
    simp only [hp, Option.map_some', Except.ok.injEq] at h
    subst h
    rfl

theorem textTopKeys_printed (m : GoMap) (t : JsonText)
    (h : bytesText (.ok (jsonMarshal m)) = .ok t) : textTopKeys t = topKeys (jsonMarshal m) := by
  simp only [jsonMarshal, marshal, topKeys, textTopKeys]
  exact printMembers_keys _ _ (printed_members h)

theorem bytesText_ok {res : Except Err Bytes} {t : JsonText} (h : bytesText res = .ok t) :
    ∃ out, res = .ok out ∧ bytesText (.ok out) = .ok t := by
  cases res with
  | error e => simp [bytesText] at h
  | ok out => exact ⟨out, rfl, h⟩

theorem sibling_reread {kvs : List (String × Json)} (hk : NumsValidMembers kvs)
    {k : String} {v : GoVal} (hget : mapGet (decodeMembers kvs []) k = some v) :
    ∃ tk, printNumbers (marshal v) = some tk ∧ lexNumbers tk = some (marshal v) ∧
      decode (marshal v) = v := by
  have hc : Canon v := canon_of_mapGet (canonMembers_decoded kvs) hget
  rcases mem_decodeMembers kvs [] _ (mem_of_mapGet hget) with h0 | ⟨kv, hkv, he⟩
  · exact absurd h0 (List.not_mem_nil _)
  · have hv : NumsValid (marshal v) := by
      rw [(Prod.mk.inj he).2]
      exact valid_marshal_decodeValues kvs hk kv hkv
    obtain ⟨tk, h1, h2⟩ := lex_print _ hv
    exact ⟨tk, h1, h2, reread_canon v hc⟩

/-! ## The claims -/

/-- C1: on the document of the scenario, add with the gateway 192.168.1.1
succeeds and appends the entry with dst 0.0.0.0/0 and gw 192.168.1.1 after the
existing route; delete with ipv4=true, ipv6=false on that output succeeds and
leaves the existing route alone. -/
theorem C1_concrete_scenario :
    addDefaultGWCacheBytes (scenarioDoc [scenarioRoute]) [[192, 168, 1, 1]]
      = .ok (scenarioDoc [scenarioRoute,
          .obj [("dst", .str "0.0.0.0/0"), ("gw", .str "192.168.1.1")]])
    ∧ deleteDefaultGWCacheBytes (scenarioDoc [scenarioRoute,
          .obj [("dst", .str "0.0.0.0/0"), ("gw", .str "192.168.1.1")]]) true false
      = .ok (scenarioDoc [scenarioRoute]) :=
  ⟨rfl, rfl⟩

/-- C2 (amended): on a cache document whose result is of the unified schema
and whose routes are absent or an array, with, unless the gateway list is
empty, every entry an object with a string dst that is not the default
destination of a family occurring in the list, add followed by delete with
the flags of the families occurring in the list succeeds and the routes of
the final document are those of the original, absent and empty read alike. -/
theorem C2_round_trip (cacheFile : Bytes) (result : GoMap) (rs : List GoVal) (gw : List IP)
    (hres : docResult cacheFile = some result) (hv : isUnified result = true)
    (hrs : resultRoutes result = some rs)
    (hE : gw ≠ [] → ∀ e ∈ rs, isRouteEntry e = true ∧
      (hasV4 gw = true → hasDst "0.0.0.0/0" e = false) ∧
      (hasV6 gw = true → hasDst "::0/0" e = false)) :
    docRoutes cacheFile = some rs ∧
    ∃ d1 d2, addDefaultGWCacheBytes cacheFile gw = .ok d1 ∧
      deleteDefaultGWCacheBytes d1 (hasV4 gw) (hasV6 gw) = .ok d2 ∧
      docRoutes d2 = docRoutes cacheFile := by
  have horig : docRoutes cacheFile = some rs := by
    unfold docRoutes
    rw [hres]
    exact hrs
  refine ⟨horig, ?_⟩
  rw [horig]
  obtain ⟨kvs, rfl, hres0⟩ := docResult_text hres
  have hcanon := canon_of_mapGet (canonMembers_decoded kvs) hres0
  simp only [Canon] at hcanon
  obtain ⟨hsr, hcr⟩ := hcanon
  have hrsC : CanonList rs := canonList_resultRoutes hcr hrs
  have hs0 := keysSorted_decoded kvs
  -- the add
  have hadd : addDefaultGWResult result gw
      = .ok (mapSet result "routes" (.slice (rs ++ gw.map gatewayEntry))) := by
    rw [addDefaultGWResult_unified hv, addUnified_routes hrs]
  have hun0 : jsonUnmarshal (.text (.obj kvs)) = .ok (decodeMembers kvs []) := rfl
  have hd1 := addDefaultGWCacheBytes_ok hun0 hres0 hadd
  -- the document read back
  have hs1 := keysSorted_mapSet hs0 "result"
    (.map (mapSet result "routes" (.slice (rs ++ gw.map gatewayEntry))))
  have hsr1 := keysSorted_mapSet hsr "routes" (.slice (rs ++ gw.map gatewayEntry))
  have hun1 := jsonUnmarshal_jsonMarshal hs1
  have hres1 : mapGet ((mapSet (decodeMembers kvs []) "result"
      (.map (mapSet result "routes" (.slice (rs ++ gw.map gatewayEntry))))).map
        (fun kv => (kv.1, reread kv.2))) "result"
      = some (.map ((mapSet result "routes" (.slice (rs ++ gw.map gatewayEntry))).map
        (fun kv => (kv.1, reread kv.2)))) := by
    rw [mapGet_map, mapGet_mapSet_self, Option.map_some', reread_map_val hsr1]
  have hroutes1 : mapGet ((mapSet result "routes" (.slice (rs ++ gw.map gatewayEntry))).map
      (fun kv => (kv.1, reread kv.2))) "routes"
      = some (.slice (rs ++ gw.map (fun g => reread (gatewayEntry g)))) := by
    rw [mapGet_map, mapGet_mapSet_self, Option.map_some', reread_slice, List.map_append,
      map_reread_canonList hrsC, List.map_map]
    rfl
  have hv1 : isUnified ((mapSet result "routes" (.slice (rs ++ gw.map gatewayEntry))).map
      (fun kv => (kv.1, reread kv.2))) = true := by
    rw [← hv]
    apply isUnified_congr
    rw [mapGet_map, mapGet_mapSet_ne _ _ (by decide : "routes" ≠ "cniVersion")]
    obtain ⟨s, hs, -⟩ := isUnified_cases hv
    rw [hs]
    rfl
  -- the delete
  have hne : (hasV4 gw = true ∨ hasV6 gw = true) → gw ≠ [] := by
    rintro h rfl
    simp [hasV4, hasV6] at h
  obtain ⟨r2, hdel, hr2⟩ := deleteUnified_entries hroutes1 (hasV4 gw) (hasV6 gw) (by
    intro hf e he
    rcases List.mem_append.1 he with he | he
    · exact (hE (hne hf) e he).1
    · obtain ⟨g, -, rfl⟩ := List.mem_map.1 he
      exact (hasDst_reread_gatewayEntry g).1)
  have hfilter : (rs ++ gw.map (fun g => reread (gatewayEntry g))).filter
      (fun r => !(hasV4 gw && hasDst "0.0.0.0/0" r) && !(hasV6 gw && hasDst "::0/0" r)) = rs := by
    rw [List.filter_append]
    have h1 : rs.filter
        (fun r => !(hasV4 gw && hasDst "0.0.0.0/0" r) && !(hasV6 gw && hasDst "::0/0" r))
        = rs := by
      apply List.filter_eq_self.2
      intro e he
      by_cases hg : gw = []
      · subst hg
        simp [hasV4, hasV6]
      · obtain ⟨-, h4, h6⟩ := hE hg e he
        cases hh4 : hasV4 gw <;> cases hh6 : hasV6 gw <;> simp [h4, h6, hh4, hh6]
    have h2 : (gw.map (fun g => reread (gatewayEntry g))).filter
        (fun r => !(hasV4 gw && hasDst "0.0.0.0/0" r) && !(hasV6 gw && hasDst "::0/0" r))
        = [] := by
      apply List.filter_eq_nil_iff.2
      intro e he
      obtain ⟨g, hg, rfl⟩ := List.mem_map.1 he
      obtain ⟨-, h4, h6⟩ := hasDst_reread_gatewayEntry g
      rw [h4, h6]
      cases hg4 : To4 g with
      | none =>
        have : hasV6 gw = true := List.any_eq_true.2 ⟨g, hg, by simp [hg4]⟩
        simp [this]
      | some p =>
        have : hasV4 gw = true := List.any_eq_true.2 ⟨g, hg, by simp [hg4]⟩
        simp [this]
    rw [h1, h2, List.append_nil]
  rw [hfilter] at hr2
  rw [← deleteDefaultGWResult_unified hv1] at hdel
  have hd2 := deleteDefaultGWCacheBytes_ok hun1 hres1 hdel
  refine ⟨_, _, hd1, hd2, ?_⟩
  -- the routes of the final document
  have hsr2 : KeysSorted r2 := by
    rw [deleteDefaultGWResult_unified hv1] at hdel
    exact deleteUnified_sorted (keysSorted_map reread hsr1) hdel
  unfold docRoutes
  rw [docResult_jsonMarshal (keysSorted_mapSet (keysSorted_map reread hs1) "result" (.map r2))
    hsr2 (mapGet_mapSet_self _ _ _)]
  show resultRoutes (r2.map (fun kv => (kv.1, reread kv.2))) = some rs
  unfold resultRoutes
  rw [mapGet_map, hr2]
  cases rs with
  | nil => rfl
  | cons x xs =>
    have hx : reread (.slice (x :: xs)) = .slice (x :: xs) := by
      rw [reread_slice, map_reread_canonList hrsC]
    simp only [routesField, Option.map_some', hx]

/-- C2 as stated fails: a default route that was in the document before the
add is removed by the delete, so the routes differ from the original; an add
on routes that are not an array fails; a delete over an entry whose dst is
not a string fails. -/
theorem C2_counterexample :
    (docRoutes (scenarioDoc [routeJson "0.0.0.0/0" "10.0.0.1"])
        = some [routeVal "0.0.0.0/0" "10.0.0.1"] ∧
      hasV4 [gw4] = true ∧ hasV6 [gw4] = false ∧
      addDefaultGWCacheBytes (scenarioDoc [routeJson "0.0.0.0/0" "10.0.0.1"]) [gw4]
        = .ok (scenarioDoc [routeJson "0.0.0.0/0" "10.0.0.1",
            routeJson "0.0.0.0/0" "192.168.1.1"]) ∧
      deleteDefaultGWCacheBytes (scenarioDoc [routeJson "0.0.0.0/0" "10.0.0.1",
            routeJson "0.0.0.0/0" "192.168.1.1"]) true false
        = .ok (.text (.obj [("result", .obj [("cniVersion", .str "0.3.1")])])) ∧
      docRoutes (.text (.obj [("result", .obj [("cniVersion", .str "0.3.1")])])) = some []) ∧
    addDefaultGWCacheBytes
        (.text (.obj [("result", .obj [("cniVersion", .str "0.3.1"), ("routes", .null)])]))
        [gw4] = .error .wrongRoutesFormat ∧
    (addDefaultGWCacheBytes (scenarioDoc [.obj [("dst", .num 5)]]) [gw4]
        = .ok (scenarioDoc [.obj [("dst", .num 5)], routeJson "0.0.0.0/0" "192.168.1.1"]) ∧
      deleteDefaultGWCacheBytes
        (scenarioDoc [.obj [("dst", .num 5)], routeJson "0.0.0.0/0" "192.168.1.1"]) true false
        = .error .wrongDstFormat) :=
  ⟨⟨rfl, rfl, rfl, rfl, rfl, rfl⟩, rfl, rfl, rfl⟩

/-- C2 (amended) at a document with a sibling field, one non-default route
and the gateways 192.168.1.1 and fe80::1. -/
theorem C2_round_trip_witness :
    docResult (siblingDoc [routeJson "10.0.0.0/24" "10.0.0.1"])
      = some [("cniVersion", .string "0.4.0"),
          ("routes", .slice [routeVal "10.0.0.0/24" "10.0.0.1"])] ∧
    docRoutes (siblingDoc [routeJson "10.0.0.0/24" "10.0.0.1"])
      = some [routeVal "10.0.0.0/24" "10.0.0.1"] ∧
    ∃ d1 d2, addDefaultGWCacheBytes (siblingDoc [routeJson "10.0.0.0/24" "10.0.0.1"]) [gw4, gw6]
        = .ok d1 ∧
      deleteDefaultGWCacheBytes d1 (hasV4 [gw4, gw6]) (hasV6 [gw4, gw6]) = .ok d2 ∧
      docRoutes d2 = docRoutes (siblingDoc [routeJson "10.0.0.0/24" "10.0.0.1"]) :=
  ⟨rfl, C2_round_trip (siblingDoc [routeJson "10.0.0.0/24" "10.0.0.1"])
    [("cniVersion", .string "0.4.0"), ("routes", .slice [routeVal "10.0.0.0/24" "10.0.0.1"])]
    [routeVal "10.0.0.0/24" "10.0.0.1"] [gw4, gw6] rfl rfl rfl
    (fun _ e he => by
      rw [List.mem_singleton.1 he]
      exact ⟨rfl, fun _ => rfl, fun _ => rfl⟩)⟩

/-- C3 fails on the code: the legacy add records an IPv6 gateway under dst
"::/0", the legacy delete compares with "::0/0", so after a re-read the
delete with ipv6=true keeps the entry, on the result and on the document. -/
theorem C3_legacy_ipv6_entry_survives :
    isLegacy [("ip6", .map [])] = true ∧ To4 gw6 = none ∧
    addDefaultGWResult020 [("ip6", .map [])] [gw6]
      = .ok [("ip6", .map [("routes", .slice [routeEntry "::/0" "fe80::1"])])] ∧
    reread (.map [("ip6", .map [("routes", .slice [routeEntry "::/0" "fe80::1"])])])
      = .map [("ip6", .map [("routes", .slice [routeVal "::/0" "fe80::1"])])] ∧
    deleteDefaultGWResult020
        [("ip6", .map [("routes", .slice [routeVal "::/0" "fe80::1"])])] false true
      = .ok [("ip6", .map [("routes", .slice [routeVal "::/0" "fe80::1"])])] ∧
    addDefaultGWCacheBytes (legacyDoc (.arr []) (.arr [])) [gw6]
      = .ok (legacyDoc (.arr []) (.arr [routeJson "::/0" "fe80::1"])) ∧
    deleteDefaultGWCacheBytes (legacyDoc (.arr []) (.arr [routeJson "::/0" "fe80::1"])) false true
      = .ok (legacyDoc (.arr []) (.arr [routeJson "::/0" "fe80::1"])) :=
  ⟨rfl, rfl, rfl, rfl, rfl, rfl, rfl⟩

/-- C4 (amended): on a unified-schema result whose routes are objects with a
string dst, delete with ipv4=true, ipv6=false succeeds, the routes afterwards
are the input entries without those whose dst is "0.0.0.0/0", in their
original order (the key being absent when none is left), and every other
field of the result is unchanged. -/
theorem C4_family_isolation (result : GoMap) (rs : List GoVal)
    (hv : isUnified result = true) (hr : mapGet result "routes" = some (.slice rs))
    (ht : ∀ r ∈ rs, isRouteEntry r = true) :
    ∃ r', deleteDefaultGWResult result true false = .ok r' ∧
      mapGet r' "routes" = routesField (rs.filter (fun r => !hasDst "0.0.0.0/0" r)) ∧
      ∀ k, "routes" ≠ k → mapGet r' k = mapGet result k := by
  rw [deleteDefaultGWResult_unified hv]
  obtain ⟨r', h, hroutes⟩ := deleteUnified_entries hr true false (fun _ => ht)
  refine ⟨r', h, ?_, fun k hk => deleteUnified_frame h k hk⟩
  simpa using hroutes

/-- C4 as stated fails: an array of objects one of which has a dst that is
not a string makes the delete fail. -/
theorem C4_counterexample :
    isUnified [("cniVersion", .string "1.0.0"), ("routes", .slice [.map [("dst", .float64 5)]])]
      = true ∧
    deleteDefaultGWResult
      [("cniVersion", .string "1.0.0"), ("routes", .slice [.map [("dst", .float64 5)]])]
      true false = .error .wrongDstFormat :=
  ⟨rfl, rfl⟩

/-- C4 (amended) at a result with an IPv4 default route, an IPv6 default
route and a non-default route. -/
theorem C4_family_isolation_witness :
    ∃ r', deleteDefaultGWResult
        (unifiedResult [routeVal "0.0.0.0/0" "192.168.1.1", routeVal "::0/0" "fe80::1",
          routeVal "10.0.0.0/24" "10.0.0.1"]) true false = .ok r' ∧
      mapGet r' "routes"
        = some (.slice [routeVal "::0/0" "fe80::1", routeVal "10.0.0.0/24" "10.0.0.1"]) ∧
      ∀ k, "routes" ≠ k → mapGet r' k = mapGet
        (unifiedResult [routeVal "0.0.0.0/0" "192.168.1.1", routeVal "::0/0" "fe80::1",
          routeVal "10.0.0.0/24" "10.0.0.1"]) k :=
  C4_family_isolation
    (unifiedResult [routeVal "0.0.0.0/0" "192.168.1.1", routeVal "::0/0" "fe80::1",
      routeVal "10.0.0.0/24" "10.0.0.1"])
    [routeVal "0.0.0.0/0" "192.168.1.1", routeVal "::0/0" "fe80::1",
      routeVal "10.0.0.0/24" "10.0.0.1"] rfl rfl
    (fun r hr => by
      simp only [List.mem_cons, List.mem_singleton, List.not_mem_nil, or_false] at hr
      rcases hr with rfl | rfl | rfl <;> rfl)

/-- C5: on a unified-schema result whose routes are absent or an array, add
succeeds and the routes afterwards are the existing entries followed by one
entry per gateway, in gateway order, with dst "0.0.0.0/0" when To4 is not nil
and "::0/0" otherwise, and gw the string form of the gateway. -/
theorem C5_unified_add_appends (result : GoMap) (existing : List GoVal) (gw : List IP)
    (hv : isUnified result = true)
    (hr : (mapGet result "routes" = none ∧ existing = []) ∨
      mapGet result "routes" = some (.slice existing)) :
    ∃ r', addDefaultGWResult result gw = .ok r' ∧
      mapGet r' "routes" = some (.slice (existing ++ gw.map
        (fun g => routeEntry (if (To4 g).isNone then "::0/0" else "0.0.0.0/0") (ipString g)))) := by
  rw [addDefaultGWResult_unified hv]
  unfold addUnified
  rcases hr with ⟨hr, rfl⟩ | hr
  · rw [hr]
    refine ⟨_, rfl, ?_⟩
    rw [mapGet_mapSet_self, appendGateways_some]
    rfl
  · rw [hr]
    refine ⟨_, rfl, ?_⟩
    rw [mapGet_mapSet_self, appendGateways_some]
    rfl

/-- C5 at a result with one route and the gateways 192.168.1.1 and fe80::1. -/
theorem C5_unified_add_appends_witness :
    ∃ r', addDefaultGWResult (unifiedResult [routeVal "10.0.0.0/24" "10.0.0.1"]) [gw4, gw6]
        = .ok r' ∧
      mapGet r' "routes" = some (.slice [routeVal "10.0.0.0/24" "10.0.0.1",
        routeEntry "0.0.0.0/0" "192.168.1.1", routeEntry "::0/0" "fe80::1"]) :=
  C5_unified_add_appends (unifiedResult [routeVal "10.0.0.0/24" "10.0.0.1"])
    [routeVal "10.0.0.0/24" "10.0.0.1"] [gw4, gw6] rfl (Or.inr rfl)

/-- C6: a result whose cniVersion is present and is not one of the six
accepted strings is rejected by add, for every gateway list, and by delete,
for every pair of flags. -/
theorem C6_unsupported_version_rejected (result : GoMap) (v : GoVal)
    (hv : mapGet result "cniVersion" = some v)
    (hn : ∀ s, v = .string s →
      s ∉ ["0.1.0", "0.2.0", "0.3.0", "0.3.1", "0.4.0", "1.0.0"]) :
    (∀ gw, ∃ e, addDefaultGWResult result gw = .error e) ∧
    (∀ ipv4 ipv6, ∃ e, deleteDefaultGWResult result ipv4 ipv6 = .error e) := by
  have hs : ∀ s, v = .string s → (¬ (s = "0.1.0" ∨ s = "0.2.0")) ∧
      (s ≠ "0.3.0" ∧ s ≠ "0.3.1" ∧ s ≠ "0.4.0" ∧ s ≠ "1.0.0") := by
    intro s e
    have := hn s e
    simp only [List.mem_cons, List.mem_singleton, not_or, List.mem_nil_iff, or_false] at this
    tauto
  constructor
  · intro gw
    unfold addDefaultGWResult
    rw [hv]
    cases v with
    | string s =>
      obtain ⟨h1, h2⟩ := hs s rfl
      exact ⟨.notSupportedVersion s, by simp [GoVal.asString, h1, h2]⟩
    | _ => exact ⟨.wrongCniVersionFormat, rfl⟩
  · intro ipv4 ipv6
    unfold deleteDefaultGWResult
    rw [hv]
    cases v with
    | string s =>
      obtain ⟨h1, h2⟩ := hs s rfl
      exact ⟨.notSupportedVersion s, by simp [GoVal.asString, h1, h2]⟩
    | _ => exact ⟨.wrongCniVersionFormat, rfl⟩

/-- C6 at a result whose cniVersion is "0.5.0". -/
theorem C6_unsupported_version_rejected_witness :
    (∀ gw, ∃ e, addDefaultGWResult [("cniVersion", .string "0.5.0")] gw = .error e) ∧
    (∀ ipv4 ipv6, ∃ e,
      deleteDefaultGWResult [("cniVersion", .string "0.5.0")] ipv4 ipv6 = .error e) :=
  C6_unsupported_version_rejected [("cniVersion", .string "0.5.0")] (.string "0.5.0") rfl
    (fun s e => by
      cases e
      decide)

/-- C7: when cniVersion is absent, "0.1.0" or "0.2.0", add and delete are the
legacy handlers and leave the top-level routes binding as it was. When
cniVersion is one of the four unified strings, add and delete are the unified
handlers: add succeeds on routes that are absent or an array and stores the
existing entries followed by one entry per gateway; delete succeeds on an
array of entries with a string dst and stores the filtered entries (the key
absent when none is left), and returns the result itself when routes are
absent; a successful add or delete changes no binding other than the
top-level routes, so ip4 and ip6 are as they were. -/
theorem C7_version_dispatch (result : GoMap) (gw : List IP) (ipv4 ipv6 : Bool) :
    (isLegacy result = true →
      addDefaultGWResult result gw = addDefaultGWResult020 result gw ∧
      deleteDefaultGWResult result ipv4 ipv6 = deleteDefaultGWResult020 result ipv4 ipv6 ∧
      (∀ r', addDefaultGWResult result gw = .ok r' →
        mapGet r' "routes" = mapGet result "routes") ∧
      (∀ r', deleteDefaultGWResult result ipv4 ipv6 = .ok r' →
        mapGet r' "routes" = mapGet result "routes")) ∧
    (isUnified result = true →
      addDefaultGWResult result gw = addUnified result gw ∧
      deleteDefaultGWResult result ipv4 ipv6 = deleteUnified result ipv4 ipv6 ∧
      (∀ existing, resultRoutes result = some existing →
        ∃ r', addDefaultGWResult result gw = .ok r' ∧
          mapGet r' "routes" = some (.slice (existing ++ gw.map gatewayEntry)) ∧
          mapGet r' "ip4" = mapGet result "ip4" ∧ mapGet r' "ip6" = mapGet result "ip6") ∧
      (∀ rs, mapGet result "routes" = some (.slice rs) → (∀ r ∈ rs, isRouteEntry r = true) →
        ∃ r', deleteDefaultGWResult result ipv4 ipv6 = .ok r' ∧
          mapGet r' "routes" = routesField (rs.filter
            (fun r => !(ipv4 && hasDst "0.0.0.0/0" r) && !(ipv6 && hasDst "::0/0" r))) ∧
          mapGet r' "ip4" = mapGet result "ip4" ∧ mapGet r' "ip6" = mapGet result "ip6") ∧
      (mapGet result "routes" = none → deleteDefaultGWResult result ipv4 ipv6 = .ok result) ∧
      (∀ r', addDefaultGWResult result gw = .ok r' →
        ∀ k, k ≠ "routes" → mapGet r' k = mapGet result k) ∧
      (∀ r', deleteDefaultGWResult result ipv4 ipv6 = .ok r' →
        ∀ k, k ≠ "routes" → mapGet r' k = mapGet result k)) := by
  constructor
  · intro h
    refine ⟨addDefaultGWResult_legacy h gw, deleteDefaultGWResult_legacy h ipv4 ipv6, ?_, ?_⟩
    · intro r' hr
      rw [addDefaultGWResult_legacy h gw] at hr
      exact addDefaultGWResult020_frame gw hr "routes" (by decide) (by decide)
    · intro r' hr
      rw [deleteDefaultGWResult_legacy h ipv4 ipv6] at hr
      exact deleteDefaultGWResult020_frame hr "routes" (by decide) (by decide)
  · intro h
    refine ⟨addDefaultGWResult_unified h gw, deleteDefaultGWResult_unified h ipv4 ipv6,
      ?_, ?_, ?_, ?_, ?_⟩
    · intro existing hrs
      have hadd := addUnified_routes hrs gw
      rw [addDefaultGWResult_unified h gw]
      exact ⟨_, hadd, mapGet_mapSet_self _ _ _, addUnified_frame hadd "ip4" (by decide),
        addUnified_frame hadd "ip6" (by decide)⟩
    · intro rs hrs ht
      rw [deleteDefaultGWResult_unified h ipv4 ipv6]
      obtain ⟨r', hdel, hroutes⟩ := deleteUnified_entries hrs ipv4 ipv6 (fun _ => ht)
      exact ⟨r', hdel, hroutes, deleteUnified_frame hdel "ip4" (by decide),
        deleteUnified_frame hdel "ip6" (by decide)⟩
    · intro hnone
      rw [deleteDefaultGWResult_unified h ipv4 ipv6]
      unfold deleteUnified
      rw [hnone]
    · intro r' hr k hk
      rw [addDefaultGWResult_unified h gw] at hr
      exact addUnified_frame hr k (Ne.symm hk)
    · intro r' hr k hk
      rw [deleteDefaultGWResult_unified h ipv4 ipv6] at hr
      exact deleteUnified_frame hr k (Ne.symm hk)

/-- C7 at a result without cniVersion that has an ip4 object, where add
succeeds through the legacy handler, and at a unified-schema result that has
an ip4 object and one default route, where add and delete succeed through the
unified handler and leave ip4 alone. -/
theorem C7_version_dispatch_witness :
    (addDefaultGWResult [("ip4", .map [])] [gw4]
        = .ok [("ip4", .map [("routes", .slice [routeEntry "0.0.0.0/0" "192.168.1.1"])])] ∧
      addDefaultGWResult [("ip4", .map [])] [gw4] = addDefaultGWResult020 [("ip4", .map [])] [gw4] ∧
      mapGet [("ip4", .map [("routes", .slice [routeEntry "0.0.0.0/0" "192.168.1.1"])])] "routes"
        = mapGet [("ip4", .map [])] "routes") ∧
    ((∃ r', addDefaultGWResult
          [("cniVersion", .string "0.4.0"), ("ip4", .map []),
            ("routes", .slice [routeVal "0.0.0.0/0" "10.0.0.1"])] [gw4] = .ok r' ∧
        mapGet r' "routes" = some (.slice [routeVal "0.0.0.0/0" "10.0.0.1",
          routeEntry "0.0.0.0/0" "192.168.1.1"]) ∧
        mapGet r' "ip4" = some (.map []) ∧ mapGet r' "ip6" = none) ∧
      (∃ r', deleteDefaultGWResult
          [("cniVersion", .string "0.4.0"), ("ip4", .map []),
            ("routes", .slice [routeVal "0.0.0.0/0" "10.0.0.1"])] true true = .ok r' ∧
        mapGet r' "routes" = none ∧
        mapGet r' "ip4" = some (.map []) ∧ mapGet r' "ip6" = none) ∧
      (∀ k, k ≠ "routes" →
        mapGet [("cniVersion", GoVal.string "0.4.0"), ("ip4", .map [])] k
          = mapGet [("cniVersion", .string "0.4.0"), ("ip4", .map []),
            ("routes", .slice [routeVal "0.0.0.0/0" "10.0.0.1"])] k)) :=
  ⟨⟨rfl, (C7_version_dispatch [("ip4", .map [])] [gw4] true true).1 rfl |>.1,
      (C7_version_dispatch [("ip4", .map [])] [gw4] true true).1 rfl |>.2.2.1 _ rfl⟩,
    ((C7_version_dispatch
        [("cniVersion", .string "0.4.0"), ("ip4", .map []),
          ("routes", .slice [routeVal "0.0.0.0/0" "10.0.0.1"])] [gw4] true true).2 rfl).2.2.1
      [routeVal "0.0.0.0/0" "10.0.0.1"] rfl,
    ((C7_version_dispatch
        [("cniVersion", .string "0.4.0"), ("ip4", .map []),
          ("routes", .slice [routeVal "0.0.0.0/0" "10.0.0.1"])] [gw4] true true).2 rfl).2.2.2.1
      [routeVal "0.0.0.0/0" "10.0.0.1"] rfl
      (fun r hr => by rw [List.mem_singleton.1 hr]; rfl),
    ((C7_version_dispatch
        [("cniVersion", .string "0.4.0"), ("ip4", .map []),
          ("routes", .slice [routeVal "0.0.0.0/0" "10.0.0.1"])] [gw4] true true).2 rfl).2.2.2.2.2.2
      [("cniVersion", .string "0.4.0"), ("ip4", .map [])] rfl⟩

/-- C8 (amended): when add or delete succeeds on the text of a cache document,
the output text has the same top-level keys as the input text, and it is
what `json.Marshal` writes for a map whose every field other than result is
the Go value that `json.Unmarshal` decoded the input field to; every such
field is a member of the output text, and it decodes to that same Go value
again. -/
theorem C8_siblings_reread (t t' : JsonText) (gw : List IP) (ipv4 ipv6 : Bool)
    (h : addDefaultGWCacheText t gw = .ok t' ∨ deleteDefaultGWCacheText t ipv4 ipv6 = .ok t') :
    (∀ k, k ∈ textTopKeys t' ↔ k ∈ textTopKeys t) ∧
    ∃ mIn mOut, jsonUnmarshal (textBytes t) = .ok mIn ∧
      bytesText (.ok (jsonMarshal mOut)) = .ok t' ∧
      (∀ k, k ≠ "result" → mapGet mOut k = mapGet mIn k) ∧
      (∀ k v, k ≠ "result" → mapGet mIn k = some v →
        (∃ tk, (k, tk) ∈ textMembers t') ∧
        ∀ tk, (k, tk) ∈ textMembers t' → (lexNumbers tk).map decode = some v) := by
  have hout : ∃ out, (addDefaultGWCacheBytes (textBytes t) gw = .ok out ∨
      deleteDefaultGWCacheBytes (textBytes t) ipv4 ipv6 = .ok out) ∧
      bytesText (.ok out) = .ok t' := by
    rcases h with h | h
    · obtain ⟨out, h1, h2⟩ := bytesText_ok h
      exact ⟨out, Or.inl h1, h2⟩
    · obtain ⟨out, h1, h2⟩ := bytesText_ok h
      exact ⟨out, Or.inr h1, h2⟩
  obtain ⟨out, hpatch, hprint⟩ := hout
  have hkeys := (siblings_decode_alike hpatch).1
  obtain ⟨kvs, r, r', htext, hres, -, rfl⟩ := patched_shape hpatch
  have hvalid := textBytes_obj htext
  have hs := keysSorted_decoded kvs
  have hmem := mem_printMembers _ _ (printed_members hprint)
  refine ⟨?_, decodeMembers kvs [], _, ?_, hprint, fun k hk => mapGet_mapSet_ne _ _ (Ne.symm hk), ?_⟩
  · intro k
    rw [textTopKeys_printed _ _ hprint, hkeys k, topKeys_textBytes t kvs htext]
  · rw [htext]
    rfl
  · intro k v hk hget
    obtain ⟨tk, hp, hl, hd⟩ := sibling_reread hvalid hget
    have hget' : mapGet (mapSet (decodeMembers kvs []) "result" (.map r')) k = some v := by
      rw [mapGet_mapSet_ne _ _ (Ne.symm hk)]
      exact hget
    constructor
    · refine ⟨tk, (hmem k tk).2 ⟨marshal v, ?_, hp⟩⟩
      rw [mem_sortKeys, mem_marshalMembers]
      exact ⟨v, mem_of_mapGet hget', rfl⟩
    · intro tk' htk'
      obtain ⟨j, hj, hpj⟩ := (hmem k tk').1 htk'
      rw [mem_sortKeys, mem_marshalMembers] at hj
      obtain ⟨v', hv', rfl⟩ := hj
      have := mapGet_of_mem_sorted (keysSorted_mapSet hs _ _) hv'
      rw [hget'] at this
      have hvv : v = v' := Option.some.inj this
      subst hvv
      rw [hp] at hpj
      have htk : tk = tk' := Option.some.inj hpj
      subst htk
      rw [hl, Option.map_some', hd]

section

set_option maxRecDepth 100000

set_option exponentiation.threshold 5000

/-- C8 as stated fails on a sibling number that no `float64` holds: an add on
a document with the sibling `"serial": 12345678901234567890` writes
`"serial": 12345678901234567000`, and so does a delete that removes no
route; the two tokens are of different values. -/
theorem C8_counterexample :
    addDefaultGWCacheText (serialDoc (NumLit.mk false 12345678901234567890 0) []) [gw4]
      = .ok (serialDoc (NumLit.mk false 12345678901234567000 0)
          [.obj [("dst", .str "0.0.0.0/0"), ("gw", .str "192.168.1.1")]]) ∧
    deleteDefaultGWCacheText (serialDoc (NumLit.mk false 12345678901234567890 0)
        [.obj [("dst", .str "10.0.0.0/8"), ("gw", .str "10.0.0.1")]]) true true
      = .ok (serialDoc (NumLit.mk false 12345678901234567000 0)
          [.obj [("dst", .str "10.0.0.0/8"), ("gw", .str "10.0.0.1")]]) ∧
    (NumLit.mk false 12345678901234567890 0).sameValue
      (NumLit.mk false 12345678901234567000 0) = false :=
  ⟨rfl, rfl, rfl⟩

/-- C8 (amended) at an add on a document with the sibling `"serial": 1.5`:
the output keeps the member, and it decodes to the same value. -/
theorem C8_siblings_reread_witness :
    addDefaultGWCacheText (serialDoc (NumLit.mk false 15 1) []) [gw4]
      = .ok (serialDoc (NumLit.mk false 15 1)
          [.obj [("dst", .str "0.0.0.0/0"), ("gw", .str "192.168.1.1")]]) ∧
    ((∀ k, k ∈ textTopKeys (serialDoc (NumLit.mk false 15 1)
          [.obj [("dst", .str "0.0.0.0/0"), ("gw", .str "192.168.1.1")]]) ↔
        k ∈ textTopKeys (serialDoc (NumLit.mk false 15 1) [])) ∧
      ∃ mIn mOut, jsonUnmarshal (textBytes (serialDoc (NumLit.mk false 15 1) [])) = .ok mIn ∧
        bytesText (.ok (jsonMarshal mOut)) = .ok (serialDoc (NumLit.mk false 15 1)
          [.obj [("dst", .str "0.0.0.0/0"), ("gw", .str "192.168.1.1")]]) ∧
        (∀ k, k ≠ "result" → mapGet mOut k = mapGet mIn k) ∧
        (∀ k v, k ≠ "result" → mapGet mIn k = some v →
          (∃ tk, (k, tk) ∈ textMembers (serialDoc (NumLit.mk false 15 1)
            [.obj [("dst", .str "0.0.0.0/0"), ("gw", .str "192.168.1.1")]])) ∧
          ∀ tk, (k, tk) ∈ textMembers (serialDoc (NumLit.mk false 15 1)
            [.obj [("dst", .str "0.0.0.0/0"), ("gw", .str "192.168.1.1")]]) →
            (lexNumbers tk).map decode = some v)) :=
  ⟨rfl, C8_siblings_reread (serialDoc (NumLit.mk false 15 1) []) _ [gw4] false false
    (Or.inl rfl)⟩

end

/-- C9: after a successful delete on a unified-schema result the routes key
is absent or holds an array with an entry, in memory and in the marshalled
text; deleting the only entry leaves the key absent. -/
theorem C9_empty_collapse (result r' : GoMap) (ipv4 ipv6 : Bool)
    (hv : isUnified result = true)
    (h : deleteDefaultGWResult result ipv4 ipv6 = .ok r') :
    (mapGet r' "routes" = none ∨ ∃ x xs, mapGet r' "routes" = some (.slice (x :: xs))) ∧
    (∀ ms, marshal (.map r') = .obj ms → ∀ j, ("routes", j) ∈ ms → ∃ x xs, j = .arr (x :: xs)) ∧
    (∀ route d, mapGet result "routes" = some (.slice [.map route]) →
      mapGet route "dst" = some (.string d) →
      ((ipv4 = true ∧ d = "0.0.0.0/0") ∨ (ipv6 = true ∧ d = "::0/0")) →
      mapGet r' "routes" = none ∧
        ∀ ms, marshal (.map r') = .obj ms → ∀ j, ("routes", j) ∉ ms) := by
  rw [deleteDefaultGWResult_unified hv] at h
  obtain ⟨l, hget, hmem⟩ := deleteUnified_shape h
  have hms : ∀ ms, marshal (.map r') = .obj ms → ∀ j, ("routes", j) ∈ ms →
      ∃ v, some v = routesField l ∧ j = marshal v := by
    intro ms hms j hj
    simp only [marshal, Json.obj.injEq] at hms
    subst hms
    obtain ⟨v, hv, rfl⟩ := (mem_marshalMembers r' "routes" j).1 ((mem_sortKeys _ _).1 hj)
    exact ⟨v, hmem v hv, rfl⟩
  refine ⟨?_, ?_, ?_⟩
  · cases l with
    | nil => exact Or.inl hget
    | cons x xs => exact Or.inr ⟨x, xs, hget⟩
  · intro ms e j hj
    obtain ⟨v, hv, rfl⟩ := hms ms e j hj
    cases l with
    | nil => exact absurd hv (by simp [routesField])
    | cons x xs =>
      simp only [routesField, Option.some.injEq] at hv
      subst hv
      exact ⟨marshal x, marshalList xs, by simp [marshal, marshalList]⟩
  · intro route d hr hd hsel
    have ht : ∀ r ∈ [GoVal.map route], isRouteEntry r = true := by
      intro r hr
      rw [List.mem_singleton.1 hr]
      simp only [isRouteEntry, hd]
    obtain ⟨r'', h', hroutes⟩ := deleteUnified_entries hr ipv4 ipv6 (fun _ => ht)
    rw [h] at h'
    cases h'
    have hf : ([GoVal.map route].filter
        (fun r => !(ipv4 && hasDst "0.0.0.0/0" r) && !(ipv6 && hasDst "::0/0" r))) = [] := by
      rcases hsel with ⟨rfl, rfl⟩ | ⟨rfl, rfl⟩ <;> simp [hasDst, hd]
    rw [hf] at hroutes
    refine ⟨hroutes, fun ms e j hj => ?_⟩
    obtain ⟨v, hv, -⟩ := hms ms e j hj
    rw [← hget, hroutes] at hv
    exact absurd hv (by simp [routesField])

/-- C9 at the delete of the only route of a result. -/
theorem C9_empty_collapse_witness :
    deleteDefaultGWResult (unifiedResult [routeVal "0.0.0.0/0" "192.168.1.1"]) true false
      = .ok [("cniVersion", .string "0.3.1")] ∧
    mapGet [("cniVersion", GoVal.string "0.3.1")] "routes" = none ∧
    marshal (.map [("cniVersion", .string "0.3.1")]) = .obj [("cniVersion", .str "0.3.1")] :=
  ⟨rfl,
    ((C9_empty_collapse (unifiedResult [routeVal "0.0.0.0/0" "192.168.1.1"])
      [("cniVersion", .string "0.3.1")] true false rfl rfl).2.2
      [("dst", .string "0.0.0.0/0"), ("gw", .string "192.168.1.1")] "0.0.0.0/0" rfl rfl
      (Or.inl ⟨rfl, rfl⟩)).1,
    rfl⟩

/-- C10 fails on the code: when the legacy delete filters every entry of
ip4.routes away it stores the nil slice under routes, which is written as
null; the key is not omitted. -/
theorem C10_legacy_delete_writes_null :
    isLegacy [("ip4", .map [("routes", .slice [routeVal "0.0.0.0/0" "10.0.0.1"])])] = true ∧
    deleteDefaultGWResult020
        [("ip4", .map [("routes", .slice [routeVal "0.0.0.0/0" "10.0.0.1"])])] true false
      = .ok [("ip4", .map [("routes", .sliceNil)])] ∧
    deleteDefaultGWCacheBytes
        (legacyDoc (.arr [routeJson "0.0.0.0/0" "10.0.0.1"]) (.arr [routeJson "::0/0" "fe80::1"]))
        true true
      = .ok (legacyDoc .null .null) :=
  ⟨rfl, rfl, rfl⟩

/-- C11 (amended): when no routes key of a result (top-level, ip4.routes or
ip6.routes) holds an empty array and the gateway list is not empty in the
case of a unified-schema result without a top-level routes key, no routes key
of the output of a successful add holds an empty array. -/
theorem C11_add_keeps_routes_nonempty (result r' : GoMap) (gw : List IP)
    (hin : hasEmptyRoutes result = false)
    (hgw : isUnified result = true → mapGet result "routes" = none → gw ≠ [])
    (h : addDefaultGWResult result gw = .ok r') : hasEmptyRoutes r' = false := by
  rcases dispatch_cases result with hl | hu | ⟨herr, -⟩
  · rw [addDefaultGWResult_legacy hl] at h
    exact addDefaultGWResult020_nonempty gw hin h
  · rw [addDefaultGWResult_unified hu] at h
    exact addUnified_nonempty hin (hgw hu) h
  · obtain ⟨e, he⟩ := herr gw
    rw [he] at h
    exact absurd h (by simp)

/-- C11 as stated fails: on a unified-schema result without routes, add with
the empty gateway list succeeds and stores an empty array under routes, which
the document then shows. -/
theorem C11_counterexample :
    hasEmptyRoutes [("cniVersion", .string "0.3.1")] = false ∧
    addDefaultGWResult [("cniVersion", .string "0.3.1")] []
      = .ok [("cniVersion", .string "0.3.1"), ("routes", .slice [])] ∧
    hasEmptyRoutes [("cniVersion", .string "0.3.1"), ("routes", .slice [])] = true ∧
    addDefaultGWCacheBytes (.text (.obj [("result", .obj [("cniVersion", .str "0.3.1")])])) []
      = .ok (scenarioDoc []) :=
  ⟨rfl, rfl, rfl, rfl⟩

/-- C11 (amended) at a unified-schema result without routes and the gateway
192.168.1.1. -/
theorem C11_add_keeps_routes_nonempty_witness :
    addDefaultGWResult [("cniVersion", .string "0.3.1")] [gw4]
      = .ok [("cniVersion", .string "0.3.1"),
          ("routes", .slice [routeEntry "0.0.0.0/0" "192.168.1.1"])] ∧
    hasEmptyRoutes [("cniVersion", .string "0.3.1"),
      ("routes", .slice [routeEntry "0.0.0.0/0" "192.168.1.1"])] = false :=
  ⟨rfl, C11_add_keeps_routes_nonempty [("cniVersion", .string "0.3.1")] _ [gw4] rfl
    (fun _ _ => by simp) rfl⟩

/-- C12: on a legacy-schema result without an ip6 key, add with gateways that
are all IPv6 (To4 is nil) succeeds and returns the result as it was; likewise
without an ip4 key and with gateways that are all IPv4. -/
theorem C12_legacy_asymmetry (result : GoMap) (gw : List IP) (hl : isLegacy result = true) :
    (mapGet result "ip6" = none → (∀ g ∈ gw, To4 g = none) →
      addDefaultGWResult020 result gw = .ok result ∧ addDefaultGWResult result gw = .ok result) ∧
    (mapGet result "ip4" = none → (∀ g ∈ gw, (To4 g).isSome = true) →
      addDefaultGWResult020 result gw = .ok result ∧ addDefaultGWResult result gw = .ok result) := by
  constructor
  · intro h hg
    have := addDefaultGWResult020_no_ip6 result gw h hg
    exact ⟨this, by rw [addDefaultGWResult_legacy hl, this]⟩
  · intro h hg
    have := addDefaultGWResult020_no_ip4 result gw h hg
    exact ⟨this, by rw [addDefaultGWResult_legacy hl, this]⟩

/-- C12 at a result with only an ip4 object and the gateway fe80::1, and at a
result with only an ip6 object and the gateway 192.168.1.1. -/
theorem C12_legacy_asymmetry_witness :
    (addDefaultGWResult020 [("ip4", .map [("ip", .string "10.0.0.2/24")])] [gw6]
        = .ok [("ip4", .map [("ip", .string "10.0.0.2/24")])] ∧
      addDefaultGWResult [("ip4", .map [("ip", .string "10.0.0.2/24")])] [gw6]
        = .ok [("ip4", .map [("ip", .string "10.0.0.2/24")])]) ∧
    (addDefaultGWResult020 [("ip6", .map [])] [gw4] = .ok [("ip6", .map [])] ∧
      addDefaultGWResult [("ip6", .map [])] [gw4] = .ok [("ip6", .map [])]) :=
  ⟨(C12_legacy_asymmetry [("ip4", .map [("ip", .string "10.0.0.2/24")])] [gw6] rfl).1 rfl
      (fun g hg => by rw [List.mem_singleton.1 hg]; rfl),
    (C12_legacy_asymmetry [("ip6", .map [])] [gw4] rfl).2 rfl
      (fun g hg => by rw [List.mem_singleton.1 hg]; rfl)⟩

/-- C13 (amended): a wrong-typed field is fatal on the paths that read it.
A result that is not an object fails every patch. On the unified schema,
routes that are not an array fail every patch, and an entry that is not an
object or has a dst that is not a string fails delete when a family flag is
set. On the legacy schema, an ip4 (ip6) that is not an object, or whose
routes are not an array, fails delete when ipv4 (ipv6) is set and fails add
when the list has an IPv4 (IPv6) gateway; such an entry in ip4.routes
(ip6.routes) fails delete when ipv4 (ipv6) is set. -/
theorem C13_wrong_types_fatal_where_read (cacheFile : Bytes) (gw : List IP) (ipv4 ipv6 : Bool) :
    (∀ m v, jsonUnmarshal cacheFile = .ok m → mapGet m "result" = some v → v.asMap = none →
      (∃ e, addDefaultGWCacheBytes cacheFile gw = .error e) ∧
      (∃ e, deleteDefaultGWCacheBytes cacheFile ipv4 ipv6 = .error e)) ∧
    (∀ result, docResult cacheFile = some result →
      (isUnified result = true →
        (wrongRoutes result = true →
          (∃ e, addDefaultGWCacheBytes cacheFile gw = .error e) ∧
          (∃ e, deleteDefaultGWCacheBytes cacheFile ipv4 ipv6 = .error e)) ∧
        (badRoutes result = true → (ipv4 = true ∨ ipv6 = true) →
          ∃ e, deleteDefaultGWCacheBytes cacheFile ipv4 ipv6 = .error e)) ∧
      (isLegacy result = true →
        (wrongSub result "ip4" = true →
          (hasV4 gw = true → ∃ e, addDefaultGWCacheBytes cacheFile gw = .error e) ∧
          (ipv4 = true → ∃ e, deleteDefaultGWCacheBytes cacheFile ipv4 ipv6 = .error e)) ∧
        (wrongSub result "ip6" = true →
          (hasV6 gw = true → ∃ e, addDefaultGWCacheBytes cacheFile gw = .error e) ∧
          (ipv6 = true → ∃ e, deleteDefaultGWCacheBytes cacheFile ipv4 ipv6 = .error e)) ∧
        (badSub result "ip4" = true → ipv4 = true →
          ∃ e, deleteDefaultGWCacheBytes cacheFile ipv4 ipv6 = .error e) ∧
        (badSub result "ip6" = true → ipv6 = true →
          ∃ e, deleteDefaultGWCacheBytes cacheFile ipv4 ipv6 = .error e))) := by
  constructor
  · intro m v hun hv hmap
    exact ⟨⟨.wrongResultType, by simp [addDefaultGWCacheBytes, hun, hv, hmap]⟩,
      ⟨.wrongResultType, by simp [deleteDefaultGWCacheBytes, hun, hv, hmap]⟩⟩
  · intro result hres
    constructor
    · intro hu
      constructor
      · intro hw
        exact ⟨addDefaultGWCacheBytes_error hres
            ⟨_, by rw [addDefaultGWResult_unified hu, addUnified_wrongRoutes hw]⟩,
          deleteDefaultGWCacheBytes_error hres
            ⟨_, by rw [deleteDefaultGWResult_unified hu, deleteUnified_wrongRoutes hw]⟩⟩
      · intro hb hf
        apply deleteDefaultGWCacheBytes_error hres
        rw [deleteDefaultGWResult_unified hu]
        exact deleteUnified_badRoutes hb hf
    · intro hl
      refine ⟨?_, ?_, ?_, ?_⟩
      · intro hw
        constructor
        · intro hg
          apply addDefaultGWCacheBytes_error hres
          rw [addDefaultGWResult_legacy hl]
          exact addDefaultGWResult020_wrong4 gw hw hg
        · intro hf
          subst hf
          apply deleteDefaultGWCacheBytes_error hres
          rw [deleteDefaultGWResult_legacy hl]
          exact deleteDefaultGWResult020_wrong4 (Or.inl hw) ipv6
      · intro hw
        constructor
        · intro hg
          apply addDefaultGWCacheBytes_error hres
          rw [addDefaultGWResult_legacy hl]
          exact addDefaultGWResult020_wrong6 gw hw hg
        · intro hf
          subst hf
          apply deleteDefaultGWCacheBytes_error hres
          rw [deleteDefaultGWResult_legacy hl]
          exact deleteDefaultGWResult020_wrong6 (Or.inl hw) ipv4
      · intro hb hf
        subst hf
        apply deleteDefaultGWCacheBytes_error hres
        rw [deleteDefaultGWResult_legacy hl]
        exact deleteDefaultGWResult020_wrong4 (Or.inr hb) ipv6
      · intro hb hf
        subst hf
        apply deleteDefaultGWCacheBytes_error hres
        rw [deleteDefaultGWResult_legacy hl]
        exact deleteDefaultGWResult020_wrong6 (Or.inr hb) ipv4

/-- C13 as stated fails: on a unified-schema document an ip4 that is a number
is not read, so add and delete succeed; an entry whose dst is a number lets
add succeed, and delete too when no flag is set; on a legacy-schema document
an ip4 that is a string lets delete succeed when ipv4 is not set and add
succeed when no gateway is IPv4. -/
theorem C13_counterexample :
    (addDefaultGWCacheBytes
        (.text (.obj [("result", .obj [("cniVersion", .str "0.3.1"), ("ip4", .num 5)])])) [gw4]
      = .ok (.text (.obj [("result", .obj [("cniVersion", .str "0.3.1"), ("ip4", .num 5),
          ("routes", .arr [routeJson "0.0.0.0/0" "192.168.1.1"])])])) ∧
      deleteDefaultGWCacheBytes
        (.text (.obj [("result", .obj [("cniVersion", .str "0.3.1"), ("ip4", .num 5)])]))
        true true
      = .ok (.text (.obj [("result", .obj [("cniVersion", .str "0.3.1"), ("ip4", .num 5)])]))) ∧
    (addDefaultGWCacheBytes (scenarioDoc [.obj [("dst", .num 5)]]) [gw4]
      = .ok (scenarioDoc [.obj [("dst", .num 5)], routeJson "0.0.0.0/0" "192.168.1.1"]) ∧
      deleteDefaultGWCacheBytes (scenarioDoc [.obj [("dst", .num 5)]]) false false
      = .ok (scenarioDoc [.obj [("dst", .num 5)]])) ∧
    (deleteDefaultGWCacheBytes
        (.text (.obj [("result", .obj [("cniVersion", .str "0.2.0"), ("ip4", .str "x")])]))
        false true
      = .ok (.text (.obj [("result", .obj [("cniVersion", .str "0.2.0"), ("ip4", .str "x")])])) ∧
      addDefaultGWCacheBytes
        (.text (.obj [("result", .obj [("cniVersion", .str "0.2.0"), ("ip4", .str "x")])])) [gw6]
      = .ok (.text (.obj [("result", .obj [("cniVersion", .str "0.2.0"), ("ip4", .str "x")])]))) :=
  ⟨⟨rfl, rfl⟩, ⟨rfl, rfl⟩, ⟨rfl, rfl⟩⟩

/-- C13 (amended) at a document whose result is a number, at a unified-schema
document whose routes are a string, and at a legacy-schema document whose ip4
is a string, with the gateway 192.168.1.1 and ipv4 set. -/
theorem C13_wrong_types_fatal_where_read_witness :
    ((∃ e, addDefaultGWCacheBytes (.text (.obj [("result", .num 5)])) [gw4] = .error e) ∧
      (∃ e, deleteDefaultGWCacheBytes (.text (.obj [("result", .num 5)])) true false
        = .error e)) ∧
    ((∃ e, addDefaultGWCacheBytes
        (.text (.obj [("result", .obj [("cniVersion", .str "0.3.1"), ("routes", .str "x")])]))
        [gw4] = .error e) ∧
      (∃ e, deleteDefaultGWCacheBytes
        (.text (.obj [("result", .obj [("cniVersion", .str "0.3.1"), ("routes", .str "x")])]))
        true false = .error e)) ∧
    ((∃ e, addDefaultGWCacheBytes
        (.text (.obj [("result", .obj [("cniVersion", .str "0.2.0"), ("ip4", .str "x")])]))
        [gw4] = .error e) ∧
      (∃ e, deleteDefaultGWCacheBytes
        (.text (.obj [("result", .obj [("cniVersion", .str "0.2.0"), ("ip4", .str "x")])]))
        true false = .error e)) :=
  ⟨(C13_wrong_types_fatal_where_read (.text (.obj [("result", .num 5)])) [gw4] true false).1
      [("result", .float64 5)] (.float64 5) rfl rfl rfl,
    (((C13_wrong_types_fatal_where_read
      (.text (.obj [("result", .obj [("cniVersion", .str "0.3.1"), ("routes", .str "x")])]))
      [gw4] true false).2
      [("cniVersion", .string "0.3.1"), ("routes", .string "x")] rfl).1 rfl).1 rfl,
    ⟨((((C13_wrong_types_fatal_where_read
      (.text (.obj [("result", .obj [("cniVersion", .str "0.2.0"), ("ip4", .str "x")])]))
      [gw4] true false).2
      [("cniVersion", .string "0.2.0"), ("ip4", .string "x")] rfl).2 rfl).1 rfl).1 rfl,
    ((((C13_wrong_types_fatal_where_read
      (.text (.obj [("result", .obj [("cniVersion", .str "0.2.0"), ("ip4", .str "x")])]))
      [gw4] true false).2
      [("cniVersion", .string "0.2.0"), ("ip4", .string "x")] rfl).2 rfl).1 rfl).2 rfl⟩⟩

/-- C14 fails on the code: with two gateways, the first addition failing with
an error other than already-exists and the second succeeding, both additions
are attempted in order and SetDefaultGW returns nil. -/
theorem C14_later_success_hides_failure :
    SetDefaultGW (scriptedKernel [] [some (.other 101), none]) "/proc/7/ns/net" "eth0" [gw4, gw6]
      = GWResult.mk none [Route.mk 2 none gw4, Route.mk 2 none gw6] :=
  rfl

/-- C15 fails on the code: with two default routes listed, the first deletion
failing and the second succeeding, exactly the two routes with a nil
destination are handed to the kernel and DeleteDefaultGW returns nil. -/
theorem C15_later_success_hides_failure :
    DeleteDefaultGW
        (scriptedKernel
          [Route.mk 2 none gw4, Route.mk 2 (some (IPNet.mk [10, 0, 0, 0] [255, 255, 255, 0])) [],
            Route.mk 2 none gw6]
          [some (.other 3), none])
        "/proc/7/ns/net" "eth0"
      = GWResult.mk none [Route.mk 2 none gw4, Route.mk 2 none gw6] :=
  rfl

/-- C16: when the namespace and the link resolve and every route addition of
the call succeeds or fails with already-exists, SetDefaultGW returns nil,
having attempted one default route per gateway in input order. -/
theorem C16_idempotent_route_add (k : Netlink) (netnsPath ifName : String) (gateways : List IP)
    (linkIndex : Nat) (hns : k.getNS netnsPath = true)
    (hlink : k.linkByName ifName = some linkIndex)
    (hout : ∀ n, n < gateways.length → ∀ r,
      k.routeAdd n r = none ∨ k.routeAdd n r = some .eexist) :
    SetDefaultGW k netnsPath ifName gateways
      = GWResult.mk none (gateways.map (fun gw => Route.mk linkIndex none gw)) := by
  unfold SetDefaultGW
  rw [hns, hlink]
  have h1 := setDefaultGWLoop_benign k linkIndex gateways 0 none [] rfl
    (fun i hi r => by simpa using hout i hi r)
  have h2 := setDefaultGWLoop_attempts k linkIndex gateways 0 none []
  have hpair : setDefaultGWLoop k linkIndex gateways 0 none []
      = (none, gateways.map (fun gw => Route.mk linkIndex none gw)) :=
    Prod.ext h1 (by simpa using h2)
  simp only [Bool.true_eq_false, if_false, hpair]
  rfl

/-- C16 at a first call whose addition succeeds and a second call with the
same gateway whose addition fails with already-exists. -/
theorem C16_idempotent_route_add_witness :
    SetDefaultGW (scriptedKernel [] [none]) "/proc/7/ns/net" "eth0" [gw4]
      = GWResult.mk none [Route.mk 2 none gw4] ∧
    SetDefaultGW (scriptedKernel [] [some .eexist]) "/proc/7/ns/net" "eth0" [gw4]
      = GWResult.mk none [Route.mk 2 none gw4] :=
  ⟨C16_idempotent_route_add (scriptedKernel [] [none]) "/proc/7/ns/net" "eth0" [gw4] 2 rfl rfl
      (fun n hn r => by
        have : n = 0 := by simpa using hn
        subst this
        exact Or.inl rfl),
    C16_idempotent_route_add (scriptedKernel [] [some .eexist]) "/proc/7/ns/net" "eth0" [gw4] 2
      rfl rfl
      (fun n hn r => by
        have : n = 0 := by simpa using hn
        subst this
        exact Or.inr rfl)⟩

/-- C17: when AddDefaultGWCache or DeleteDefaultGWCache fails with an error
that is not the error of the final write, the disk is as it was; this is so
when the file cannot be read and when the patch of its content fails
(malformed JSON, result missing or of the wrong type, a field of the wrong
type, cniVersion not supported). -/
theorem C17_no_write_on_failure (d : Disk) (cacheDir : String) (rt : RuntimeConf)
    (netName ifName : String) (gw : List IP) (ipv4 ipv6 : Bool) :
    (∀ e, (AddDefaultGWCache d cacheDir rt netName ifName gw).1 = some e → e ≠ .writeFile →
      (AddDefaultGWCache d cacheDir rt netName ifName gw).2 = d) ∧
    (∀ e, (DeleteDefaultGWCache d cacheDir rt netName ifName ipv4 ipv6).1 = some e →
      e ≠ .writeFile → (DeleteDefaultGWCache d cacheDir rt netName ifName ipv4 ipv6).2 = d) ∧
    (d.files (cachePath cacheDir rt netName) = none →
      AddDefaultGWCache d cacheDir rt netName ifName gw = (some .readFile, d) ∧
      DeleteDefaultGWCache d cacheDir rt netName ifName ipv4 ipv6 = (some .readFile, d)) ∧
    (∀ cache e, d.files (cachePath cacheDir rt netName) = some cache →
      addDefaultGWCacheBytes cache gw = .error e →
      AddDefaultGWCache d cacheDir rt netName ifName gw = (some (.patch e), d)) ∧
    (∀ cache e, d.files (cachePath cacheDir rt netName) = some cache →
      deleteDefaultGWCacheBytes cache ipv4 ipv6 = .error e →
      DeleteDefaultGWCache d cacheDir rt netName ifName ipv4 ipv6 = (some (.patch e), d)) := by
  refine ⟨?_, ?_, ?_, ?_, ?_⟩
  · intro e he hne
    cases hcache : d.files (cachePath cacheDir rt netName) with
    | none => simp [AddDefaultGWCache, hcache]
    | some cache =>
      cases hnew : addDefaultGWCacheBytes cache gw with
      | error e' => simp [AddDefaultGWCache, hcache, hnew]
      | ok newCache =>
        simp only [AddDefaultGWCache, hcache, hnew, writeFile] at he
        split at he
        · exact absurd he (by simp)
        · simp only [Option.some.injEq] at he
          exact absurd he.symm hne
  · intro e he hne
    cases hcache : d.files (cachePath cacheDir rt netName) with
    | none => simp [DeleteDefaultGWCache, hcache]
    | some cache =>
      cases hnew : deleteDefaultGWCacheBytes cache ipv4 ipv6 with
      | error e' => simp [DeleteDefaultGWCache, hcache, hnew]
      | ok newCache =>
        simp only [DeleteDefaultGWCache, hcache, hnew, writeFile] at he
        split at he
        · exact absurd he (by simp)
        · simp only [Option.some.injEq] at he
          exact absurd he.symm hne
  · intro h
    simp [AddDefaultGWCache, DeleteDefaultGWCache, h]
  · intro cache e h he
    simp [AddDefaultGWCache, h, he]
  · intro cache e h he
    simp [DeleteDefaultGWCache, h, he]

/-- C17 at a disk whose cache file holds a result of an unsupported version,
and at a disk without the cache file. -/
theorem C17_no_write_on_failure_witness :
    AddDefaultGWCache
        (oneFileDisk "/var/lib/cni/results/net-c1-net1"
          (.text (.obj [("result", .obj [("cniVersion", .str "0.5.0")])])))
        "/var/lib/cni" sampleRt "net" "net1" [gw4]
      = (some (.patch (.notSupportedVersion "0.5.0")),
        oneFileDisk "/var/lib/cni/results/net-c1-net1"
          (.text (.obj [("result", .obj [("cniVersion", .str "0.5.0")])]))) ∧
    DeleteDefaultGWCache (oneFileDisk "/elsewhere" (.malformed [123])) "/var/lib/cni" sampleRt
        "net" "net1" true true
      = (some .readFile, oneFileDisk "/elsewhere" (.malformed [123])) :=
  ⟨(C17_no_write_on_failure
      (oneFileDisk "/var/lib/cni/results/net-c1-net1"
        (.text (.obj [("result", .obj [("cniVersion", .str "0.5.0")])])))
      "/var/lib/cni" sampleRt "net" "net1" [gw4] true true).2.2.2.1
      (.text (.obj [("result", .obj [("cniVersion", .str "0.5.0")])]))
      (.notSupportedVersion "0.5.0") rfl rfl,
    ((C17_no_write_on_failure (oneFileDisk "/elsewhere" (.malformed [123])) "/var/lib/cni"
      sampleRt "net" "net1" [gw4] true true).2.2.1 rfl).2⟩

/-- C18: on a cache document that is a JSON object, when no member has the
key result both patch functions fail with the error of the missing result,
and when result holds a value that is not an object both fail with the error
of the wrong result type, for every gateway list and every pair of flags. -/
theorem C18_missing_result_fatal (kvs : List (String × Json))
    (h : "result" ∉ kvs.map Prod.fst ∨
      ∃ v, mapGet (decodeMembers kvs []) "result" = some v ∧ v.asMap = none) :
    (∀ gw, ∃ e, addDefaultGWCacheBytes (.text (.obj kvs)) gw = .error e ∧
      (e = .cannotGetResult ∨ e = .wrongResultType)) ∧
    (∀ ipv4 ipv6, ∃ e, deleteDefaultGWCacheBytes (.text (.obj kvs)) ipv4 ipv6 = .error e ∧
      (e = .cannotGetResult ∨ e = .wrongResultType)) := by
  rcases h with h | ⟨v, hv, hmap⟩
  · have hnone := mapGet_decoded_none h
    exact ⟨fun gw => ⟨.cannotGetResult,
        by simp [addDefaultGWCacheBytes, jsonUnmarshal, hnone], Or.inl rfl⟩,
      fun a b => ⟨.cannotGetResult,
        by simp [deleteDefaultGWCacheBytes, jsonUnmarshal, hnone], Or.inl rfl⟩⟩
  · exact ⟨fun gw => ⟨.wrongResultType,
        by simp [addDefaultGWCacheBytes, jsonUnmarshal, hv, hmap], Or.inr rfl⟩,
      fun a b => ⟨.wrongResultType,
        by simp [deleteDefaultGWCacheBytes, jsonUnmarshal, hv, hmap], Or.inr rfl⟩⟩

/-- C18 at a document without a result member. -/
theorem C18_missing_result_fatal_witness :
    (∀ gw, ∃ e, addDefaultGWCacheBytes (.text (.obj [("kind", .str "cniCacheV1")])) gw = .error e ∧
      (e = .cannotGetResult ∨ e = .wrongResultType)) ∧
    (∀ ipv4 ipv6, ∃ e,
      deleteDefaultGWCacheBytes (.text (.obj [("kind", .str "cniCacheV1")])) ipv4 ipv6 = .error e ∧
      (e = .cannotGetResult ∨ e = .wrongResultType)) :=
  C18_missing_result_fatal [("kind", .str "cniCacheV1")] (Or.inl (by decide))

/-- C19: when add or delete succeeds on a result, on the unified schema every
binding other than the top-level routes is as it was; on the legacy schema
every binding other than ip4 and ip6 is as it was and each of ip4 and ip6 is
as it was or is an object before and after that differs at most in its
routes; on a unified result without routes delete returns the result itself. -/
theorem C19_other_fields_kept (result r' : GoMap) (gw : List IP) (ipv4 ipv6 : Bool)
    (h : addDefaultGWResult result gw = .ok r' ∨
      deleteDefaultGWResult result ipv4 ipv6 = .ok r') :
    (isUnified result = true → ∀ k, k ≠ "routes" → mapGet r' k = mapGet result k) ∧
    (isLegacy result = true →
      (∀ k, k ≠ "ip4" → k ≠ "ip6" → mapGet r' k = mapGet result k) ∧
      SameButRoutes (mapGet result "ip4") (mapGet r' "ip4") ∧
      SameButRoutes (mapGet result "ip6") (mapGet r' "ip6")) ∧
    (isUnified result = true → mapGet result "routes" = none →
      deleteDefaultGWResult result ipv4 ipv6 = .ok result) := by
  refine ⟨?_, ?_, ?_⟩
  · intro hu k hk
    rcases h with h | h
    · rw [addDefaultGWResult_unified hu] at h
      exact addUnified_frame h k (Ne.symm hk)
    · rw [deleteDefaultGWResult_unified hu] at h
      exact deleteUnified_frame h k (Ne.symm hk)
  · intro hl
    rcases h with h | h
    · rw [addDefaultGWResult_legacy hl] at h
      exact ⟨fun k h4 h6 => addDefaultGWResult020_frame gw h k (Ne.symm h4) (Ne.symm h6),
        addDefaultGWResult020_subs gw h⟩
    · rw [deleteDefaultGWResult_legacy hl] at h
      exact ⟨fun k h4 h6 => deleteDefaultGWResult020_frame h k (Ne.symm h4) (Ne.symm h6),
        deleteDefaultGWResult020_subs h⟩
  · intro hu hr
    rw [deleteDefaultGWResult_unified hu]
    unfold deleteUnified
    rw [hr]

/-- C19 at an add on a legacy result with an ip4 object and a sibling field,
and at a delete on a unified result without routes. -/
theorem C19_other_fields_kept_witness :
    addDefaultGWResult [("dns", .map []), ("ip4", .map [("ip", .string "10.0.0.2/24")])] [gw4]
      = .ok [("dns", .map []), ("ip4", .map [("ip", .string "10.0.0.2/24"),
          ("routes", .slice [routeEntry "0.0.0.0/0" "192.168.1.1"])])] ∧
    ((∀ k, k ≠ "ip4" → k ≠ "ip6" →
        mapGet [("dns", .map []), ("ip4", .map [("ip", .string "10.0.0.2/24"),
          ("routes", .slice [routeEntry "0.0.0.0/0" "192.168.1.1"])])] k
        = mapGet [("dns", .map []), ("ip4", .map [("ip", .string "10.0.0.2/24")])] k) ∧
      SameButRoutes
        (mapGet [("dns", .map []), ("ip4", .map [("ip", .string "10.0.0.2/24")])] "ip4")
        (mapGet [("dns", .map []), ("ip4", .map [("ip", .string "10.0.0.2/24"),
          ("routes", .slice [routeEntry "0.0.0.0/0" "192.168.1.1"])])] "ip4") ∧
      SameButRoutes
        (mapGet [("dns", .map []), ("ip4", .map [("ip", .string "10.0.0.2/24")])] "ip6")
        (mapGet [("dns", .map []), ("ip4", .map [("ip", .string "10.0.0.2/24"),
          ("routes", .slice [routeEntry "0.0.0.0/0" "192.168.1.1"])])] "ip6")) ∧
    deleteDefaultGWResult [("cniVersion", .string "1.0.0"), ("dns", .map [])] true true
      = .ok [("cniVersion", .string "1.0.0"), ("dns", .map [])] :=
  ⟨rfl,
    (C19_other_fields_kept [("dns", .map []), ("ip4", .map [("ip", .string "10.0.0.2/24")])]
      _ [gw4] false false (Or.inl rfl)).2.1 rfl,
    (C19_other_fields_kept [("cniVersion", .string "1.0.0"), ("dns", .map [])]
      [("cniVersion", .string "1.0.0"), ("dns", .map [])] [] true true (Or.inr rfl)).2.2 rfl rfl⟩

/-- C20 fails on the code: a legacy-schema delete that filters every entry
of ip4.routes away writes routes as null, and the same delete on that output
fails because null is not an array. -/
theorem C20_second_delete_fails :
    deleteDefaultGWCacheBytes
        (legacyDoc (.arr [routeJson "0.0.0.0/0" "10.0.0.1"]) (.arr [routeJson "fd00::/8" "fe80::1"]))
        true false
      = .ok (legacyDoc .null (.arr [routeJson "fd00::/8" "fe80::1"])) ∧
    deleteDefaultGWCacheBytes (legacyDoc .null (.arr [routeJson "fd00::/8" "fe80::1"])) true false
      = .error .wrongIp4RoutesFormat :=
  ⟨rfl, rfl⟩

end Netutils
